import Mathlib

/-!
# Verification of SSHT (static set-associative hashtable)

Shallow embedding of the core of the SSHT library: the software divisor,
the SWAR guide-scan hint, the varint-framed separated values, the probe /
mapping loops of builder and lookup engine, the artifact loader, and the
batch lookup pipeline.  Machine integers are modelled as `ℕ` with explicit
`% 2^w` where C truncation matters.
-/

namespace SSHT

/-! ## Software divisor (`Divisor<uint64_t>` from utils.h)

`Word` is `uint64_t`, `DoubleWord` is `__uint128_t`.  All `Word`-typed
intermediate results carry an explicit `% 2^64`. -/

structure Divisor64 where
  val : ℕ
  fac : ℕ
  tip : ℕ
  sft : ℕ
deriving Repr, DecidableEq

/-- The `for (; m > n; m >>= 1) m_sft--;` loop of `Divisor::operator=`:
starting from `s = 63` (`m = 2^63`), decrement while `2^s > n`. -/
def calcSftGo : ℕ → ℕ → ℕ
  | 0, _ => 0
  | s+1, n => if n < 2^(s+1) then calcSftGo s n else s+1

def calcSft (n : ℕ) : ℕ := calcSftGo 63 n

/-- `Divisor<uint64_t>::operator=(Word n)` from utils.h.
`m = 2 ^ calcSft n`, `m_fac = (m << 64) / n` (truncated to `Word`),
`r = m_fac * n + n` (`Word` arithmetic). -/
def mkDivisor (n : ℕ) : Divisor64 :=
  if n = 0 then { val := 0, fac := 0, tip := 0, sft := 0 }
  else if 2 ^ calcSft n = n then
    { val := n, fac := 2^64 - 1, tip := 2^64 - 1, sft := calcSft n }
  else if ((2 ^ calcSft n * 2^64 / n % 2^64) * n + n) % 2^64 ≤ 2 ^ calcSft n then
    { val := n, fac := (2 ^ calcSft n * 2^64 / n % 2^64 + 1) % 2^64, tip := 0,
      sft := calcSft n }
  else
    { val := n, fac := 2 ^ calcSft n * 2^64 / n % 2^64,
      tip := 2 ^ calcSft n * 2^64 / n % 2^64, sft := calcSft n }

/-- `Divisor<uint64_t>::div`: `t = (m_fac * m + m_tip) >> 64; return t >> m_sft`. -/
def Divisor64.div (d : Divisor64) (m : ℕ) : ℕ :=
  ((d.fac * m + d.tip) / 2^64 % 2^64) >>> d.sft

/-- `Divisor<uint64_t>::mod`: `t` as in `div`; `return m - m_val * (t >> m_sft)`
(`Word` arithmetic, hence the wrap-around subtraction). -/
def Divisor64.mod (d : Divisor64) (m : ℕ) : ℕ :=
  (m + 2^64 - (d.val * (((d.fac * m + d.tip) / 2^64 % 2^64) >>> d.sft)) % 2^64) % 2^64

lemma calcSftGo_le (s n : ℕ) : calcSftGo s n ≤ s := by
  induction s with
  | zero => simp [calcSftGo]
  | succ s ih =>
    unfold calcSftGo
    split
    · exact le_trans ih (Nat.le_succ s)
    · exact le_refl _

lemma calcSftGo_pow_le (s n : ℕ) (h : 1 ≤ n) : 2 ^ calcSftGo s n ≤ n := by
  induction s with
  | zero => simpa [calcSftGo] using h
  | succ s ih =>
    unfold calcSftGo
    split
    · exact ih
    · omega

lemma calcSftGo_lt (s n : ℕ) (h : n < 2^(s+1)) : n < 2 ^ (calcSftGo s n + 1) := by
  induction s with
  | zero => simpa [calcSftGo] using h
  | succ s ih =>
    unfold calcSftGo
    split
    · exact ih (by assumption)
    · exact h

lemma calcSft_le (n : ℕ) : calcSft n ≤ 63 := calcSftGo_le 63 n

lemma calcSft_pow_le (n : ℕ) (h : 1 ≤ n) : 2 ^ calcSft n ≤ n := calcSftGo_pow_le 63 n h

lemma calcSft_lt (n : ℕ) (h : n < 2^64) : n < 2 ^ (calcSft n + 1) := calcSftGo_lt 63 n h

/-- Quotient computation for the power-of-two branch (`m_fac = m_tip = ~0`). -/
lemma robison_pow2 (n : ℕ) (hn : n < 2^64) : ((2^64 - 1) * n + (2^64 - 1)) / 2^64 = n := by
  have hB : (2:ℕ)^64 = 18446744073709551616 := by norm_num
  rw [hB] at hn ⊢
  apply Nat.div_eq_of_lt_le <;> omega

/-- Robison case `r ≤ m`: the incremented factor with zero tip is exact. -/
lemma robison_case_a (d sft fac0 e : ℕ)
    (hfd : (fac0 + 1) * d = 2^(64+sft) + e) (he2 : e ≤ 2^sft)
    (n : ℕ) (hn : n < 2^64) : (fac0 + 1) * n / 2^(64+sft) = n / d := by
  have hd0 : 0 < d := by
    rcases Nat.eq_zero_or_pos d with h | h
    · subst h
      simp at hfd
      have hp : (0:ℕ) < 2^(64+sft) := pow_pos (by norm_num) _
      omega
    · exact h
  have hqs : d * (n / d) + n % d = n := Nat.div_add_mod n d
  have hs : n % d < d := Nat.mod_lt n hd0
  set q := n / d with hq
  set s := n % d with hsdef
  have key : (fac0 + 1) * n = q * 2^(64+sft) + (q * e + s * (fac0 + 1)) := by
    calc (fac0 + 1) * n = (fac0 + 1) * (d * q + s) := by rw [hqs]
    _ = ((fac0 + 1) * d) * q + s * (fac0 + 1) := by ring
    _ = (2^(64+sft) + e) * q + s * (fac0 + 1) := by rw [hfd]
    _ = q * 2^(64+sft) + (q * e + s * (fac0 + 1)) := by ring
  have hmain : q * e + s * (fac0 + 1) < 2^(64+sft) := by
    have hbound : d * (q * e + s * (fac0 + 1)) < d * 2^(64+sft) := by
      calc d * (q * e + s * (fac0 + 1)) = (d * q) * e + s * ((fac0 + 1) * d) := by ring
      _ = (d * q) * e + s * (2^(64+sft) + e) := by rw [hfd]
      _ = (d * q + s) * e + s * 2^(64+sft) := by ring
      _ = n * e + s * 2^(64+sft) := by rw [hqs]
      _ ≤ (2^64 - 1) * 2^sft + (d - 1) * 2^(64+sft) := by
          apply Nat.add_le_add
          · exact Nat.mul_le_mul (by omega) he2
          · exact Nat.mul_le_mul_right _ (by omega)
      _ < 1 * 2^(64+sft) + (d - 1) * 2^(64+sft) := by
          apply Nat.add_lt_add_right
          have h1 : (2^64 - 1) * 2^sft < 2^64 * 2^sft := by
            apply mul_lt_mul_of_pos_right _ (pow_pos (by norm_num) _)
            have hp : (0:ℕ) < 2^64 := pow_pos (by norm_num) _
            omega
          calc (2^64 - 1) * 2^sft < 2^64 * 2^sft := h1
          _ = 1 * 2^(64+sft) := by rw [pow_add]; ring
      _ = d * 2^(64+sft) := by
          have : 1 + (d - 1) = d := by omega
          calc 1 * 2^(64+sft) + (d - 1) * 2^(64+sft) = (1 + (d - 1)) * 2^(64+sft) := by ring
          _ = d * 2^(64+sft) := by rw [this]
    exact Nat.lt_of_mul_lt_mul_left hbound
  apply Nat.div_eq_of_lt_le
  · omega
  · calc (fac0 + 1) * n = q * 2^(64+sft) + (q * e + s * (fac0 + 1)) := key
    _ < q * 2^(64+sft) + 2^(64+sft) := by omega
    _ = (q + 1) * 2^(64+sft) := by ring

/-- Robison case `r > m`: factor also used as the additive tip is exact. -/
lemma robison_case_b (d sft fac0 rem : ℕ)
    (hfd : fac0 * d + rem = 2^(64+sft)) (hrem1 : 1 ≤ rem) (hrem : rem < 2^sft)
    (n : ℕ) (hn : n < 2^64) : (fac0 * n + fac0) / 2^(64+sft) = n / d := by
  have hd0 : 0 < d := by
    rcases Nat.eq_zero_or_pos d with h | h
    · subst h
      simp at hfd
      have hle : (2:ℕ)^sft ≤ 2^(64+sft) := Nat.pow_le_pow_right (by norm_num) (by omega)
      omega
    · exact h
  have hqs : d * (n / d) + n % d = n := Nat.div_add_mod n d
  have hs : n % d < d := Nat.mod_lt n hd0
  set q := n / d with hq
  set s := n % d with hsdef
  have key : fac0 * n + fac0 + q * rem = q * 2^(64+sft) + (s + 1) * fac0 := by
    calc fac0 * n + fac0 + q * rem = fac0 * (d * q + s) + fac0 + q * rem := by rw [hqs]
    _ = (fac0 * d + rem) * q + (s + 1) * fac0 := by ring
    _ = q * 2^(64+sft) + (s + 1) * fac0 := by rw [hfd]; ring
  have hlow : q * rem ≤ (s + 1) * fac0 := by
    have expand : d * ((s + 1) * fac0) + (s + 1) * rem = (s + 1) * 2^(64+sft) := by
      calc d * ((s + 1) * fac0) + (s + 1) * rem = (s + 1) * (fac0 * d + rem) := by ring
      _ = (s + 1) * 2^(64+sft) := by rw [hfd]
    have split : (d * q) * rem + (s + 1) * rem = (n + 1) * rem := by
      have h : d * q + (s + 1) = n + 1 := by omega
      calc (d * q) * rem + (s + 1) * rem = (d * q + (s + 1)) * rem := by ring
      _ = (n + 1) * rem := by rw [h]
    have hnrem : (n + 1) * rem ≤ (s + 1) * 2^(64+sft) := by
      calc (n + 1) * rem ≤ 2^64 * rem := Nat.mul_le_mul_right _ (by omega)
      _ ≤ 2^64 * 2^sft := Nat.mul_le_mul_left _ (by omega)
      _ = 2^(64+sft) := by rw [pow_add]
      _ ≤ (s + 1) * 2^(64+sft) := Nat.le_mul_of_pos_left _ (by omega)
    have h1 : d * (q * rem) ≤ d * ((s + 1) * fac0) := by
      have e1 : d * (q * rem) = (d * q) * rem := by ring
      omega
    exact Nat.le_of_mul_le_mul_left h1 hd0
  apply Nat.div_eq_of_lt_le
  · omega
  · have hupper : (s + 1) * fac0 < 2^(64+sft) := by
      have h1 : (s + 1) * fac0 ≤ d * fac0 := Nat.mul_le_mul_right _ (by omega)
      have h2 : fac0 * d = d * fac0 := by ring
      omega
    calc fac0 * n + fac0 ≤ q * 2^(64+sft) + (s + 1) * fac0 := by omega
    _ < q * 2^(64+sft) + 2^(64+sft) := by omega
    _ = (q + 1) * 2^(64+sft) := by ring

/-- A number strictly between two adjacent powers of two divides no power of two. -/
lemma pow2_not_dvd (d sft : ℕ) (h1 : 2^sft < d) (h2 : d < 2^(sft+1)) (k : ℕ) :
    ¬ d ∣ 2^k := by
  intro hdvd
  obtain ⟨i, _, hdi⟩ := (Nat.dvd_prime_pow Nat.prime_two).mp hdvd
  subst hdi
  have ha : sft < i := (Nat.pow_lt_pow_iff_right (by norm_num)).mp h1
  have hb : i < sft + 1 := (Nat.pow_lt_pow_iff_right (by norm_num)).mp h2
  omega

/-- Truncated quotient in the non-power-of-two increment branch. -/
lemma robison_div_a (d sft fac0 e n : ℕ)
    (hfd : (fac0 + 1) * d = 2^(64+sft) + e) (he2 : e ≤ 2^sft)
    (hfac1 : fac0 + 1 ≤ 2^64 - 1) (hn : n < 2^64) :
    (((fac0 + 1) * n + 0) / 2^64 % 2^64) >>> sft = n / d := by
  have ht_lt : (fac0 + 1) * n / 2^64 < 2^64 := by
    apply Nat.div_lt_of_lt_mul
    calc (fac0 + 1) * n ≤ (2^64 - 1) * (2^64 - 1) := Nat.mul_le_mul hfac1 (by omega)
    _ < 2^64 * 2^64 := by norm_num
  rw [Nat.add_zero, Nat.mod_eq_of_lt ht_lt, Nat.shiftRight_eq_div_pow,
      Nat.div_div_eq_div_mul, ← pow_add]
  exact robison_case_a d sft fac0 e hfd he2 n hn

/-- Truncated quotient in the non-power-of-two tip branch. -/
lemma robison_div_b (d sft fac0 rem n : ℕ)
    (hfd : fac0 * d + rem = 2^(64+sft)) (hrem1 : 1 ≤ rem) (hrem : rem < 2^sft)
    (hfac : fac0 ≤ 2^64 - 1) (hn : n < 2^64) :
    ((fac0 * n + fac0) / 2^64 % 2^64) >>> sft = n / d := by
  have ht_lt : (fac0 * n + fac0) / 2^64 < 2^64 := by
    apply Nat.div_lt_of_lt_mul
    calc fac0 * n + fac0 ≤ (2^64 - 1) * (2^64 - 1) + (2^64 - 1) :=
      Nat.add_le_add (Nat.mul_le_mul hfac (by omega)) hfac
    _ < 2^64 * 2^64 := by norm_num
  rw [Nat.mod_eq_of_lt ht_lt, Nat.shiftRight_eq_div_pow,
      Nat.div_div_eq_div_mul, ← pow_add]
  exact robison_case_b d sft fac0 rem hfd hrem1 hrem n hn

/-- The quotient `t >> m_sft` computed by `Divisor::div` equals the true quotient. -/
lemma mkDivisor_q (d : ℕ) (hd : 1 ≤ d) (hd64 : d < 2^64) (n : ℕ) (hn : n < 2^64) :
    (((mkDivisor d).fac * n + (mkDivisor d).tip) / 2^64 % 2^64) >>> (mkDivisor d).sft
      = n / d := by
  have hd0 : d ≠ 0 := by omega
  have hsle : calcSft d ≤ 63 := calcSft_le d
  have hpl : 2 ^ calcSft d ≤ d := calcSft_pow_le d hd
  have hpu : d < 2 ^ (calcSft d + 1) := calcSft_lt d hd64
  by_cases hpow : 2 ^ calcSft d = d
  · rw [mkDivisor, if_neg hd0, if_pos hpow]
    simp only
    rw [robison_pow2 n hn, Nat.mod_eq_of_lt hn, Nat.shiftRight_eq_div_pow, hpow]
  · -- d is not a power of two
    have hplt : 2 ^ calcSft d < d := lt_of_le_of_ne hpl hpow
    have hX : 2 ^ calcSft d * 2^64 = 2^(64 + calcSft d) := by rw [pow_add]; ring
    have hdm : d * (2 ^ calcSft d * 2^64 / d) + 2 ^ calcSft d * 2^64 % d
        = 2 ^ calcSft d * 2^64 := Nat.div_add_mod _ d
    have hrem_lt : 2 ^ calcSft d * 2^64 % d < d := Nat.mod_lt _ (by omega)
    have hrem1 : 1 ≤ 2 ^ calcSft d * 2^64 % d := by
      rcases Nat.eq_zero_or_pos (2 ^ calcSft d * 2^64 % d) with h | h
      · exact absurd ((hX ▸ Nat.dvd_of_mod_eq_zero h : d ∣ 2^(64 + calcSft d)))
          (pow2_not_dvd d (calcSft d) hplt hpu _)
      · exact h
    have hfac_ub : 2 ^ calcSft d * 2^64 / d ≤ 2^64 - 2 := by
      by_contra hcon
      push_neg at hcon
      have h1 : (2^64 - 1) * (2 ^ calcSft d + 1) ≤ (2 ^ calcSft d * 2^64 / d) * d :=
        Nat.mul_le_mul (by omega) (by omega)
      have hid : (2^64 - 1) * (2 ^ calcSft d + 1) + (2 ^ calcSft d + 1)
          = 2^64 * 2 ^ calcSft d + 2^64 := by
        have h2 : (2:ℕ)^64 - 1 + 1 = 2^64 := by
          have : (0:ℕ) < 2^64 := pow_pos (by norm_num) _
          omega
        calc (2^64 - 1) * (2 ^ calcSft d + 1) + (2 ^ calcSft d + 1)
            = ((2^64 - 1) + 1) * (2 ^ calcSft d + 1) := by ring
        _ = 2^64 * (2 ^ calcSft d + 1) := by rw [h2]
        _ = 2^64 * 2 ^ calcSft d + 2^64 := by ring
      have hsmall : (2:ℕ) ^ calcSft d ≤ 2^63 := Nat.pow_le_pow_right (by norm_num) hsle
      have hd63 : (2:ℕ)^63 + 2 ≤ 2^64 := by norm_num
      have hcomm : (2 ^ calcSft d * 2^64 / d) * d = d * (2 ^ calcSft d * 2^64 / d) :=
        Nat.mul_comm _ _
      have hX2 : 2 ^ calcSft d * 2^64 = 2^64 * 2 ^ calcSft d := Nat.mul_comm _ _
      omega
    have hfac0_lt : 2 ^ calcSft d * 2^64 / d < 2^64 := by
      have : (0:ℕ) < 2^64 := pow_pos (by norm_num) _
      omega
    have hfacmod : 2 ^ calcSft d * 2^64 / d % 2^64 = 2 ^ calcSft d * 2^64 / d :=
      Nat.mod_eq_of_lt hfac0_lt
    have hr_eq : ((2 ^ calcSft d * 2^64 / d % 2^64) * d + d) % 2^64
        = d - 2 ^ calcSft d * 2^64 % d := by
      rw [hfacmod]
      have h1 : (2 ^ calcSft d * 2^64 / d) * d + d
          = (d - 2 ^ calcSft d * 2^64 % d) + 2^64 * 2 ^ calcSft d := by
        have hcomm : (2 ^ calcSft d * 2^64 / d) * d = d * (2 ^ calcSft d * 2^64 / d) :=
          Nat.mul_comm _ _
        have hX2 : 2 ^ calcSft d * 2^64 = 2^64 * 2 ^ calcSft d := Nat.mul_comm _ _
        omega
      rw [h1, Nat.add_mul_mod_self_left, Nat.mod_eq_of_lt (by omega)]
    rw [mkDivisor, if_neg hd0, if_neg hpow]
    by_cases hcond : ((2 ^ calcSft d * 2^64 / d % 2^64) * d + d) % 2^64 ≤ 2 ^ calcSft d
    · rw [if_pos hcond]
      simp only
      rw [hfacmod, Nat.mod_eq_of_lt (show 2 ^ calcSft d * 2^64 / d + 1 < 2^64 by omega)]
      apply robison_div_a d (calcSft d) _ (d - 2 ^ calcSft d * 2^64 % d) n _ _ (by omega) hn
      · -- (fac0 + 1) * d = 2^(64+sft) + e
        have hcomm : (2 ^ calcSft d * 2^64 / d + 1) * d
            = d * (2 ^ calcSft d * 2^64 / d) + d := by ring
        rw [hcomm, ← hX]
        omega
      · rw [hr_eq] at hcond
        exact hcond
    · rw [if_neg hcond]
      simp only
      rw [hfacmod]
      apply robison_div_b d (calcSft d) _ (2 ^ calcSft d * 2^64 % d) n _ hrem1 _ (by omega) hn
      · rw [← hX]
        have hcomm : (2 ^ calcSft d * 2^64 / d) * d = d * (2 ^ calcSft d * 2^64 / d) :=
          Nat.mul_comm _ _
        omega
      · rw [hr_eq] at hcond
        push_neg at hcond
        have hp2 : d < 2 * 2 ^ calcSft d := by
          have : (2:ℕ) ^ (calcSft d + 1) = 2 * 2 ^ calcSft d := by rw [pow_succ]; ring
          omega
        omega


lemma mkDivisor_val (d : ℕ) (hd : d ≠ 0) : (mkDivisor d).val = d := by
  rw [mkDivisor, if_neg hd]
  split
  · rfl
  · split <;> rfl

lemma mkDivisor_div_eq (d : ℕ) (hd : 1 ≤ d) (hd64 : d < 2^64) (n : ℕ) (hn : n < 2^64) :
    (mkDivisor d).div n = n / d := by
  have hq := mkDivisor_q d hd hd64 n hn
  rw [Divisor64.div, hq]

lemma mkDivisor_mod_eq (d : ℕ) (hd : 1 ≤ d) (hd64 : d < 2^64) (n : ℕ) (hn : n < 2^64) :
    (mkDivisor d).mod n = n % d := by
  have hq := mkDivisor_q d hd hd64 n hn
  rw [Divisor64.mod, hq, mkDivisor_val d (by omega)]
  have h1 : d * (n / d) + n % d = n := Nat.div_add_mod n d
  have h2 : d * (n / d) % 2^64 = d * (n / d) := Nat.mod_eq_of_lt (by omega)
  rw [h2]
  have h3 : n + 2^64 - d * (n / d) = n % d + 2^64 := by omega
  rw [h3, Nat.add_mod_right, Nat.mod_eq_of_lt (by omega)]

/-- C7: for every divisor `1 ≤ d ≤ 2^64 - 1` and every `n` in the `u64` range,
the precomputed software divisor is exact: `div` returns the true quotient and
`mod` the true remainder. -/
theorem divisor_exact (d : ℕ) (hd : 1 ≤ d) (hd64 : d < 2^64) (n : ℕ) (hn : n < 2^64) :
    (mkDivisor d).div n = n / d ∧ (mkDivisor d).mod n = n % d :=
  ⟨mkDivisor_div_eq d hd hd64 n hn, mkDivisor_mod_eq d hd hd64 n hn⟩

/-- Witness for C7 at `d = 3`, `n = 10`. -/
theorem divisor_exact_witness :
    (mkDivisor 3).div 10 = 10 / 3 ∧ (mkDivisor 3).mod 10 = 10 % 3 :=
  divisor_exact 3 (by norm_num) (by norm_num) 10 (by norm_num)

/-! ## Byte vectors, little-endian words, SWAR helpers -/

/-- Little-endian numeric value of a byte list. -/
def leNat : List ℕ → ℕ
  | [] => 0
  | b :: r => b + 256 * leNat r

/-- All entries are bytes. -/
def Bytes (xs : List ℕ) : Prop := ∀ b ∈ xs, b < 256

/-- The `j`-th little-endian byte of a number. -/
def byteAt (x j : ℕ) : ℕ := x / 256^j % 256

/-- Little-endian byte decomposition of a number. -/
def toBytes : ℕ → ℕ → List ℕ
  | 0, _ => []
  | n+1, x => x % 256 :: toBytes n (x / 256)

/-- Fuel-bounded trailing-zero count; 64 fuel covers every 64-bit value. -/
def ctzGo : ℕ → ℕ → ℕ
  | 0, _ => 0
  | f+1, n => if n = 0 ∨ n % 2 = 1 then 0 else ctzGo f (n / 2) + 1

/-- Count of trailing zero bits (`__builtin_ctzll`; only called on nonzero
64-bit arguments by the code). -/
def ctz (n : ℕ) : ℕ := ctzGo 64 n

/-- `CalcHint(vec, mark)` from the lookup engine: byte `j` of the result is
non-zero iff guide byte `j` matches `mark` or has its high bit set.
`~x` on `uint64_t` is modelled as `x ^^^ (2^64 - 1)`. -/
def CalcHint (vec mark : ℕ) : ℕ :=
  let vone := 0x0101010101010101
  let vsign := 0x8080808080808080
  let vmark := (vone * mark) % 2^64 ^^^ (2^64 - 1)
  let mtch := (vec ^^^ vsign) &&& vsign &&&
    (((vec ^^^ vmark) &&& (vsign ^^^ (2^64 - 1))) + vone) % 2^64
  let empty := vec &&& vsign
  empty ||| mtch

/-- Per-byte model of `CalcHint`. -/
def hintByte (mark b : ℕ) : ℕ :=
  (b &&& 0x80) ||| ((b ^^^ 0x80) &&& 0x80 &&& (((b ^^^ (mark ^^^ 0xff)) &&& 0x7f) + 1))

/-! ## `SeparatedValue` (varint-framed value slices) -/

/-- The parse loop of `SeparatedValue(pt, end)` over a byte buffer: `pt` is the
read index, `end` the buffer length.  A `none` result models the null slice;
`some (p, len)` models the slice starting at byte index `p` of length `len`.
`MAX_VALUE_LEN_BIT = 35`. -/
def SeparatedValueLoop (buf : List ℕ) : ℕ → ℕ → ℕ → ℕ → Option (ℕ × ℕ)
  | 0, _, _, _ => none
  | f+1, pt, len, sft =>
    if 35 ≤ sft then none
    else if buf.length ≤ pt then none
    else if buf.getD pt 0 &&& 0x80 ≠ 0 then
      SeparatedValueLoop buf f (pt + 1) (len ||| ((buf.getD pt 0 &&& 0x7f) <<< sft)) (sft + 7)
    else if buf.length < (pt + 1) + (len ||| (buf.getD pt 0 <<< sft)) then none
    else some (pt + 1, len ||| (buf.getD pt 0 <<< sft))

def SeparatedValue (buf : List ℕ) (pt : ℕ) : Option (ℕ × ℕ) :=
  SeparatedValueLoop buf 5 pt 0 0

/-! ### Generic SWAR lemmas -/

lemma and_two_pow_eq (x n : ℕ) : x &&& 2^n = if x.testBit n then 2^n else 0 := by
  apply Nat.eq_of_testBit_eq
  intro i
  rw [Nat.testBit_and, Nat.testBit_two_pow]
  by_cases hx : x.testBit n <;> by_cases hni : n = i <;>
    simp [hx, hni, Nat.testBit_two_pow, Nat.zero_testBit] <;> simp_all

lemma testBit7_iff (b : ℕ) (hb : b < 256) : b.testBit 7 = decide (128 ≤ b) := by
  rw [Nat.testBit_to_div_mod]
  have h : (2:ℕ)^7 = 128 := by norm_num
  rw [h]
  rcases Nat.lt_or_ge b 128 with h1 | h1
  · have : b / 128 = 0 := Nat.div_eq_of_lt h1
    simp [this]
    omega
  · have : b / 128 = 1 := by omega
    simp [this, h1]

lemma land_split (n lo1 hi1 lo2 hi2 : ℕ) (h1 : lo1 < 2^n) (h2 : lo2 < 2^n) :
    (2^n * hi1 + lo1) &&& (2^n * hi2 + lo2) = 2^n * (hi1 &&& hi2) + (lo1 &&& lo2) := by
  apply Nat.eq_of_testBit_eq
  intro i
  rw [Nat.testBit_and, Nat.testBit_mul_pow_two_add _ h1, Nat.testBit_mul_pow_two_add _ h2,
      Nat.testBit_mul_pow_two_add _ (Nat.and_lt_two_pow lo1 h2)]
  by_cases h : i < n <;> simp [h, Nat.testBit_and]

lemma lor_split (n lo1 hi1 lo2 hi2 : ℕ) (h1 : lo1 < 2^n) (h2 : lo2 < 2^n) :
    (2^n * hi1 + lo1) ||| (2^n * hi2 + lo2) = 2^n * (hi1 ||| hi2) + (lo1 ||| lo2) := by
  apply Nat.eq_of_testBit_eq
  intro i
  rw [Nat.testBit_or, Nat.testBit_mul_pow_two_add _ h1, Nat.testBit_mul_pow_two_add _ h2,
      Nat.testBit_mul_pow_two_add _ (Nat.or_lt_two_pow h1 h2)]
  by_cases h : i < n <;> simp [h, Nat.testBit_or]

lemma lxor_split (n lo1 hi1 lo2 hi2 : ℕ) (h1 : lo1 < 2^n) (h2 : lo2 < 2^n) :
    (2^n * hi1 + lo1) ^^^ (2^n * hi2 + lo2) = 2^n * (hi1 ^^^ hi2) + (lo1 ^^^ lo2) := by
  apply Nat.eq_of_testBit_eq
  intro i
  rw [Nat.testBit_xor, Nat.testBit_mul_pow_two_add _ h1, Nat.testBit_mul_pow_two_add _ h2,
      Nat.testBit_mul_pow_two_add _ (Nat.xor_lt_two_pow h1 h2)]
  by_cases h : i < n <;> simp [h, Nat.testBit_xor]

/-! ### `leNat` structure lemmas -/

lemma bytes_cons (b : ℕ) (r : List ℕ) (h : Bytes (b :: r)) : b < 256 ∧ Bytes r :=
  ⟨h b (List.mem_cons_self b r), fun x hx => h x (List.mem_cons_of_mem _ hx)⟩

lemma leNat_lt (xs : List ℕ) (h : Bytes xs) : leNat xs < 256 ^ xs.length := by
  induction xs with
  | nil => simp [leNat]
  | cons b r ih =>
    obtain ⟨hb, hr⟩ := bytes_cons b r h
    have hL := ih hr
    simp only [leNat, List.length_cons, pow_succ]
    omega

lemma leNat_land (xs ys : List ℕ) (hlen : xs.length = ys.length)
    (hx : Bytes xs) (hy : Bytes ys) :
    leNat xs &&& leNat ys = leNat (List.zipWith (· &&& ·) xs ys) := by
  induction xs generalizing ys with
  | nil =>
    cases ys with
    | nil => simp [leNat]
    | cons c s => simp at hlen
  | cons b r ih =>
    cases ys with
    | nil => simp at hlen
    | cons c s =>
      obtain ⟨hb, hr⟩ := bytes_cons b r hx
      obtain ⟨hc, hs⟩ := bytes_cons c s hy
      simp only [leNat, List.zipWith_cons_cons]
      have h256 : (2:ℕ)^8 = 256 := by norm_num
      have e1 : b + 256 * leNat r = 2^8 * leNat r + b := by rw [h256]; omega
      have e2 : c + 256 * leNat s = 2^8 * leNat s + c := by rw [h256]; omega
      rw [e1, e2, land_split 8 b (leNat r) c (leNat s) (h256 ▸ hb) (h256 ▸ hc),
          ih s (by simpa using hlen) hr hs, h256]
      omega

lemma leNat_lor (xs ys : List ℕ) (hlen : xs.length = ys.length)
    (hx : Bytes xs) (hy : Bytes ys) :
    leNat xs ||| leNat ys = leNat (List.zipWith (· ||| ·) xs ys) := by
  induction xs generalizing ys with
  | nil =>
    cases ys with
    | nil => simp [leNat]
    | cons c s => simp at hlen
  | cons b r ih =>
    cases ys with
    | nil => simp at hlen
    | cons c s =>
      obtain ⟨hb, hr⟩ := bytes_cons b r hx
      obtain ⟨hc, hs⟩ := bytes_cons c s hy
      simp only [leNat, List.zipWith_cons_cons]
      have h256 : (2:ℕ)^8 = 256 := by norm_num
      have e1 : b + 256 * leNat r = 2^8 * leNat r + b := by rw [h256]; omega
      have e2 : c + 256 * leNat s = 2^8 * leNat s + c := by rw [h256]; omega
      rw [e1, e2, lor_split 8 b (leNat r) c (leNat s) (h256 ▸ hb) (h256 ▸ hc),
          ih s (by simpa using hlen) hr hs, h256]
      omega

lemma leNat_lxor (xs ys : List ℕ) (hlen : xs.length = ys.length)
    (hx : Bytes xs) (hy : Bytes ys) :
    leNat xs ^^^ leNat ys = leNat (List.zipWith (· ^^^ ·) xs ys) := by
  induction xs generalizing ys with
  | nil =>
    cases ys with
    | nil => simp [leNat]
    | cons c s => simp at hlen
  | cons b r ih =>
    cases ys with
    | nil => simp at hlen
    | cons c s =>
      obtain ⟨hb, hr⟩ := bytes_cons b r hx
      obtain ⟨hc, hs⟩ := bytes_cons c s hy
      simp only [leNat, List.zipWith_cons_cons]
      have h256 : (2:ℕ)^8 = 256 := by norm_num
      have e1 : b + 256 * leNat r = 2^8 * leNat r + b := by rw [h256]; omega
      have e2 : c + 256 * leNat s = 2^8 * leNat s + c := by rw [h256]; omega
      rw [e1, e2, lxor_split 8 b (leNat r) c (leNat s) (h256 ▸ hb) (h256 ▸ hc),
          ih s (by simpa using hlen) hr hs, h256]
      omega

lemma leNat_add (xs ys : List ℕ) (hlen : xs.length = ys.length) :
    leNat xs + leNat ys = leNat (List.zipWith (· + ·) xs ys) := by
  induction xs generalizing ys with
  | nil =>
    cases ys with
    | nil => simp [leNat]
    | cons c s => simp at hlen
  | cons b r ih =>
    cases ys with
    | nil => simp at hlen
    | cons c s =>
      simp only [leNat, List.zipWith_cons_cons]
      rw [← ih s (by simpa using hlen)]
      ring

lemma leNat_byteAt (xs : List ℕ) (hx : Bytes xs) (j : ℕ) (hj : j < xs.length) :
    byteAt (leNat xs) j = xs.getD j 0 := by
  induction xs generalizing j with
  | nil => simp at hj
  | cons b r ih =>
    obtain ⟨hb, hr⟩ := bytes_cons b r hx
    cases j with
    | zero =>
      simp only [byteAt, leNat, pow_zero, Nat.div_one, List.getD_cons_zero]
      rw [Nat.add_mul_mod_self_left, Nat.mod_eq_of_lt hb]
    | succ j =>
      simp only [byteAt, leNat, List.getD_cons_succ]
      rw [pow_succ', ← Nat.div_div_eq_div_mul, Nat.add_mul_div_left _ _ (by norm_num : (0:ℕ) < 256),
          Nat.div_eq_of_lt hb]
      simpa [byteAt] using ih hr j (by simpa using hj)

lemma toBytes_length (n x : ℕ) : (toBytes n x).length = n := by
  induction n generalizing x with
  | zero => simp [toBytes]
  | succ n ih => simp [toBytes, ih]

lemma toBytes_bytes (n x : ℕ) : Bytes (toBytes n x) := by
  induction n generalizing x with
  | zero => intro b hb; simp [toBytes] at hb
  | succ n ih =>
    intro b hb
    simp only [toBytes, List.mem_cons] at hb
    rcases hb with h | h
    · subst h; exact Nat.mod_lt _ (by norm_num)
    · exact ih _ b h

lemma leNat_toBytes (n x : ℕ) (h : x < 256^n) : leNat (toBytes n x) = x := by
  induction n generalizing x with
  | zero => simp [toBytes, leNat] at h ⊢; omega
  | succ n ih =>
    simp only [toBytes, leNat]
    rw [ih (x / 256) (by rw [Nat.div_lt_iff_lt_mul (by norm_num)]; rw [pow_succ] at h; omega)]
    omega

lemma toBytes_getD (n x j : ℕ) (hj : j < n) : (toBytes n x).getD j 0 = byteAt x j := by
  induction n generalizing x j with
  | zero => omega
  | succ n ih =>
    cases j with
    | zero => simp [toBytes, byteAt]
    | succ j =>
      simp only [toBytes, List.getD_cons_succ]
      rw [ih _ j (by omega)]
      simp only [byteAt]
      rw [pow_succ', ← Nat.div_div_eq_div_mul]

/-! ### Per-byte characterisation of `CalcHint` -/

lemma hintByte_spec (m b : ℕ) (hm : m < 128) (hb : b < 256) :
    hintByte m b ≠ 0 ↔ (b = m ∨ 128 ≤ b) := by
  have h128 : (0x80 : ℕ) = 2^7 := by norm_num
  have h127 : (0x7f : ℕ) = 2^7 - 1 := by norm_num
  by_cases hbig : 128 ≤ b
  · have ht : b.testBit 7 = true := by rw [testBit7_iff b hb]; simpa using hbig
    have h1 : b &&& 0x80 = 2^7 := by rw [h128, and_two_pow_eq, ht]; simp
    constructor
    · intro _; exact Or.inr hbig
    · intro _ h0
      unfold hintByte at h0
      rw [h1] at h0
      have h7 : ((2:ℕ)^7 |||
          ((b ^^^ 0x80) &&& 0x80 &&& (((b ^^^ (m ^^^ 0xff)) &&& 0x7f) + 1))).testBit 7
          = false := by
        rw [h0]
        exact Nat.zero_testBit 7
      rw [Nat.testBit_or, Nat.testBit_two_pow_self] at h7
      simp at h7
  · push_neg at hbig
    have ht : b.testBit 7 = false := by
      rw [testBit7_iff b hb]
      simpa using hbig
    have h1 : b &&& 0x80 = 0 := by rw [h128, and_two_pow_eq, ht]; simp
    have ht2 : (b ^^^ 0x80).testBit 7 = true := by
      rw [h128, Nat.testBit_xor, Nat.testBit_two_pow_self, ht]
      rfl
    have h2 : (b ^^^ 0x80) &&& 0x80 = 2^7 := by
      rw [h128, and_two_pow_eq]
      rw [h128] at ht2
      rw [ht2]
      simp
    have hcmod : (b ^^^ (m ^^^ 0xff)) &&& 0x7f = (b ^^^ (m ^^^ 0xff)) % 2^7 := by
      rw [h127, Nat.and_pow_two_sub_one_eq_mod]
    have hclt : (b ^^^ (m ^^^ 0xff)) % 2^7 < 2^7 := Nat.mod_lt _ (by norm_num)
    unfold hintByte
    rw [h1, h2, Nat.zero_or, hcmod]
    have heq : (2^7 &&& ((b ^^^ (m ^^^ 0xff)) % 2^7 + 1) ≠ 0)
        ↔ (b ^^^ (m ^^^ 0xff)) % 2^7 + 1 = 2^7 := by
      constructor
      · intro hne
        by_contra hcc
        have hlt : (b ^^^ (m ^^^ 0xff)) % 2^7 + 1 < 2^7 := by omega
        have hz : (2:ℕ)^7 &&& ((b ^^^ (m ^^^ 0xff)) % 2^7 + 1) = 0 := by
          rw [Nat.and_comm, and_two_pow_eq, Nat.testBit_lt_two_pow hlt]
          simp
        exact hne hz
      · intro hcc
        rw [hcc]
        simp
    have key : ((b ^^^ (m ^^^ 0xff)) % 2^7 + 1 = 2^7) ↔ b = m := by
      constructor
      · intro h
        have hmod : (b ^^^ (m ^^^ 0xff)) % 2^7 = 2^7 - 1 := by omega
        apply Nat.eq_of_testBit_eq
        intro i
        by_cases hi : i < 7
        · have hbit := congrArg (fun x => x.testBit i) hmod
          have h255 : (0xff : ℕ) = 2^8 - 1 := by norm_num
          have hi8 : i < 8 := by omega
          simp only [Nat.testBit_mod_two_pow, Nat.testBit_two_pow_sub_one, h255,
            Nat.testBit_xor] at hbit
          simp only [hi, hi8, decide_True, Bool.true_and] at hbit
          revert hbit
          cases b.testBit i <;> cases m.testBit i <;> decide
        · have h2i : (128:ℕ) ≤ 2^i := by
            calc (128:ℕ) = 2^7 := by norm_num
            _ ≤ 2^i := Nat.pow_le_pow_right (by norm_num) (by omega)
          have hb7 : b.testBit i = false := Nat.testBit_lt_two_pow (by omega)
          have hm7 : m.testBit i = false := Nat.testBit_lt_two_pow (by omega)
          rw [hb7, hm7]
      · intro h
        subst h
        have hx : b ^^^ (b ^^^ 0xff) = 0xff := by
          rw [← Nat.xor_assoc, Nat.xor_self, Nat.zero_xor]
        rw [hx]
        norm_num
    rw [heq, key]
    constructor
    · exact fun h => Or.inl h
    · rintro (h | h)
      · exact h
      · omega

/-! ### Distribution of `CalcHint` over bytes -/

lemma bytes_replicate (n c : ℕ) (hc : c < 256) : Bytes (List.replicate n c) := by
  intro b hb
  rw [List.eq_of_mem_replicate hb]
  exact hc

lemma bytes_map (f : ℕ → ℕ) (xs : List ℕ) (hf : ∀ b ∈ xs, f b < 256) : Bytes (xs.map f) := by
  intro b hb
  simp only [List.mem_map] at hb
  obtain ⟨a, ha, rfl⟩ := hb
  exact hf a ha

lemma zipWith_replicate_right (f : ℕ → ℕ → ℕ) (xs : List ℕ) (n c : ℕ) (h : xs.length = n) :
    List.zipWith f xs (List.replicate n c) = xs.map (fun x => f x c) := by
  induction xs generalizing n with
  | nil => simp
  | cons b r ih =>
    cases n with
    | zero => simp at h
    | succ n =>
      simp only [List.replicate_succ, List.zipWith_cons_cons, List.map_cons]
      rw [ih n (by simpa using h)]

lemma zipWith_map_same (h : ℕ → ℕ → ℕ) (f g : ℕ → ℕ) (xs : List ℕ) :
    List.zipWith h (xs.map f) (xs.map g) = xs.map (fun x => h (f x) (g x)) := by
  induction xs with
  | nil => simp
  | cons b r ih => simp [ih]

lemma leNat_replicate (n c : ℕ) : leNat (List.replicate n c) = c * (leNat (List.replicate n 1)) := by
  induction n with
  | zero => simp [List.replicate, leNat]
  | succ n ih =>
    simp only [List.replicate_succ, leNat, ih]
    ring

/-- `CalcHint` acts independently on the 8 bytes of its input word. -/
lemma calcHint_bytes (vs : List ℕ) (h8 : vs.length = 8) (hvb : Bytes vs) (mark : ℕ)
    (hm : mark < 128) :
    CalcHint (leNat vs) mark = leNat (vs.map (hintByte mark)) := by
  have hone : (0x0101010101010101 : ℕ) = leNat (List.replicate 8 1) := by decide
  have hsign : (0x8080808080808080 : ℕ) = leNat (List.replicate 8 0x80) := by decide
  have hones : (2^64 - 1 : ℕ) = leNat (List.replicate 8 0xff) := by decide
  have hb80 : Bytes (List.replicate 8 (0x80:ℕ)) := bytes_replicate _ _ (by norm_num)
  have hbff : Bytes (List.replicate 8 (0xff:ℕ)) := bytes_replicate _ _ (by norm_num)
  have hlen_rep : ∀ c : ℕ, (List.replicate 8 c).length = 8 := fun c => List.length_replicate 8 c
  -- vone * mark is the byte-replicated mark
  have hmark_mul : (0x0101010101010101 * mark) % 2^64 = leNat (List.replicate 8 mark) := by
    have hval : 0x0101010101010101 * mark = leNat (List.replicate 8 mark) := by
      rw [leNat_replicate]
      have : leNat (List.replicate 8 1) = 0x0101010101010101 := by decide
      rw [this]
      ring
    rw [hval, Nat.mod_eq_of_lt]
    calc leNat (List.replicate 8 mark) < 256 ^ (List.replicate 8 mark).length :=
      leNat_lt _ (bytes_replicate _ _ (by omega))
    _ = 2^64 := by rw [hlen_rep]; norm_num
  have hbmark : Bytes (List.replicate 8 mark) := bytes_replicate _ _ (by omega)
  -- vmark = ~(vone * mark), bytewise mark ^^^ 0xff
  have hvmark : (0x0101010101010101 * mark) % 2^64 ^^^ (2^64 - 1)
      = leNat (List.replicate 8 (mark ^^^ 0xff)) := by
    rw [hmark_mul, hones, leNat_lxor _ _ (by rw [hlen_rep, hlen_rep]) hbmark hbff,
        zipWith_replicate_right _ _ _ _ (hlen_rep mark), List.map_replicate]
  have hbmk : Bytes (List.replicate 8 (mark ^^^ 0xff)) :=
    bytes_replicate _ _ (Nat.xor_lt_two_pow (x := mark) (n := 8) (by omega) (by norm_num))
  -- ~vsign, bytewise 0x7f
  have hnsign : (0x8080808080808080 : ℕ) ^^^ (2^64 - 1) = leNat (List.replicate 8 0x7f) := by
    decide
  -- step 1: vec ^^^ vsign
  have step1 : leNat vs ^^^ 0x8080808080808080
      = leNat (vs.map (fun b => b ^^^ 0x80)) := by
    rw [hsign, leNat_lxor _ _ (by rw [h8, hlen_rep]) hvb hb80,
        zipWith_replicate_right _ _ _ _ h8]
  have hbs1 : Bytes (vs.map (fun b => b ^^^ 0x80)) :=
    bytes_map _ _ (fun b hbv => Nat.xor_lt_two_pow (n := 8) (hvb b hbv) (by norm_num))
  -- step 2: (vec ^^^ vsign) &&& vsign
  have step2 : leNat (vs.map (fun b => b ^^^ 0x80)) &&& 0x8080808080808080
      = leNat (vs.map (fun b => (b ^^^ 0x80) &&& 0x80)) := by
    rw [hsign, leNat_land _ _ (by simp [h8]) hbs1 hb80,
        zipWith_replicate_right _ _ _ _ (by simp [h8]), List.map_map]
    rfl
  have hbs2 : Bytes (vs.map (fun b => (b ^^^ 0x80) &&& 0x80)) :=
    bytes_map _ _ (fun b _ => lt_of_le_of_lt Nat.and_le_right (by norm_num))
  -- step 3: vec ^^^ vmark
  have step3 : leNat vs ^^^ ((0x0101010101010101 * mark) % 2^64 ^^^ (2^64 - 1))
      = leNat (vs.map (fun b => b ^^^ (mark ^^^ 0xff))) := by
    rw [hvmark, leNat_lxor _ _ (by rw [h8, hlen_rep]) hvb hbmk,
        zipWith_replicate_right _ _ _ _ h8]
  have hbs3 : Bytes (vs.map (fun b => b ^^^ (mark ^^^ 0xff))) :=
    bytes_map _ _ (fun b hbv => Nat.xor_lt_two_pow (n := 8) (hvb b hbv)
      (Nat.xor_lt_two_pow (by omega) (by norm_num)))
  -- step 4: (vec ^^^ vmark) &&& ~vsign
  have step4 : leNat (vs.map (fun b => b ^^^ (mark ^^^ 0xff))) &&& (0x8080808080808080 ^^^ (2^64 - 1))
      = leNat (vs.map (fun b => (b ^^^ (mark ^^^ 0xff)) &&& 0x7f)) := by
    rw [hnsign, leNat_land _ _ (by simp [h8]) hbs3 (bytes_replicate _ _ (by norm_num)),
        zipWith_replicate_right _ _ _ _ (by simp [h8]), List.map_map]
    rfl
  have hbs4 : ∀ b ∈ vs.map (fun b => (b ^^^ (mark ^^^ 0xff)) &&& 0x7f), b ≤ 0x7f := by
    intro b hbv
    simp only [List.mem_map] at hbv
    obtain ⟨a, _, rfl⟩ := hbv
    exact Nat.and_le_right
  -- step 5: (...) + vone  (bytewise +1, no carries)
  have hbs5 : Bytes (vs.map (fun b => ((b ^^^ (mark ^^^ 0xff)) &&& 0x7f) + 1)) :=
    bytes_map _ _ (fun b _ => lt_of_le_of_lt (Nat.add_le_add_right Nat.and_le_right 1) (by norm_num))
  have step5 : (leNat (vs.map (fun b => (b ^^^ (mark ^^^ 0xff)) &&& 0x7f)) + 0x0101010101010101) % 2^64
      = leNat (vs.map (fun b => ((b ^^^ (mark ^^^ 0xff)) &&& 0x7f) + 1)) := by
    have hz : List.zipWith (· + ·) (vs.map (fun b => (b ^^^ (mark ^^^ 0xff)) &&& 0x7f))
        (List.replicate 8 1) = vs.map (fun b => ((b ^^^ (mark ^^^ 0xff)) &&& 0x7f) + 1) := by
      rw [zipWith_replicate_right _ _ _ _ (by simp [h8]), List.map_map]
      rfl
    rw [hone, leNat_add _ _ (by simp [h8, hlen_rep]), hz, Nat.mod_eq_of_lt]
    calc leNat (vs.map (fun b => ((b ^^^ (mark ^^^ 0xff)) &&& 0x7f) + 1))
        < 256 ^ (vs.map (fun b => ((b ^^^ (mark ^^^ 0xff)) &&& 0x7f) + 1)).length :=
      leNat_lt _ hbs5
    _ = 2^64 := by simp [h8]
  -- step 6: mtch = step2 &&& step5
  have step6 : leNat (vs.map (fun b => (b ^^^ 0x80) &&& 0x80)) &&&
      leNat (vs.map (fun b => ((b ^^^ (mark ^^^ 0xff)) &&& 0x7f) + 1))
      = leNat (vs.map (fun b => ((b ^^^ 0x80) &&& 0x80) &&& (((b ^^^ (mark ^^^ 0xff)) &&& 0x7f) + 1))) := by
    rw [leNat_land _ _ (by simp) hbs2 hbs5, zipWith_map_same]
  have hbs6 : Bytes (vs.map (fun b => ((b ^^^ 0x80) &&& 0x80) &&& (((b ^^^ (mark ^^^ 0xff)) &&& 0x7f) + 1))) :=
    bytes_map _ _ (fun b _ => lt_of_le_of_lt Nat.and_le_left (lt_of_le_of_lt Nat.and_le_right (by norm_num)))
  -- step 7: empty = vec &&& vsign
  have step7 : leNat vs &&& 0x8080808080808080 = leNat (vs.map (fun b => b &&& 0x80)) := by
    rw [hsign, leNat_land _ _ (by rw [h8, hlen_rep]) hvb hb80,
        zipWith_replicate_right _ _ _ _ h8]
  have hbs7 : Bytes (vs.map (fun b => b &&& 0x80)) :=
    bytes_map _ _ (fun b hbv => lt_of_le_of_lt Nat.and_le_left (hvb b hbv))
  -- assemble
  simp only [CalcHint]
  rw [step7, step1, step2, step3, step4, step5, step6,
      leNat_lor _ _ (by simp) hbs7 hbs6, zipWith_map_same]
  rfl

lemma getD_map_lt (f : ℕ → ℕ) (xs : List ℕ) (j : ℕ) (hj : j < xs.length) :
    (xs.map f).getD j 0 = f (xs.getD j 0) := by
  induction xs generalizing j with
  | nil => simp at hj
  | cons b r ih =>
    cases j with
    | zero => simp
    | succ j => simpa using ih j (by simpa using hj)

lemma hintByte_lt (mark b : ℕ) : hintByte mark b < 256 := by
  apply Nat.or_lt_two_pow (n := 8)
  · exact lt_of_le_of_lt Nat.and_le_right (by norm_num)
  · exact lt_of_le_of_lt (le_trans Nat.and_le_left Nat.and_le_right) (by norm_num)

/-- C9: for every 64-bit word `vec` of 8 guide bytes and every 7-bit `mark`,
byte `j` of the SWAR hint word `CalcHint vec mark` is non-zero iff byte `j` of
`vec` equals `mark` or has its high bit set. -/
theorem calcHint_byte_iff (vec : ℕ) (hvec : vec < 2^64) (mark : ℕ) (hm : mark < 0x80)
    (j : ℕ) (hj : j < 8) :
    byteAt (CalcHint vec mark) j ≠ 0 ↔ (byteAt vec j = mark ∨ 128 ≤ byteAt vec j) := by
  have h64 : (256:ℕ)^8 = 2^64 := by norm_num
  have hv : leNat (toBytes 8 vec) = vec := leNat_toBytes 8 vec (by rw [h64]; exact hvec)
  have hlen : (toBytes 8 vec).length = 8 := toBytes_length 8 vec
  have hb : Bytes (toBytes 8 vec) := toBytes_bytes 8 vec
  have hbm : Bytes ((toBytes 8 vec).map (hintByte mark)) :=
    bytes_map _ _ (fun b _ => hintByte_lt mark b)
  rw [← hv, calcHint_bytes _ hlen hb mark hm,
      leNat_byteAt _ hbm j (by simpa [hlen] using hj),
      leNat_byteAt _ hb j (by simpa [hlen] using hj),
      getD_map_lt _ _ j (by simpa [hlen] using hj),
      toBytes_getD 8 vec j hj]
  exact hintByte_spec mark (byteAt vec j) hm (Nat.mod_lt _ (by norm_num))

/-- Witness for C9 at `vec = 0x80`, `mark = 5`, `j = 0`. -/
theorem calcHint_byte_iff_witness :
    byteAt (CalcHint 0x80 5) 0 ≠ 0 ↔ (byteAt 0x80 0 = 5 ∨ 128 ≤ byteAt 0x80 0) :=
  calcHint_byte_iff 0x80 (by norm_num) 5 (by norm_num) 0 (by norm_num)

/-! ### Safety of the varint parse -/

lemma separatedValueLoop_safe (buf : List ℕ) :
    ∀ f pt len sft,
    (SeparatedValueLoop buf f pt len sft = none) ∨
    (∃ p l, SeparatedValueLoop buf f pt len sft = some (p, l) ∧ pt < p ∧
      p ≤ pt + f ∧ p + l ≤ buf.length) := by
  intro f
  induction f with
  | zero => intro pt len sft; exact Or.inl rfl
  | succ f ih =>
    intro pt len sft
    rw [SeparatedValueLoop]
    split
    · exact Or.inl rfl
    · split
      · exact Or.inl rfl
      · split
        · rcases ih (pt + 1) (len ||| ((buf.getD pt 0 &&& 0x7f) <<< sft)) (sft + 7) with
            h | ⟨p, l, heq, h1, h2, h3⟩
          · exact Or.inl h
          · exact Or.inr ⟨p, l, heq, by omega, by omega, h3⟩
        · split
          · exact Or.inl rfl
          · rename_i hover
            exact Or.inr ⟨pt + 1, len ||| (buf.getD pt 0 <<< sft), rfl, by omega, by omega,
              by omega⟩

/-- C10: `SeparatedValue(pt, end)` stays inside the buffer: for every index
`pt ≤ end` (`end` is the buffer length) it either returns a slice whose
payload lies entirely within the buffer, preceded by a varint prefix of at
most 5 bytes, or returns the null slice (`none`). -/
theorem separatedValue_safe (buf : List ℕ) (pt : ℕ) (hpt : pt ≤ buf.length) :
    (SeparatedValue buf pt = none) ∨
    (∃ p l, SeparatedValue buf pt = some (p, l) ∧ pt < p ∧ p ≤ pt + 5 ∧
      p + l ≤ buf.length) := by
  have h := separatedValueLoop_safe buf 5 pt 0 0
  rcases h with h | ⟨p, l, heq, h1, h2, h3⟩
  · exact Or.inl h
  · exact Or.inr ⟨p, l, heq, h1, by omega, h3⟩

/-- Witness for C10 on the buffer `[0x02, 0xaa, 0xbb]` at `pt = 0`. -/
theorem separatedValue_safe_witness :
    (SeparatedValue [0x02, 0xaa, 0xbb] 0 = none) ∨
    (∃ p l, SeparatedValue [0x02, 0xaa, 0xbb] 0 = some (p, l) ∧ 0 < p ∧ p ≤ 0 + 5 ∧
      p + l ≤ [0x02, 0xaa, 0xbb].length) :=
  separatedValue_safe [0x02, 0xaa, 0xbb] 0 (by norm_num)

/-! ## Artifact views and key hashing -/

/-- `Hashtable::Type` values. -/
def KEY_SET : ℕ := 0
def KV_INLINE : ℕ := 1
def KV_SEPARATED : ℕ := 2
def ILLEGAL_TYPE : ℕ := 0xff

def SSHT_MAGIC : ℕ := 0x54485353
def OFFSET_FIELD_SIZE : ℕ := 6
def MAX_VALUE_LEN : ℕ := 2^35 - 1
def MAX_OFFSET : ℕ := 2^48 - 1

/-- `Hashtable::View`.  `content` is modelled as the list of `slot` rows of
`line_size` bytes each (the flat C buffer row-sliced); `extend` is the byte
region from the extend offset up to `space_end`, so `extend.length` plays the
role of `space_end - extend`. -/
structure View where
  type : ℕ := ILLEGAL_TYPE
  key_len : ℕ := 0
  val_len : ℕ := 0
  line_size : ℕ := 0
  seed : ℕ := 0
  item : ℕ := 0
  set_cnt : ℕ := 0
  guide : List ℕ := []
  content : List (List ℕ) := []
  extend : List ℕ := []
deriving Repr, DecidableEq

/-- `HashKey(key, len, seed, set_cnt)`: `(set, mark, sft)`.  `H` abstracts the
external `Hash` function, whose implementation file is not under src/ (the
spec leaves it unconstrained); every theorem holds for an arbitrary `H`.  The
`% 2^64` truncation makes the result a `uint64_t`.  The set index goes through
the software divisor, as in the source. -/
def HashKey (H : List ℕ → ℕ → ℕ) (key : List ℕ) (seed : ℕ) (set_cnt : ℕ) : ℕ × ℕ × ℕ :=
  ((mkDivisor set_cnt).mod (H key seed % 2^64),
   (H key seed % 2^64) >>> 51 &&& 0x7f,
   (H key seed % 2^64) >>> 58)

/-- Unaligned 8-byte little-endian load from the guide. -/
def load64 (g : List ℕ) (i : ℕ) : ℕ := leNat ((g.drop i).take 8)

/-! ## Single-key lookup (`Search` from the lookup engine) -/

/-- `HANDLE_SLOT(pos)` at absolute slot index `slot`: `some (some val)` models
returning `line + key_len` (the value field bytes), `some none` models
returning `nullptr`, `none` falls through to the next probe. -/
def handleSlot (v : View) (key : List ℕ) (mark slot : ℕ) : Option (Option (List ℕ)) :=
  if v.guide.getD slot 0 = mark then
    if key = (v.content.getD slot []).take v.key_len then
      some (some ((v.content.getD slot []).drop v.key_len))
    else none
  else if v.guide.getD slot 0 &&& 0x80 ≠ 0 then some none
  else none

/-- The `for (hint = CalcHint(..); hint != 0; hint &= (hint-1))` candidate
loop of `Search`; the fuel (64 at the call site) bounds the number of set
bits of `hint` and never runs out. -/
def searchGroup (v : View) (key : List ℕ) (mark set off : ℕ) :
    ℕ → ℕ → Option (Option (List ℕ))
  | 0, _ => none
  | fuel+1, hint =>
    if hint = 0 then none
    else
      match handleSlot v key mark (set * 64 + (off + (((ctz hint + 1) >>> 3) - 1))) with
      | some r => some r
      | none => searchGroup v key mark set off fuel (hint &&& (hint - 1))

/-- The per-set `for (j = sft; j < sft+64;)` scan of `Search`: 8 guide bytes
at a time through `CalcHint` while `j <= sft+56 && off <= 56`, else one byte
at a time.  The fuel (64 at the call site) bounds the number of loop
iterations and never runs out. -/
def searchInSet (v : View) (key : List ℕ) (mark set sft : ℕ) :
    ℕ → ℕ → Option (Option (List ℕ))
  | 0, _ => none
  | fuel+1, j =>
    if sft + 64 ≤ j then none
    else if j ≤ sft + 56 ∧ j % 64 ≤ 56 then
      match searchGroup v key mark set (j % 64) 64
          (CalcHint (load64 v.guide (set * 64 + j % 64)) mark) with
      | some r => some r
      | none => searchInSet v key mark set sft fuel (j + 8)
    else
      match handleSlot v key mark (set * 64 + j % 64) with
      | some r => some r
      | none => searchInSet v key mark set sft fuel (j + 1)

/-- The outer set loop of `Search`
(`while (true) { …; if (++set >= set_cnt) set = 0; }`), with fuel counting
set visits (`none` = fuel exhausted). -/
def SearchLoop (v : View) (key : List ℕ) (mark sft set : ℕ) :
    ℕ → Option (Option (List ℕ))
  | 0 => none
  | fuel+1 =>
    match searchInSet v key mark set sft 64 sft with
    | some r => some r
    | none =>
      SearchLoop v key mark sft (if v.set_cnt ≤ set + 1 then 0 else set + 1) fuel

/-- `Search(pack, key)`. -/
def Search (H : List ℕ → ℕ → ℕ) (v : View) (key : List ℕ) (fuel : ℕ) :
    Option (Option (List ℕ)) :=
  SearchLoop v key (HashKey H key v.seed v.set_cnt).2.1
    (HashKey H key v.seed v.set_cnt).2.2 (HashKey H key v.seed v.set_cnt).1 fuel

/-! ## Reference (byte-at-a-time) probe chain -/

/-- The `t`-th slot visited by the probe chain of a key hashed to
`(set0, sft)`: each set is scanned at offsets `(sft + i) % 64`, and after 64
offsets the next set (cyclically) is scanned the same way. -/
def probeSlot (set0 sft set_cnt t : ℕ) : ℕ :=
  ((set0 + t / 64) % set_cnt) * 64 + (sft + t % 64) % 64

/-- First non-continue outcome of `handleSlot` along the probe chain
starting at chain index `t`. -/
def probeFirst (v : View) (key : List ℕ) (mark set0 sft : ℕ) :
    ℕ → ℕ → Option (Option (List ℕ))
  | _, 0 => none
  | t, fuel+1 =>
    match handleSlot v key mark (probeSlot set0 sft v.set_cnt t) with
    | some r => some r
    | none => probeFirst v key mark set0 sft (t + 1) fuel

/-! ## Builder mapping (`Mapping` from the builder, single-threaded) -/

/-- Inner offset loop of the builder's `Mapping` at set `set`.  This is the
single-threaded semantics of the CAS protocol: the CAS from `0xff` always
succeeds, and the `0x80` reserved sentinel is never observed because no
concurrent builder exists, so the spin-wait disappears.  `fill` is the row
written by the fill callback.  `none` = the 64 offsets of this set are
exhausted without installing or finding a duplicate. -/
def MappingInSet (key_len : ℕ) (key fill : List ℕ) (mark : ℕ)
    (guide : List ℕ) (content : List (List ℕ)) (set sft : ℕ) :
    ℕ → ℕ → Option (Bool × List ℕ × List (List ℕ))
  | 0, _ => none
  | fuel+1, j =>
    if sft + 64 ≤ j then none
    else if guide.getD (set * 64 + j % 64) 0 = 0xff then
      some (true, guide.set (set * 64 + j % 64) mark, content.set (set * 64 + j % 64) fill)
    else if guide.getD (set * 64 + j % 64) 0 = mark ∧
        key = (content.getD (set * 64 + j % 64) []).take key_len then
      some (false, guide, content)
    else MappingInSet key_len key fill mark guide content set sft fuel (j + 1)

/-- Outer set loop of `Mapping`
(`while (true) { for (j = sft; …); if (++set >= set_cnt) set = 0; }`), fuel
in set visits. -/
def MappingLoop (set_cnt_val key_len : ℕ) (key fill : List ℕ) (mark sft : ℕ)
    (guide : List ℕ) (content : List (List ℕ)) (set : ℕ) :
    ℕ → Option (Bool × List ℕ × List (List ℕ))
  | 0 => none
  | fuel+1 =>
    match MappingInSet key_len key fill mark guide content set sft 64 sft with
    | some r => some r
    | none =>
      MappingLoop set_cnt_val key_len key fill mark sft guide content
        (if set_cnt_val ≤ set + 1 then 0 else set + 1) fuel

/-- `Mapping(guide, space, header, set_cnt, key, fill)` (single-threaded):
returns `some (installed, guide', content')`, or `none` when the fuel (in set
visits) runs out. -/
def Mapping (H : List ℕ → ℕ → ℕ) (set_cnt_val key_len seed : ℕ)
    (key fill : List ℕ) (guide : List ℕ) (content : List (List ℕ)) (fuel : ℕ) :
    Option (Bool × List ℕ × List (List ℕ)) :=
  MappingLoop set_cnt_val key_len key fill (HashKey H key seed set_cnt_val).2.1
    (HashKey H key seed set_cnt_val).2.2 guide content
    (HashKey H key seed set_cnt_val).1 fuel

/-- `CalcSetCnt(item)`:
`(((item + reserved + 63) / 64) & ~1ULL) + 1` with
`reserved = (item + 15) / 16`. -/
def CalcSetCnt (item : ℕ) : ℕ :=
  (((item + (item + 15) / 16 + 63) / 64) &&& (2^64 - 2)) + 1

/-! ## `ctz` arithmetic -/

lemma ctzGo_mono : ∀ f g n, n < 2^f → f ≤ g → ctzGo f n = ctzGo g n := by
  intro f
  induction f with
  | zero =>
    intro g n hn _
    have hn0 : n = 0 := by simpa using hn
    subst hn0
    cases g with
    | zero => rfl
    | succ g => simp [ctzGo]
  | succ f ih =>
    intro g n hn hfg
    cases g with
    | zero => omega
    | succ g =>
      simp only [ctzGo]
      by_cases h : n = 0 ∨ n % 2 = 1
      · simp [h]
      · simp only [h, if_false]
        have hp : (2:ℕ)^(f+1) = 2 * 2^f := by rw [pow_succ]; ring
        rw [ih g (n / 2) (by omega) (by omega)]

lemma ctz_odd (n : ℕ) (h : n % 2 = 1) : ctz n = 0 := by
  show ctzGo (63+1) n = 0
  rw [ctzGo]
  simp [h]

lemma ctz_even (n : ℕ) (h64 : n < 2^64) (h0 : n ≠ 0) (h : n % 2 = 0) :
    ctz n = ctz (n / 2) + 1 := by
  have h1 : ctzGo 64 n = ctzGo 65 n := ctzGo_mono 64 65 n h64 (by omega)
  show ctzGo 64 n = ctzGo 64 (n / 2) + 1
  rw [h1, show (65:ℕ) = 64 + 1 from rfl, ctzGo]
  have hne : ¬(n = 0 ∨ n % 2 = 1) := by omega
  simp [hne]

lemma ctz_two_mul (n : ℕ) (h : n ≠ 0) (h64 : 2 * n < 2^64) :
    ctz (2 * n) = ctz n + 1 := by
  rw [ctz_even (2 * n) h64 (by omega) (by omega)]
  congr 2
  omega

lemma ctz_pow2_mul (k n : ℕ) (h : n ≠ 0) (h64 : 2^k * n < 2^64) :
    ctz (2^k * n) = k + ctz n := by
  induction k with
  | zero => simp
  | succ k ih =>
    have he : (2:ℕ)^(k+1) * n = 2 * (2^k * n) := by ring
    have hne : 2^k * n ≠ 0 := by
      have hp : (0:ℕ) < 2^k := pow_pos (by norm_num) _
      intro hc
      rcases Nat.mul_eq_zero.mp hc with h' | h' <;> omega
    have hle : 2^k * n < 2^64 := by
      have : (2:ℕ)^k * n ≤ 2^(k+1) * n :=
        Nat.mul_le_mul_right _ (Nat.pow_le_pow_right (by norm_num) (by omega))
      omega
    rw [he, ctz_two_mul _ hne (by rw [← he]; exact h64), ih hle]
    omega

lemma ctz_mul_256 (n : ℕ) (h : n ≠ 0) (h64 : 256 * n < 2^64) :
    ctz (256 * n) = 8 + ctz n := by
  have h256 : (256:ℕ) = 2^8 := by norm_num
  rw [h256] at h64 ⊢
  exact ctz_pow2_mul 8 n h h64

lemma ctz_pow2_mul_odd (k m : ℕ) (h64 : 2^k * (2 * m + 1) < 2^64) :
    ctz (2^k * (2 * m + 1)) = k := by
  rw [ctz_pow2_mul k _ (by omega) h64, ctz_odd _ (by omega)]
  omega

lemma ctz_testBit (n : ℕ) (h : n ≠ 0) (h64 : n < 2^64) : n.testBit (ctz n) = true := by
  induction n using Nat.strong_induction_on with
  | _ n IH =>
    rcases Nat.even_or_odd n with he | ho
    · have h2 : n % 2 = 0 := Nat.even_iff.mp he
      rw [ctz_even n h64 h h2, Nat.testBit_succ]
      exact IH (n / 2) (Nat.div_lt_self (by omega) (by norm_num)) (by omega) (by omega)
    · have h2 : n % 2 = 1 := Nat.odd_iff.mp ho
      rw [ctz_odd n h2]
      simp [Nat.testBit_zero, h2]

/-- Bits of a SWAR hint word sit only at positions `8b + 7`. -/
def HintWord (n : ℕ) : Prop := ∀ i, n.testBit i = true → i % 8 = 7

lemma hintWord_leNat (hb : List ℕ) (hvals : ∀ x ∈ hb, x = 0 ∨ x = 128) :
    HintWord (leNat hb) := by
  induction hb with
  | nil => intro i hi; simp [leNat, Nat.zero_testBit] at hi
  | cons b t ih =>
    intro i hi
    have hb256 : b < 256 := by rcases hvals b (List.mem_cons_self b t) with h | h <;> omega
    have hform : leNat (b :: t) = 2^8 * leNat t + b := by simp [leNat]; ring
    rw [hform, Nat.testBit_mul_pow_two_add _ (by simpa using hb256)] at hi
    by_cases hlt : i < 8
    · simp only [hlt, if_true] at hi
      rcases hvals b (List.mem_cons_self b t) with h | h
      · subst h; simp [Nat.zero_testBit] at hi
      · subst h
        have : (128:ℕ) = 2^7 := by norm_num
        rw [this, Nat.testBit_two_pow] at hi
        have : 7 = i := by simpa using hi
        omega
    · simp only [hlt, if_false] at hi
      have := ih (fun x hx => hvals x (List.mem_cons_of_mem _ hx)) (i - 8) hi
      omega

lemma hintWord_clear (n : ℕ) (h : HintWord n) : HintWord (n &&& (n - 1)) := by
  intro i hi
  rw [Nat.testBit_and] at hi
  exact h i (by simpa using (Bool.and_eq_true _ _ |>.mp hi).1)

lemma hintWord_ctz (n : ℕ) (hn : n ≠ 0) (h64 : n < 2^64) (h : HintWord n) :
    ctz n % 8 = 7 :=
  h (ctz n) (ctz_testBit n hn h64)

/-- Clearing the low bit commutes with the byte shift. -/
lemma clear_low_mul256 (R : ℕ) (hR : R ≠ 0) :
    (256 * R) &&& (256 * R - 1) = 256 * (R &&& (R - 1)) := by
  have h1 : 256 * R - 1 = 2^8 * (R - 1) + 255 := by omega
  have h2 : (256:ℕ) * R = 2^8 * R + 0 := by norm_num
  rw [h1, h2, land_split 8 0 R 255 (R - 1) (by norm_num) (by norm_num)]
  simp [Nat.zero_and]

/-- Clearing the low bit of a word whose low byte is `0x80`. -/
lemma clear_low_head128 (R : ℕ) :
    (128 + 256 * R) &&& (128 + 256 * R - 1) = 256 * R := by
  have h1 : 128 + 256 * R - 1 = 2^8 * R + 127 := by omega
  have h2 : 128 + 256 * R = 2^8 * R + 128 := by
    rw [show (2:ℕ)^8 = 256 from by norm_num]
    omega
  rw [h1, h2, land_split 8 128 R 127 R (by norm_num) (by norm_num)]
  rw [Nat.and_self]
  have h3 : (128:ℕ) &&& 127 = 0 := by decide
  rw [h3]
  norm_num

/-! ## Equivalence of the hint scan with byte-at-a-time probing -/

lemma byte_high_iff (b : ℕ) (hb : b < 256) : b &&& 0x80 ≠ 0 ↔ 128 ≤ b := by
  have h128 : (0x80:ℕ) = 2^7 := by norm_num
  rw [h128, and_two_pow_eq, testBit7_iff b hb]
  by_cases h : 128 ≤ b <;> simp [h]

lemma hintByte_cases (mark b : ℕ) (hm : mark < 128) (hb : b < 256) :
    hintByte mark b = 0 ∨ hintByte mark b = 128 := by
  unfold hintByte
  have h128 : (0x80:ℕ) = 2^7 := by norm_num
  have c1 : b &&& 0x80 = 0 ∨ b &&& 0x80 = 128 := by
    rw [h128, and_two_pow_eq]
    split
    · right; norm_num
    · left; rfl
  have c2 : (b ^^^ 0x80) &&& 0x80 = 0 ∨ (b ^^^ 0x80) &&& 0x80 = 128 := by
    rw [h128, and_two_pow_eq]
    split
    · right; norm_num
    · left; rfl
  have c3 : (b ^^^ 0x80) &&& 0x80 &&& (((b ^^^ (mark ^^^ 0xff)) &&& 0x7f) + 1) = 0 ∨
      (b ^^^ 0x80) &&& 0x80 &&& (((b ^^^ (mark ^^^ 0xff)) &&& 0x7f) + 1) = 128 := by
    rcases c2 with h | h
    · rw [h, Nat.zero_and]; left; rfl
    · rw [h, Nat.and_comm, show (128:ℕ) = 2^7 from by norm_num, and_two_pow_eq]
      split
      · right; norm_num
      · left; rfl
  rcases c1 with h1 | h1 <;> rcases c3 with h3 | h3 <;> rw [h1, h3]
  · left; rfl
  · right; simp
  · right; simp
  · right; decide

/-- Pushing a factor of 256 out of the hint word advances the scan base by
one byte. -/
lemma searchGroup_shift (v : View) (key : List ℕ) (mark set : ℕ) :
    ∀ fuel R, HintWord R → R < 2^56 → ∀ off,
    searchGroup v key mark set off fuel (256 * R)
      = searchGroup v key mark set (off + 1) fuel R := by
  intro fuel
  induction fuel with
  | zero => intro R _ _ off; rfl
  | succ f IH =>
    intro R hR hR56 off
    by_cases hR0 : R = 0
    · subst hR0
      simp [searchGroup]
    · conv_lhs => rw [searchGroup]
      conv_rhs => rw [searchGroup]
      rw [if_neg (show ¬256 * R = 0 by
        have : 0 < 256 * R := by positivity
        omega), if_neg hR0]
      have h64 : 256 * R < 2^64 := by
        have : (256:ℕ) * R < 256 * 2^56 := by omega
        calc 256 * R < 256 * 2^56 := this
          _ ≤ 2^64 := by norm_num
      have hctz : ctz (256 * R) = 8 + ctz R := ctz_mul_256 R hR0 h64
      have hc7 : ctz R % 8 = 7 := hintWord_ctz R hR0 (by omega) hR
      have hidx : (((ctz (256 * R) + 1) >>> 3) - 1) = ((((ctz R + 1) >>> 3) - 1) + 1) := by
        rw [hctz, Nat.shiftRight_eq_div_pow, Nat.shiftRight_eq_div_pow,
          show (2:ℕ)^3 = 8 from by norm_num]
        omega
      rw [hidx, show off + ((((ctz R + 1) >>> 3) - 1) + 1)
            = (off + 1) + (((ctz R + 1) >>> 3) - 1) from by omega]
      have hrec : searchGroup v key mark set off f ((256 * R) &&& (256 * R - 1))
          = searchGroup v key mark set (off + 1) f (R &&& (R - 1)) := by
        rw [clear_low_mul256 R hR0]
        have hle : R &&& (R - 1) ≤ R - 1 := Nat.and_le_right
        exact IH (R &&& (R - 1)) (hintWord_clear R hR) (by omega) off
      rw [hrec]

/-- Byte-at-a-time reference scan of a guide window (proof layer). -/
def scanHB (v : View) (key : List ℕ) (mark set : ℕ) : ℕ → List ℕ → Option (Option (List ℕ))
  | _, [] => none
  | off, _ :: t =>
    match handleSlot v key mark (set * 64 + off) with
    | some r => some r
    | none => scanHB v key mark set (off + 1) t

/-- The hint-driven candidate loop visits exactly the stopping slots of the
plain byte scan, in the same order. -/
lemma searchGroup_eq_scanHB (v : View) (key : List ℕ) (mark set : ℕ) (hm : mark < 128) :
    ∀ (gb : List ℕ) (fuel off : ℕ), Bytes gb → gb.length ≤ 8 → gb.length ≤ fuel →
    (∀ i, i < gb.length → v.guide.getD (set * 64 + off + i) 0 = gb.getD i 0) →
    searchGroup v key mark set off fuel (leNat (gb.map (hintByte mark)))
      = scanHB v key mark set off gb := by
  intro gb
  induction gb with
  | nil =>
    intro fuel off _ _ _ _
    cases fuel with
    | zero => rfl
    | succ f => simp [leNat, searchGroup, scanHB]
  | cons b t ih =>
    intro fuel off hbytes hlen8 hfuel hread
    cases fuel with
    | zero => simp at hfuel
    | succ f =>
    have hf : t.length ≤ f := by simp at hfuel; omega
    have ht8 : t.length ≤ 7 := by simp at hlen8; omega
    have hR56 : leNat (t.map (hintByte mark)) < 2^56 := by
      have hb2 : Bytes (t.map (hintByte mark)) := by
        intro x hx
        simp only [List.mem_map] at hx
        obtain ⟨a, ha, rfl⟩ := hx
        rcases hintByte_cases mark a hm ((bytes_cons b t hbytes).2 a ha) with h | h <;> omega
      have := leNat_lt (t.map (hintByte mark)) hb2
      rw [List.length_map] at this
      calc leNat (t.map (hintByte mark)) < 256 ^ t.length := this
        _ ≤ 256 ^ 7 := Nat.pow_le_pow_right (by norm_num) ht8
        _ = 2^56 := by norm_num
    have hb256 : b < 256 := (bytes_cons b t hbytes).1
    have ht : Bytes t := (bytes_cons b t hbytes).2
    have hhw : HintWord (leNat (t.map (hintByte mark))) := by
      apply hintWord_leNat
      intro x hx
      simp only [List.mem_map] at hx
      obtain ⟨a, ha, rfl⟩ := hx
      exact hintByte_cases mark a hm (ht a ha)
    have hread0 : v.guide.getD (set * 64 + off) 0 = b := by
      have := hread 0 (by simp)
      simpa using this
    have hreadt : ∀ i, i < t.length →
        v.guide.getD (set * 64 + (off + 1) + i) 0 = t.getD i 0 := by
      intro i hi
      have h := hread (i + 1) (by simp; omega)
      have e : set * 64 + off + (i + 1) = set * 64 + (off + 1) + i := by omega
      rw [e] at h
      simpa using h
    rcases hintByte_cases mark b hm hb256 with hz | ho
    · have hhb : leNat ((b :: t).map (hintByte mark))
          = 256 * leNat (t.map (hintByte mark)) := by
        simp [leNat, hz]
      rw [hhb, searchGroup_shift v key mark set (f + 1) _ hhw hR56 off,
        ih (f + 1) (off + 1) ht (by omega) (by omega) hreadt]
      have hspec := hintByte_spec mark b hm hb256
      rw [hz] at hspec
      have hnot : ¬(b = mark ∨ 128 ≤ b) := by
        intro hcon
        exact (by simpa using hspec.mpr hcon : False)
      push_neg at hnot
      have hnc : handleSlot v key mark (set * 64 + off) = none := by
        unfold handleSlot
        rw [hread0]
        have hbh : ¬(b &&& 0x80 ≠ 0) := by
          rw [byte_high_iff b hb256]
          omega
        simp only [hnot.1, if_false, hbh]
      rw [scanHB, hnc]
    · have hhb : leNat ((b :: t).map (hintByte mark))
          = 128 + 256 * leNat (t.map (hintByte mark)) := by
        simp [leNat, ho]
      rw [hhb, searchGroup]
      have hne : ¬(128 + 256 * leNat (t.map (hintByte mark)) = 0) := by omega
      rw [if_neg hne]
      have hctz : ctz (128 + 256 * leNat (t.map (hintByte mark))) = 7 := by
        rw [show 128 + 256 * leNat (t.map (hintByte mark))
            = 2^7 * (2 * leNat (t.map (hintByte mark)) + 1) from by ring]
        refine ctz_pow2_mul_odd 7 _ ?_
        have h56 : leNat (t.map (hintByte mark)) < 72057594037927936 := by
          calc leNat (t.map (hintByte mark)) < 2^56 := hR56
            _ = 72057594037927936 := by norm_num
        have he : (2:ℕ)^7 * (2 * leNat (t.map (hintByte mark)) + 1)
            = 128 + 256 * leNat (t.map (hintByte mark)) := by ring
        rw [he, show (2:ℕ)^64 = 18446744073709551616 from by norm_num]
        omega
      rw [hctz, show (((7 + 1) >>> 3) - 1 : ℕ) = 0 from by decide, scanHB,
        show off + 0 = off from by omega]
      have hrec : searchGroup v key mark set off f
            ((128 + 256 * leNat (t.map (hintByte mark))) &&&
              (128 + 256 * leNat (t.map (hintByte mark)) - 1))
          = scanHB v key mark set (off + 1) t := by
        rw [clear_low_head128, searchGroup_shift v key mark set f _ hhw hR56 off,
          ih f (off + 1) ht (by omega) hf hreadt]
      rw [hrec]

/-! ## Per-set scan versus the abstract probe chain -/

lemma getD_slice (g : List ℕ) (a i k : ℕ) (hik : i < k) :
    ((g.drop a).take k).getD i 0 = g.getD (a + i) 0 := by
  rw [List.getD_eq_getElem?_getD, List.getD_eq_getElem?_getD,
      List.getElem?_take_of_lt hik, List.getElem?_drop]

lemma bytes_slice (g : List ℕ) (hg : Bytes g) (a k : ℕ) : Bytes ((g.drop a).take k) :=
  fun b hb => hg b (List.drop_subset a g (List.take_subset k _ hb))

lemma probeSlot_eq (set0 sft sc k i : ℕ) (hi : i < 64) :
    probeSlot set0 sft sc (64 * k + i) = ((set0 + k) % sc) * 64 + (sft + i) % 64 := by
  unfold probeSlot
  have h1 : (64 * k + i) / 64 = k := by omega
  have h2 : (64 * k + i) % 64 = i := by omega
  rw [h1, h2]

lemma probeFirst_append (v : View) (key : List ℕ) (mark set0 sft : ℕ) :
    ∀ (n m t : ℕ),
    probeFirst v key mark set0 sft t (n + m)
      = (match probeFirst v key mark set0 sft t n with
         | some r => some r
         | none => probeFirst v key mark set0 sft (t + n) m) := by
  intro n
  induction n with
  | zero => intro m t; simp [probeFirst]
  | succ n ih =>
    intro m t
    rw [show n + 1 + m = (n + m) + 1 from by omega]
    rw [probeFirst, probeFirst]
    cases h : handleSlot v key mark (probeSlot set0 sft v.set_cnt t) with
    | some r => rfl
    | none =>
      rw [ih m (t + 1), show t + 1 + n = t + (n + 1) from by omega]

lemma scanHB_eq_probeFirst (v : View) (key : List ℕ) (mark set0 sft set : ℕ) :
    ∀ (gb : List ℕ) (off t : ℕ),
    (∀ i, i < gb.length → probeSlot set0 sft v.set_cnt (t + i) = set * 64 + (off + i)) →
    scanHB v key mark set off gb = probeFirst v key mark set0 sft t gb.length := by
  intro gb
  induction gb with
  | nil => intro off t _; simp [scanHB, probeFirst]
  | cons b u ih =>
    intro off t hpos
    rw [scanHB, show (b :: u).length = u.length + 1 from rfl, probeFirst]
    have h0 : probeSlot set0 sft v.set_cnt t = set * 64 + off := by
      have := hpos 0 (by simp)
      simpa using this
    rw [h0]
    cases h : handleSlot v key mark (set * 64 + off) with
    | some r => rfl
    | none =>
      apply ih (off + 1) (t + 1)
      intro i hi
      have := hpos (i + 1) (by simp; omega)
      rw [show t + (i + 1) = t + 1 + i from by omega] at this
      rw [this]
      omega

/-- The per-set scan of `Search` equals 64 steps of the abstract probe chain. -/
lemma searchInSet_eq_probe (v : View) (key : List ℕ) (mark set0 sft set k : ℕ)
    (hm : mark < 128) (hg : Bytes v.guide)
    (hset : set = (set0 + k) % v.set_cnt)
    (hlen : set * 64 + 64 ≤ v.guide.length) :
    ∀ fuel j, sft ≤ j → j ≤ sft + 64 → sft + 64 - j ≤ fuel →
    searchInSet v key mark set sft fuel j
      = probeFirst v key mark set0 sft (64 * k + (j - sft)) (sft + 64 - j) := by
  intro fuel
  induction fuel with
  | zero =>
    intro j hj1 hj2 hn
    rw [show sft + 64 - j = 0 from by omega]
    rfl
  | succ f IH =>
    intro j hj1 hj2 hn
    by_cases hend : sft + 64 ≤ j
    · rw [searchInSet, if_pos hend, show sft + 64 - j = 0 from by omega]
      rfl
    · push_neg at hend
      rw [searchInSet, if_neg (by omega)]
      by_cases hgrp : j ≤ sft + 56 ∧ j % 64 ≤ 56
      · rw [if_pos hgrp]
        have hjm : j % 64 ≤ 56 := hgrp.2
        have hgb8 : ((v.guide.drop (set * 64 + j % 64)).take 8).length = 8 := by
          rw [List.length_take, List.length_drop]
          omega
        have hgbb : Bytes ((v.guide.drop (set * 64 + j % 64)).take 8) :=
          bytes_slice v.guide hg _ 8
        have hch : CalcHint (load64 v.guide (set * 64 + j % 64)) mark
            = leNat (((v.guide.drop (set * 64 + j % 64)).take 8).map (hintByte mark)) :=
          calcHint_bytes _ hgb8 hgbb mark hm
        have hbridge := searchGroup_eq_scanHB v key mark set hm
          ((v.guide.drop (set * 64 + j % 64)).take 8) 64 (j % 64) hgbb
          (by rw [hgb8]) (by rw [hgb8]; omega)
          (fun i hi => (getD_slice v.guide (set * 64 + j % 64) i 8
            (by rw [hgb8] at hi; exact hi)).symm)
        have hsp := scanHB_eq_probeFirst v key mark set0 sft set
          ((v.guide.drop (set * 64 + j % 64)).take 8) (j % 64) (64 * k + (j - sft))
          (fun i hi => by
            rw [hgb8] at hi
            rw [show 64 * k + (j - sft) + i = 64 * k + (j - sft + i) from by omega,
              probeSlot_eq set0 sft v.set_cnt k (j - sft + i) (by omega), ← hset,
              show sft + (j - sft + i) = j + i from by omega]
            omega)
        rw [hch, hbridge, hsp, hgb8,
          show sft + 64 - j = 8 + (sft + 64 - (j + 8)) from by omega,
          probeFirst_append]
        cases hpf : probeFirst v key mark set0 sft (64 * k + (j - sft)) 8 with
        | some r => rfl
        | none =>
          rw [IH (j + 8) (by omega) (by omega) (by omega),
            show 64 * k + (j - sft) + 8 = 64 * k + (j + 8 - sft) from by omega]
      · rw [if_neg hgrp]
        rw [show sft + 64 - j = (sft + 64 - (j + 1)) + 1 from by omega, probeFirst]
        have hslot : probeSlot set0 sft v.set_cnt (64 * k + (j - sft))
            = set * 64 + j % 64 := by
          rw [probeSlot_eq set0 sft v.set_cnt k (j - sft) (by omega), ← hset,
            show sft + (j - sft) = j from by omega]
        rw [hslot]
        cases h : handleSlot v key mark (set * 64 + j % 64) with
        | some r => rfl
        | none =>
          rw [IH (j + 1) (by omega) (by omega) (by omega),
            show 64 * k + (j - sft) + 1 = 64 * k + (j + 1 - sft) from by omega]

lemma next_set_eq (sc a : ℕ) (hsc : 0 < sc) :
    (if sc ≤ a % sc + 1 then 0 else a % sc + 1) = (a + 1) % sc := by
  have hlt : a % sc < sc := Nat.mod_lt _ hsc
  have hdm : sc * (a / sc) + a % sc = a := Nat.div_add_mod a sc
  have h1 : (a + 1) % sc = (a % sc + 1) % sc := by
    conv_lhs => rw [← hdm]
    rw [show sc * (a / sc) + a % sc + 1 = a % sc + 1 + sc * (a / sc) from by omega,
      Nat.add_mul_mod_self_left]
  rw [h1]
  by_cases h : sc ≤ a % sc + 1
  · rw [if_pos h, show a % sc + 1 = sc from by omega, Nat.mod_self]
  · rw [if_neg h, Nat.mod_eq_of_lt (show a % sc + 1 < sc from by omega)]

/-- The outer set loop of `Search` follows the abstract probe chain. -/
lemma SearchLoop_eq_probe (v : View) (key : List ℕ) (mark set0 sft : ℕ)
    (hm : mark < 128) (hg : Bytes v.guide) (hsc : 0 < v.set_cnt)
    (hglen : v.guide.length = 64 * v.set_cnt) :
    ∀ fuel k, SearchLoop v key mark sft ((set0 + k) % v.set_cnt) fuel
      = probeFirst v key mark set0 sft (64 * k) (64 * fuel) := by
  intro fuel
  induction fuel with
  | zero =>
    intro k
    rfl
  | succ f ih =>
    intro k
    rw [SearchLoop]
    have hml : ((set0 + k) % v.set_cnt) < v.set_cnt := Nat.mod_lt _ hsc
    have hlen : ((set0 + k) % v.set_cnt) * 64 + 64 ≤ v.guide.length := by
      rw [hglen]
      omega
    have h1 := searchInSet_eq_probe v key mark set0 sft ((set0 + k) % v.set_cnt) k
      hm hg rfl hlen 64 sft (le_refl _) (by omega) (by omega)
    rw [h1, show sft + 64 - sft = 64 from by omega,
      show 64 * k + (sft - sft) = 64 * k from by omega,
      show 64 * (f + 1) = 64 + 64 * f from by ring, probeFirst_append]
    cases hres : probeFirst v key mark set0 sft (64 * k) 64 with
    | some r => rfl
    | none =>
      rw [next_set_eq v.set_cnt (set0 + k) hsc,
        show set0 + k + 1 = set0 + (k + 1) from by omega,
        show 64 * k + 64 = 64 * (k + 1) from by ring]
      exact ih (k + 1)

/-- `Search` follows the abstract probe chain: `fuel` set visits are
`64 * fuel` chain steps. -/
lemma Search_eq_probe (H : List ℕ → ℕ → ℕ) (v : View) (key : List ℕ) (fuel : ℕ)
    (hsc : 1 ≤ v.set_cnt) (hsc64 : v.set_cnt < 2^64)
    (hg : Bytes v.guide) (hglen : v.guide.length = 64 * v.set_cnt) :
    Search H v key fuel
      = probeFirst v key ((H key v.seed % 2^64) >>> 51 &&& 0x7f)
          ((H key v.seed % 2^64) % v.set_cnt) ((H key v.seed % 2^64) >>> 58)
          0 (64 * fuel) := by
  unfold Search HashKey
  simp only
  have hmod : (mkDivisor v.set_cnt).mod (H key v.seed % 2^64)
      = (H key v.seed % 2^64) % v.set_cnt :=
    mkDivisor_mod_eq v.set_cnt hsc hsc64 _ (Nat.mod_lt _ (pow_pos (by norm_num) _))
  rw [hmod]
  have hmark : (H key v.seed % 2^64) >>> 51 &&& 0x7f < 128 :=
    lt_of_le_of_lt Nat.and_le_right (by norm_num)
  have h := SearchLoop_eq_probe v key ((H key v.seed % 2^64) >>> 51 &&& 0x7f)
    ((H key v.seed % 2^64) % v.set_cnt) ((H key v.seed % 2^64) >>> 58)
    hmark hg (by omega) hglen fuel 0
  rw [show ((H key v.seed % 2^64) % v.set_cnt + 0) % v.set_cnt
      = (H key v.seed % 2^64) % v.set_cnt from by
    rw [Nat.add_zero]
    exact Nat.mod_eq_of_lt (Nat.mod_lt _ (by omega))] at h
  rw [show 64 * 0 = 0 from rfl] at h
  exact h

/-! ## Builder mapping versus the abstract probe chain -/

/-- One probe step of the (single-threaded) builder mapping at an absolute
slot: install on empty, report duplicate on mark+key match, else continue. -/
def mapStep (key_len : ℕ) (key fill : List ℕ) (mark : ℕ)
    (guide : List ℕ) (content : List (List ℕ)) (slot : ℕ) :
    Option (Bool × List ℕ × List (List ℕ)) :=
  if guide.getD slot 0 = 0xff then
    some (true, guide.set slot mark, content.set slot fill)
  else if guide.getD slot 0 = mark ∧ key = (content.getD slot []).take key_len then
    some (false, guide, content)
  else none

/-- First non-continue outcome of `mapStep` along the probe chain. -/
def mapFirst (sc key_len : ℕ) (key fill : List ℕ) (mark set0 sft : ℕ)
    (guide : List ℕ) (content : List (List ℕ)) :
    ℕ → ℕ → Option (Bool × List ℕ × List (List ℕ))
  | _, 0 => none
  | t, fuel+1 =>
    match mapStep key_len key fill mark guide content (probeSlot set0 sft sc t) with
    | some r => some r
    | none => mapFirst sc key_len key fill mark set0 sft guide content (t + 1) fuel

lemma MappingInSet_eq_mapFirst (sc key_len : ℕ) (key fill : List ℕ)
    (mark set0 sft set k : ℕ) (guide : List ℕ) (content : List (List ℕ))
    (hset : set = (set0 + k) % sc) :
    ∀ fuel j, sft ≤ j → j ≤ sft + 64 → sft + 64 - j ≤ fuel →
    MappingInSet key_len key fill mark guide content set sft fuel j
      = mapFirst sc key_len key fill mark set0 sft guide content
          (64 * k + (j - sft)) (sft + 64 - j) := by
  intro fuel
  induction fuel with
  | zero =>
    intro j hj1 hj2 hn
    rw [show sft + 64 - j = 0 from by omega]
    rfl
  | succ f IH =>
    intro j hj1 hj2 hn
    by_cases hend : sft + 64 ≤ j
    · rw [MappingInSet, if_pos hend, show sft + 64 - j = 0 from by omega]
      rfl
    · push_neg at hend
      rw [MappingInSet, if_neg (by omega),
        show sft + 64 - j = (sft + 64 - (j + 1)) + 1 from by omega, mapFirst]
      have hslot : probeSlot set0 sft sc (64 * k + (j - sft)) = set * 64 + j % 64 := by
        rw [probeSlot_eq set0 sft sc k (j - sft) (by omega), ← hset,
          show sft + (j - sft) = j from by omega]
      rw [hslot]
      unfold mapStep
      by_cases h1 : guide.getD (set * 64 + j % 64) 0 = 0xff
      · rw [if_pos h1, if_pos h1]
      · rw [if_neg h1, if_neg h1]
        by_cases h2 : guide.getD (set * 64 + j % 64) 0 = mark ∧
            key = (content.getD (set * 64 + j % 64) []).take key_len
        · rw [if_pos h2, if_pos h2]
        · rw [if_neg h2, if_neg h2]
          rw [IH (j + 1) (by omega) (by omega) (by omega),
            show 64 * k + (j - sft) + 1 = 64 * k + (j + 1 - sft) from by omega]

lemma MappingLoop_eq_mapFirst (sc key_len : ℕ) (key fill : List ℕ)
    (mark set0 sft : ℕ) (guide : List ℕ) (content : List (List ℕ))
    (hsc : 0 < sc) :
    ∀ fuel k, MappingLoop sc key_len key fill mark sft guide content
        ((set0 + k) % sc) fuel
      = mapFirst sc key_len key fill mark set0 sft guide content (64 * k) (64 * fuel) := by
  intro fuel
  induction fuel with
  | zero => intro k; rfl
  | succ f ih =>
    intro k
    rw [MappingLoop]
    have h1 := MappingInSet_eq_mapFirst sc key_len key fill mark set0 sft
      ((set0 + k) % sc) k guide content rfl 64 sft (le_refl _) (by omega) (by omega)
    rw [h1, show sft + 64 - sft = 64 from by omega,
      show 64 * k + (sft - sft) = 64 * k from by omega,
      show 64 * (f + 1) = 64 + 64 * f from by ring]
    have happ : ∀ (nn mm t : ℕ),
        mapFirst sc key_len key fill mark set0 sft guide content t (nn + mm)
          = (match mapFirst sc key_len key fill mark set0 sft guide content t nn with
             | some r => some r
             | none => mapFirst sc key_len key fill mark set0 sft guide content (t + nn) mm) := by
      intro nn
      induction nn with
      | zero => intro mm t; simp [mapFirst]
      | succ nn ihn =>
        intro mm t
        rw [show nn + 1 + mm = (nn + mm) + 1 from by omega, mapFirst, mapFirst]
        cases h : mapStep key_len key fill mark guide content (probeSlot set0 sft sc t) with
        | some r => rfl
        | none => rw [ihn mm (t + 1), show t + 1 + nn = t + (nn + 1) from by omega]
    rw [happ]
    cases hres : mapFirst sc key_len key fill mark set0 sft guide content (64 * k) 64 with
    | some r => rfl
    | none =>
      rw [next_set_eq sc (set0 + k) hsc,
        show set0 + k + 1 = set0 + (k + 1) from by omega,
        show 64 * k + 64 = 64 * (k + 1) from by ring]
      exact ih (k + 1)

/-- `Mapping` follows the abstract probe chain. -/
lemma Mapping_eq_mapFirst (H : List ℕ → ℕ → ℕ) (sc key_len seed : ℕ)
    (key fill : List ℕ) (guide : List ℕ) (content : List (List ℕ)) (fuel : ℕ)
    (hsc : 1 ≤ sc) (hsc64 : sc < 2^64) :
    Mapping H sc key_len seed key fill guide content fuel
      = mapFirst sc key_len key fill ((H key seed % 2^64) >>> 51 &&& 0x7f)
          ((H key seed % 2^64) % sc) ((H key seed % 2^64) >>> 58)
          guide content 0 (64 * fuel) := by
  unfold Mapping HashKey
  simp only
  have hmod : (mkDivisor sc).mod (H key seed % 2^64) = (H key seed % 2^64) % sc :=
    mkDivisor_mod_eq sc hsc hsc64 _ (Nat.mod_lt _ (pow_pos (by norm_num) _))
  rw [hmod]
  have h := MappingLoop_eq_mapFirst sc key_len key fill
    ((H key seed % 2^64) >>> 51 &&& 0x7f) ((H key seed % 2^64) % sc)
    ((H key seed % 2^64) >>> 58) guide content (by omega) fuel 0
  rw [show ((H key seed % 2^64) % sc + 0) % sc = (H key seed % 2^64) % sc from by
    rw [Nat.add_zero]
    exact Nat.mod_eq_of_lt (Nat.mod_lt _ (by omega))] at h
  rw [show 64 * 0 = 0 from rfl] at h
  exact h

/-! ## Chain coverage and mapping termination -/

lemma probeSlot_cover (set0 sft sc : ℕ) (hsc : 0 < sc) (hsft : sft < 64)
    (slot : ℕ) (hslot : slot < 64 * sc) :
    ∃ t, t < 64 * sc ∧ probeSlot set0 sft sc t = slot := by
  have hq : slot / 64 < sc := by omega
  have halt : set0 % sc < sc := Nat.mod_lt _ hsc
  refine ⟨64 * ((slot / 64 + sc - set0 % sc) % sc) + ((slot % 64 + 64 - sft) % 64), ?_, ?_⟩
  · have h1 : (slot / 64 + sc - set0 % sc) % sc < sc := Nat.mod_lt _ hsc
    have h2 : (slot % 64 + 64 - sft) % 64 < 64 := Nat.mod_lt _ (by norm_num)
    omega
  · rw [probeSlot_eq _ _ _ _ _ (Nat.mod_lt _ (by norm_num))]
    have hk : (set0 + (slot / 64 + sc - set0 % sc) % sc) % sc = slot / 64 := by
      rw [Nat.add_mod set0 _ sc,
        Nat.mod_eq_of_lt (Nat.mod_lt _ hsc : (slot / 64 + sc - set0 % sc) % sc < sc)]
      by_cases hqa : set0 % sc ≤ slot / 64
      · rw [show slot / 64 + sc - set0 % sc = (slot / 64 - set0 % sc) + sc from by omega,
          Nat.add_mod_right,
          Nat.mod_eq_of_lt (show slot / 64 - set0 % sc < sc from by omega),
          show set0 % sc + (slot / 64 - set0 % sc) = slot / 64 from by omega,
          Nat.mod_eq_of_lt hq]
      · rw [Nat.mod_eq_of_lt (show slot / 64 + sc - set0 % sc < sc from by omega),
          show set0 % sc + (slot / 64 + sc - set0 % sc) = slot / 64 + sc from by omega,
          Nat.add_mod_right, Nat.mod_eq_of_lt hq]
    have hi : (sft + (slot % 64 + 64 - sft) % 64) % 64 = slot % 64 := by omega
    rw [hk, hi]
    omega

lemma mapFirst_stop (sc key_len : ℕ) (key fill : List ℕ) (mark set0 sft : ℕ)
    (guide : List ℕ) (content : List (List ℕ)) :
    ∀ fuel t, (∃ i, i < fuel ∧
      mapStep key_len key fill mark guide content (probeSlot set0 sft sc (t + i)) ≠ none) →
    mapFirst sc key_len key fill mark set0 sft guide content t fuel ≠ none := by
  intro fuel
  induction fuel with
  | zero =>
    intro t h
    obtain ⟨i, hi, _⟩ := h
    omega
  | succ f ih =>
    intro t h
    obtain ⟨i, hi, hstep⟩ := h
    rw [mapFirst]
    cases h : mapStep key_len key fill mark guide content (probeSlot set0 sft sc t) with
    | some r => simp
    | none =>
      apply ih (t + 1)
      rcases Nat.eq_zero_or_pos i with h0 | h0
      · subst h0
        rw [Nat.add_zero] at hstep
        exact absurd h hstep
      · exact ⟨i - 1, by omega, by
          rw [show t + 1 + (i - 1) = t + i from by omega]
          exact hstep⟩

lemma and_mask_even (x : ℕ) (hx : x < 2^64) : x &&& (2^64 - 2) = 2 * (x / 2) := by
  have hform : (2:ℕ)^64 - 2 = 2^1 * (2^63 - 1) + 0 := by norm_num
  have hxform : x = 2^1 * (x / 2) + x % 2 := by omega
  conv_lhs => rw [hxform, hform]
  rw [land_split 1 (x % 2) (x / 2) 0 (2^63 - 1) (by omega) (by norm_num)]
  have h1 : x / 2 &&& (2^63 - 1) = x / 2 :=
    Nat.and_pow_two_sub_one_of_lt_two_pow (by omega)
  rw [h1, Nat.and_zero]
  norm_num

lemma calcSetCnt_pos (item : ℕ) : 0 < CalcSetCnt item := by
  unfold CalcSetCnt
  omega

/-- The builder's sizing keeps at least `6.25%` slack: `64 * set_cnt` slots
cover `item + ceil(item/16)` entries. -/
lemma calcSetCnt_slack (item : ℕ) (h : item < 2^60) :
    item + (item + 15) / 16 ≤ 64 * CalcSetCnt item := by
  unfold CalcSetCnt
  have hc64 : (item + (item + 15) / 16 + 63) / 64 < 2^64 := by omega
  rw [and_mask_even _ hc64]
  omega

/-- The builder's table is odd-sized (`set_cnt` is odd). -/
lemma calcSetCnt_odd (item : ℕ) (h : item < 2^60) : CalcSetCnt item % 2 = 1 := by
  unfold CalcSetCnt
  have hc64 : (item + (item + 15) / 16 + 63) / 64 < 2^64 := by omega
  rw [and_mask_even _ hc64]
  omega

/-- C8: whenever the guide contains at least one empty (`0xff`) byte — as it
does for every builder-sized table, by `calcSetCnt_slack` — the per-key
mapping loop terminates within `set_cnt` set visits, either installing the
key or reporting a duplicate. -/
theorem mapping_terminates (H : List ℕ → ℕ → ℕ) (sc key_len seed : ℕ)
    (key fill : List ℕ) (guide : List ℕ) (content : List (List ℕ))
    (hsc : 1 ≤ sc) (hsc64 : sc < 2^64)
    (hempty : ∃ i, i < 64 * sc ∧ guide.getD i 0 = 0xff) :
    ∃ r, Mapping H sc key_len seed key fill guide content sc = some r := by
  rw [Mapping_eq_mapFirst H sc key_len seed key fill guide content sc hsc hsc64]
  obtain ⟨slot, hslot, hval⟩ := hempty
  have hsft : (H key seed % 2^64) >>> 58 < 64 := by
    have hh : H key seed % 2^64 < 2^64 := Nat.mod_lt _ (pow_pos (by norm_num) _)
    rw [Nat.shiftRight_eq_div_pow,
      show (2:ℕ)^58 = 288230376151711744 from by norm_num]
    rw [show (2:ℕ)^64 = 18446744073709551616 from by norm_num] at hh
    omega
  obtain ⟨t, ht, hts⟩ := probeSlot_cover ((H key seed % 2^64) % sc)
    ((H key seed % 2^64) >>> 58) sc (by omega) hsft slot hslot
  have hstep : mapStep key_len key fill ((H key seed % 2^64) >>> 51 &&& 0x7f)
      guide content (probeSlot ((H key seed % 2^64) % sc)
        ((H key seed % 2^64) >>> 58) sc t) ≠ none := by
    rw [hts]
    unfold mapStep
    rw [if_pos hval]
    simp
  have hne := mapFirst_stop sc key_len key fill ((H key seed % 2^64) >>> 51 &&& 0x7f)
    ((H key seed % 2^64) % sc) ((H key seed % 2^64) >>> 58) guide content
    (64 * sc) 0 ⟨t, by omega, by simpa using hstep⟩
  cases hres : mapFirst sc key_len key fill ((H key seed % 2^64) >>> 51 &&& 0x7f)
      ((H key seed % 2^64) % sc) ((H key seed % 2^64) >>> 58) guide content 0 (64 * sc) with
  | none => exact absurd hres hne
  | some r => exact ⟨r, rfl⟩

/-- Witness for C8: a one-set table of empty slots. -/
theorem mapping_terminates_witness :
    ∃ r, Mapping (fun _ _ => 0) 1 1 0 [0] [0]
      (List.replicate 64 0xff) (List.replicate 64 []) 1 = some r :=
  mapping_terminates (fun _ _ => 0) 1 1 0 [0] [0]
    (List.replicate 64 0xff) (List.replicate 64 []) (by norm_num) (by norm_num)
    ⟨0, by norm_num, by rfl⟩

/-! ## C6: probe order when spilling into the next set -/

/-- Modelled from the spec (C6): after exhausting a set, continue in the next
set "starting at offset 0".  This is the spec's asserted probe order, written
for comparison against the source's `Mapping` (which restarts at `sft`). -/
def MappingLoopC6Rest (sc key_len : ℕ) (key fill : List ℕ) (mark : ℕ)
    (guide : List ℕ) (content : List (List ℕ)) (set : ℕ) :
    ℕ → Option (Bool × List ℕ × List (List ℕ))
  | 0 => none
  | fuel+1 =>
    match MappingInSet key_len key fill mark guide content set 0 64 0 with
    | some r => some r
    | none =>
      MappingLoopC6Rest sc key_len key fill mark guide content
        (if sc ≤ set + 1 then 0 else set + 1) fuel

/-- Modelled from the spec (C6): first set probed from the hash-derived start
offset, every following set probed from offset 0. -/
def MappingSpecC6 (H : List ℕ → ℕ → ℕ) (sc key_len seed : ℕ) (key fill : List ℕ)
    (guide : List ℕ) (content : List (List ℕ)) (fuel : ℕ) :
    Option (Bool × List ℕ × List (List ℕ)) :=
  match fuel with
  | 0 => none
  | fuel+1 =>
    match MappingInSet key_len key fill (HashKey H key seed sc).2.1 guide content
        (HashKey H key seed sc).1 (HashKey H key seed sc).2.2
        64 (HashKey H key seed sc).2.2 with
    | some r => some r
    | none =>
      MappingLoopC6Rest sc key_len key fill (HashKey H key seed sc).2.1 guide content
        (if sc ≤ (HashKey H key seed sc).1 + 1 then 0 else (HashKey H key seed sc).1 + 1)
        fuel

/-- Counterexample to C6: with hash `5·2^58 + 1` (set 0, sft 5, mark 0) on a
3-set table whose set 0 is full and whose set 1 is empty exactly at offsets 2
and 5, the source's `Mapping` installs at offset 5 of set 1 (it resumes at
`sft`), while the spec's offset-0 restart would install at offset 2. -/
theorem mapping_c6_counterexample :
    Mapping (fun _ _ => 1441151880758558721) 3 1 0 [7] [7]
        (List.replicate 64 1 ++ ([1, 1, 255, 1, 1, 255] ++ List.replicate 58 1)
          ++ List.replicate 64 1)
        (List.replicate 192 ([] : List ℕ)) 3
      ≠ MappingSpecC6 (fun _ _ => 1441151880758558721) 3 1 0 [7] [7]
        (List.replicate 64 1 ++ ([1, 1, 255, 1, 1, 255] ++ List.replicate 58 1)
          ++ List.replicate 64 1)
        (List.replicate 192 ([] : List ℕ)) 3 := by
  decide

/-- C6 (amended): after exhausting the 64 offsets of a set without installing
and without finding a duplicate, `Mapping` moves on to the next set
`(set_idx + 1) mod set_cnt` and continues probing that set starting again at
the hash-derived offset `sft` — i.e. it follows the chain whose `t`-th slot is
`probeSlot set0 sft set_cnt t` (offset `(sft + t % 64) % 64` in every set) —
until an empty slot or a duplicate is found. -/
theorem mapping_next_set_resumes_at_sft (H : List ℕ → ℕ → ℕ) (sc key_len seed : ℕ)
    (key fill : List ℕ) (guide : List ℕ) (content : List (List ℕ)) (fuel : ℕ)
    (hsc : 1 ≤ sc) (hsc64 : sc < 2^64) :
    Mapping H sc key_len seed key fill guide content fuel
      = mapFirst sc key_len key fill ((H key seed % 2^64) >>> 51 &&& 0x7f)
          ((H key seed % 2^64) % sc) ((H key seed % 2^64) >>> 58)
          guide content 0 (64 * fuel) :=
  Mapping_eq_mapFirst H sc key_len seed key fill guide content fuel hsc hsc64

/-- Witness for the amended C6 on a concrete one-set table. -/
theorem mapping_next_set_resumes_at_sft_witness :
    Mapping (fun _ _ => 0) 1 1 0 [3] [3] (List.replicate 64 0xff)
        (List.replicate 64 []) 1
      = mapFirst 1 1 [3] [3] ((0 % 2^64) >>> 51 &&& 0x7f) ((0 % 2^64) % 1)
          ((0 % 2^64) >>> 58) (List.replicate 64 0xff) (List.replicate 64 []) 0 (64 * 1) :=
  mapping_next_set_resumes_at_sft (fun _ _ => 0) 1 1 0 [3] [3]
    (List.replicate 64 0xff) (List.replicate 64 []) 1 (by norm_num) (by norm_num)


/-! ## Artifact headers and `CreateView` -/

/-- The on-disk `Header` (64 bytes).  The struct layout itself is opaque
here: an artifact is a parsed header plus the bytes that follow it, so a
buffer shorter than the header — rejected by the `size < sizeof(Header)`
check of `CreateView` — has no representation.  In the C struct the fields
are `uint32_t magic`, `uint8_t type`, `uint8_t key_len`, `uint16_t val_len`
and `uint64_t seed`, `item`, `set_cnt`. -/
structure Header where
  magic : ℕ
  type : ℕ
  key_len : ℕ
  val_len : ℕ
  seed : ℕ
  item : ℕ
  set_cnt : ℕ
deriving Repr, DecidableEq

/-- The type `switch` of `CreateView`, which falls through: `KV_SEPARATED`
checks `val_len == OFFSET_FIELD_SIZE`, then `val_len != 0`, then
`key_len != 0`; `KV_INLINE` checks `val_len != 0` then `key_len != 0`;
`KEY_SET` checks only `key_len != 0`; anything else is rejected. -/
def typeCheck (hdr : Header) : Bool :=
  if hdr.type = KV_SEPARATED then
    decide (hdr.val_len = OFFSET_FIELD_SIZE) && decide (hdr.val_len ≠ 0) &&
      decide (hdr.key_len ≠ 0)
  else if hdr.type = KV_INLINE then
    decide (hdr.val_len ≠ 0) && decide (hdr.key_len ≠ 0)
  else if hdr.type = KEY_SET then
    decide (hdr.key_len ≠ 0)
  else false

/-- The flat content buffer row-sliced: row `i` is the `line_size` bytes at
offset `i * line_size` (`content + i * line_size` in the C code). -/
def contentRows (line_size slot : ℕ) (bytes : List ℕ) : List (List ℕ) :=
  (List.range slot).map (fun i => (bytes.drop (i * line_size)).take line_size)

/-- `CreateView(addr, size, out)` on an artifact given as a parsed header
plus the `size - 64` bytes after it.  Offset arithmetic carries the
truncation of the C `uint64_t`/`uint32_t` operations; the `addr + off`
pointers of the accepted view are represented by list offsets.  `none`
models `return false` (the handle stays null). -/
def CreateView (hdr : Header) (body : List ℕ) : Option View :=
  if hdr.magic ≠ SSHT_MAGIC ∨ hdr.set_cnt = 0 then none
  else if typeCheck hdr = false then none
  else
    let slot := (hdr.set_cnt * 64) % 2^64
    let line_size := (hdr.key_len + hdr.val_len) % 2^32
    let content_off := (64 + slot) % 2^64
    let extend_off := (content_off + slot * line_size) % 2^64
    if 64 + body.length < extend_off then none
    else if hdr.type = KV_SEPARATED ∧ 64 + body.length < (extend_off + slot) % 2^64 then
      none
    else some {
      type := hdr.type
      key_len := hdr.key_len
      val_len := hdr.val_len
      line_size := line_size
      seed := hdr.seed
      item := hdr.item
      set_cnt := hdr.set_cnt
      guide := body.take slot
      content := contentRows line_size slot (body.drop slot)
      extend := body.drop (slot + slot * line_size) }

/-- `ReadOffsetField(field)`: 6-byte little-endian load
(`u32` low word plus `u16` high word). -/
def ReadOffsetField (field : List ℕ) : ℕ := leNat (field.take 6)

/-- `WriteOffsetField(field, offset)`: the 6 little-endian bytes stored. -/
def WriteOffsetField (offset : ℕ) : List ℕ := toBytes 6 offset

/-- `Hashtable::search(key)`: a null handle (`none`) returns the null slice
immediately; otherwise the value found by `Search`, read through the extend
blob for `KV_SEPARATED`.  `some none` is the null slice `{}`, `some (some bs)`
a (possibly empty) value slice of bytes `bs`, and `none` means the probe fuel
ran out (a model artifact — the C probe loop carries no bound). -/
def HashtableSearch (H : List ℕ → ℕ → ℕ) (ht : Option View) (fuel : ℕ)
    (key : List ℕ) : Option (Option (List ℕ)) :=
  match ht with
  | none => some none
  | some v =>
    match Search H v key fuel with
    | none => none
    | some none => some none
    | some (some field) =>
      if v.type ≠ KV_SEPARATED then some (some (field.take v.val_len))
      else
        match SeparatedValue v.extend (ReadOffsetField field) with
        | none => some none
        | some (p, l) => some (some ((v.extend.drop p).take l))


/-! ## Builders -/

/-- Outcome of mapping an input stream: `badInput` models a thrown
`BuildException`, `fuelOut` the model artifact of bounding the unbounded
probe loop (each `Mapping` call gets `set_cnt` set visits of fuel). -/
inductive MapOut where
  | ok (cnt : ℕ) (guide : List ℕ) (content : List (List ℕ))
  | badInput
  | fuelOut
deriving Repr, DecidableEq

/-- `Mapping(guide, space, header, reader)` for fixed-size-value builds,
single-threaded: each record is validated (key length, and value length when
`val_len ≠ 0`), then mapped with the fill that writes the key followed — for
`val_len ≠ 0` — by the value; installs are counted (`cnt--` on a duplicate).
Null record pointers have no representation here (records are byte lists). -/
def MappingStream (H : List ℕ → ℕ → ℕ) (sc key_len val_len seed : ℕ) :
    List (List ℕ × List ℕ) → List ℕ → List (List ℕ) → MapOut
  | [], g, c => .ok 0 g c
  | (k, v) :: rest, g, c =>
    if k.length ≠ key_len ∨ (val_len ≠ 0 ∧ v.length ≠ val_len) then .badInput
    else
      match Mapping H sc key_len seed k (k ++ v.take val_len) g c sc with
      | none => .fuelOut
      | some (inst, g', c') =>
        match MappingStream H sc key_len val_len seed rest g' c' with
        | .ok cnt g'' c'' => .ok ((if inst then 1 else 0) + cnt) g'' c''
        | e => e

/-- Result of a build: `ok` carries the artifact written (parsed header plus
body bytes); the external writer is assumed to succeed, so
`BUILD_STATUS_FAIL_TO_OUTPUT` does not arise; `badInput` is
`BUILD_STATUS_BAD_INPUT`. -/
inductive BuildOut where
  | ok (hdr : Header) (body : List ℕ)
  | badInput
  | fuelOut
deriving Repr, DecidableEq

/-- Whether a build returned `BUILD_STATUS_OK`. -/
def BuildOut.succeeded : BuildOut → Bool
  | .ok _ _ => true
  | _ => false

/-- Load the artifact of a successful build (null handle otherwise). -/
def loadOf : BuildOut → Option View
  | .ok hdr body => CreateView hdr body
  | _ => none

/-- `BuildWithFixedSizeValue(info, in, out)` for a single input stream (the
C code runs one mapping thread per stream; with one stream the execution is
the sequential one modelled here).  The guide starts as `0xff` bytes; the
uninitialised content space is modelled as zero rows.  The entry `Assert` is
modelled as rejection. -/
def BuildWithFixedSizeValue (H : List ℕ → ℕ → ℕ) (type key_len val_len seed : ℕ)
    (records : List (List ℕ × List ℕ)) : BuildOut :=
  if records = [] ∨ key_len = 0 then .badInput
  else
    let total := records.length
    let sc := CalcSetCnt total
    let slot := sc * 64
    let line_size := key_len + val_len
    match MappingStream H sc key_len val_len seed records
        (List.replicate slot 0xff) (List.replicate slot (List.replicate line_size 0)) with
    | .fuelOut => .fuelOut
    | .badInput => .badInput
    | .ok cnt g c =>
      .ok ⟨SSHT_MAGIC, type, key_len, val_len, seed, cnt, sc⟩ (g ++ c.flatten)

/-- `BuildSet(in, out)`: detect the key length from the first record, then
run the fixed-size build with `KEY_SET` and `val_len = 0`. -/
def BuildSet (H : List ℕ → ℕ → ℕ) (seed : ℕ)
    (records : List (List ℕ × List ℕ)) : BuildOut :=
  match records with
  | [] => .badInput
  | (k0, _) :: _ =>
    if k0.length = 0 ∨ 255 < k0.length then .badInput
    else BuildWithFixedSizeValue H KEY_SET k0.length 0 seed records

/-- `BuildDict(in, out)`: detect key and value lengths from the first
record, then run the fixed-size build with `KV_INLINE`. -/
def BuildDict (H : List ℕ → ℕ → ℕ) (seed : ℕ)
    (records : List (List ℕ × List ℕ)) : BuildOut :=
  match records with
  | [] => .badInput
  | (k0, v0) :: _ =>
    if k0.length = 0 ∨ 255 < k0.length then .badInput
    else if v0.length = 0 ∨ 65535 < v0.length then .badInput
    else BuildWithFixedSizeValue H KV_INLINE k0.length v0.length seed records

/-- `VarIntSize(n)`: for `uint64_t` arguments `(n & ~0x7f) != 0` is
`n ≥ 0x80`; fuel 10 covers the 64-bit range. -/
def VarIntSizeGo : ℕ → ℕ → ℕ
  | 0, _ => 1
  | f+1, n => if n < 0x80 then 1 else VarIntSizeGo f (n >>> 7) + 1

def VarIntSize (n : ℕ) : ℕ := VarIntSizeGo 10 n

/-- `WriteVarInt(n, out)`: the bytes written. -/
def WriteVarIntGo : ℕ → ℕ → List ℕ
  | 0, n => [n]
  | f+1, n => if n < 0x80 then [n] else (0x80 ||| (n &&& 0x7f)) :: WriteVarIntGo f (n >>> 7)

def WriteVarInt (n : ℕ) : List ℕ := WriteVarIntGo 10 n

/-- `DumpVariedValue(val, out)`: varint length prefix then the payload. -/
def DumpVariedValue (v : List ℕ) : List ℕ := WriteVarInt v.length ++ v

/-- The varied-value mapping loop over one stream: `KeyOffReader` replaces
each record's value by a 6-byte offset field and advances the running offset
by the value's dumped size, throwing on an oversized offset or value;
`Mapping(.., reader)` then validates the key length (the wrapped value always
has length `OFFSET_FIELD_SIZE = val_len`). -/
def MappingVariedStream (H : List ℕ → ℕ → ℕ) (sc key_len seed : ℕ) :
    List (List ℕ × List ℕ) → ℕ → List ℕ → List (List ℕ) → MapOut
  | [], _, g, c => .ok 0 g c
  | (k, v) :: rest, off, g, c =>
    if MAX_OFFSET < off ∨ MAX_VALUE_LEN < v.length then .badInput
    else if k.length ≠ key_len then .badInput
    else
      match Mapping H sc key_len seed k (k ++ WriteOffsetField off) g c sc with
      | none => .fuelOut
      | some (inst, g', c') =>
        match MappingVariedStream H sc key_len seed rest
            (off + (VarIntSize v.length + v.length)) g' c' with
        | .ok cnt g'' c'' => .ok ((if inst then 1 else 0) + cnt) g'' c''
        | e => e

/-- `BuildDictWithVariedValue(in, out)` for a single input stream: detect the
key length, map every record with its value replaced by its future blob
offset, reject when the installed count differs from the input count
(`header.item != total`), then emit guide, content and the blob of
varint-framed values. -/
def BuildDictWithVariedValue (H : List ℕ → ℕ → ℕ) (seed : ℕ)
    (records : List (List ℕ × List ℕ)) : BuildOut :=
  match records with
  | [] => .badInput
  | (k0, _) :: _ =>
    if k0.length = 0 ∨ 255 < k0.length then .badInput
    else
      let key_len := k0.length
      let total := records.length
      let sc := CalcSetCnt total
      let slot := sc * 64
      let line_size := key_len + OFFSET_FIELD_SIZE
      match MappingVariedStream H sc key_len seed records 0
          (List.replicate slot 0xff) (List.replicate slot (List.replicate line_size 0)) with
      | .fuelOut => .fuelOut
      | .badInput => .badInput
      | .ok cnt g c =>
        if cnt ≠ total then .badInput
        else
          .ok ⟨SSHT_MAGIC, KV_SEPARATED, key_len, OFFSET_FIELD_SIZE, seed, cnt, sc⟩
            (g ++ c.flatten ++ records.flatMap (fun r => DumpVariedValue r.2))


/-! ## Build-state invariants -/

/-- The `mark` component of `HashKey`. -/
def hmark (H : List ℕ → ℕ → ℕ) (key : List ℕ) (seed : ℕ) : ℕ :=
  (H key seed % 2^64) >>> 51 &&& 0x7f

/-- The starting set of `HashKey` (through the exact software divisor). -/
def hset (H : List ℕ → ℕ → ℕ) (key : List ℕ) (seed sc : ℕ) : ℕ :=
  (H key seed % 2^64) % sc

/-- The starting offset of `HashKey`. -/
def hsft (H : List ℕ → ℕ → ℕ) (key : List ℕ) (seed : ℕ) : ℕ :=
  (H key seed % 2^64) >>> 58

lemma hmark_lt (H : List ℕ → ℕ → ℕ) (key : List ℕ) (seed : ℕ) :
    hmark H key seed < 0x80 :=
  lt_of_le_of_lt Nat.and_le_right (by norm_num)

lemma hsft_lt (H : List ℕ → ℕ → ℕ) (key : List ℕ) (seed : ℕ) :
    hsft H key seed < 64 := by
  have hh : H key seed % 2^64 < 2^64 := Nat.mod_lt _ (pow_pos (by norm_num) _)
  unfold hsft
  rw [Nat.shiftRight_eq_div_pow,
    show (2:ℕ)^58 = 288230376151711744 from by norm_num]
  rw [show (2:ℕ)^64 = 18446744073709551616 from by norm_num] at hh
  omega

/-- Valid guide content: every byte is empty (`0xff`) or a 7-bit mark. -/
def GuideOK (g : List ℕ) : Prop := ∀ s, g.getD s 0 = 0xff ∨ g.getD s 0 < 0x80

/-- A probe-chain slot the mapping walks past: occupied, and not holding
this key under this mark. -/
def SlotCont (key_len : ℕ) (key : List ℕ) (mark : ℕ) (g : List ℕ)
    (c : List (List ℕ)) (s : ℕ) : Prop :=
  g.getD s 0 ≠ 0xff ∧ ¬(g.getD s 0 = mark ∧ key = (c.getD s []).take key_len)

/-- The key's probe chain reaches its row at chain position `t`: every
earlier position walks past, position `t` holds the mark and the key. -/
def FoundAt (sc key_len : ℕ) (key : List ℕ) (mark set0 sft : ℕ)
    (g : List ℕ) (c : List (List ℕ)) (t : ℕ) : Prop :=
  (∀ i, i < t → SlotCont key_len key mark g c (probeSlot set0 sft sc i)) ∧
  g.getD (probeSlot set0 sft sc t) 0 = mark ∧
  key = (c.getD (probeSlot set0 sft sc t) []).take key_len

/-- `(g', c')` extends `(g, c)`: occupied slots keep byte and row. -/
def Extends (g : List ℕ) (c : List (List ℕ)) (g' : List ℕ)
    (c' : List (List ℕ)) : Prop :=
  ∀ s, g.getD s 0 ≠ 0xff → g'.getD s 0 = g.getD s 0 ∧ c'.getD s [] = c.getD s []

/-- First row recorded for a key (earlier records win). -/
def firstRow : List (List ℕ × List ℕ) → List ℕ → Option (List ℕ)
  | [], _ => none
  | p :: rest, k => if p.1 = k then some p.2 else firstRow rest k

lemma getD_set_ne {α : Type} (l : List α) (i j : ℕ) (a d : α) (h : i ≠ j) :
    (l.set i a).getD j d = l.getD j d := by
  rw [List.getD_eq_getElem?_getD, List.getD_eq_getElem?_getD, List.getElem?_set_ne h]

lemma getD_set_self {α : Type} (l : List α) (i : ℕ) (a d : α) (h : i < l.length) :
    (l.set i a).getD i d = a := by
  rw [List.getD_eq_getElem?_getD, List.getElem?_set_self h]
  rfl

lemma probeSlot_lt (set0 sft sc t : ℕ) (hsc : 0 < sc) :
    probeSlot set0 sft sc t < 64 * sc := by
  unfold probeSlot
  have h1 : (set0 + t / 64) % sc < sc := Nat.mod_lt _ hsc
  have h2 : (sft + t % 64) % 64 < 64 := Nat.mod_lt _ (by norm_num)
  omega

/-- Within one full tour (`64 * sc` chain positions) the probe chain never
repeats a slot. -/
lemma probeSlot_inj (set0 sft sc t u : ℕ) (hsc : 0 < sc)
    (ht : t < 64 * sc) (hu : u < 64 * sc) (hne : t ≠ u) :
    probeSlot set0 sft sc t ≠ probeSlot set0 sft sc u := by
  unfold probeSlot
  intro heq
  have h1 : (sft + t % 64) % 64 < 64 := Nat.mod_lt _ (by norm_num)
  have h2 : (sft + u % 64) % 64 < 64 := Nat.mod_lt _ (by norm_num)
  have hsets : (set0 + t / 64) % sc = (set0 + u / 64) % sc := by omega
  have hoffs : (sft + t % 64) % 64 = (sft + u % 64) % 64 := by omega
  have hdiv : t / 64 = u / 64 := by
    have htq : t / 64 < sc := by omega
    have huq : u / 64 < sc := by omega
    rcases le_total (t / 64) (u / 64) with hle | hle
    · have hmod : (set0 + t / 64) ≡ (set0 + u / 64) [MOD sc] := hsets
      have hdvd : sc ∣ (set0 + u / 64) - (set0 + t / 64) :=
        (Nat.modEq_iff_dvd' (by omega)).mp hmod
      have := Nat.le_of_dvd (by omega) hdvd
      rcases Nat.eq_zero_or_pos ((set0 + u / 64) - (set0 + t / 64)) with h0 | h0
      · omega
      · have := Nat.le_of_dvd h0 hdvd
        omega
    · have hmod : (set0 + u / 64) ≡ (set0 + t / 64) [MOD sc] := hsets.symm
      have hdvd : sc ∣ (set0 + t / 64) - (set0 + u / 64) :=
        (Nat.modEq_iff_dvd' (by omega)).mp hmod
      rcases Nat.eq_zero_or_pos ((set0 + t / 64) - (set0 + u / 64)) with h0 | h0
      · omega
      · have := Nat.le_of_dvd h0 hdvd
        omega
  have hmod64 : t % 64 = u % 64 := by
    have ht64 : t % 64 < 64 := Nat.mod_lt _ (by norm_num)
    have hu64 : u % 64 < 64 := Nat.mod_lt _ (by norm_num)
    rcases le_total (t % 64) (u % 64) with hle | hle
    · have hmod : (sft + t % 64) ≡ (sft + u % 64) [MOD 64] := hoffs
      have hdvd : (64:ℕ) ∣ (sft + u % 64) - (sft + t % 64) :=
        (Nat.modEq_iff_dvd' (by omega)).mp hmod
      rcases Nat.eq_zero_or_pos ((sft + u % 64) - (sft + t % 64)) with h0 | h0
      · omega
      · have := Nat.le_of_dvd h0 hdvd
        omega
    · have hmod : (sft + u % 64) ≡ (sft + t % 64) [MOD 64] := hoffs.symm
      have hdvd : (64:ℕ) ∣ (sft + t % 64) - (sft + u % 64) :=
        (Nat.modEq_iff_dvd' (by omega)).mp hmod
      rcases Nat.eq_zero_or_pos ((sft + t % 64) - (sft + u % 64)) with h0 | h0
      · omega
      · have := Nat.le_of_dvd h0 hdvd
        omega
  omega

lemma mapStep_none_iff (key_len : ℕ) (key fill : List ℕ) (mark : ℕ)
    (g : List ℕ) (c : List (List ℕ)) (s : ℕ) :
    mapStep key_len key fill mark g c s = none ↔ SlotCont key_len key mark g c s := by
  unfold mapStep SlotCont
  by_cases h1 : g.getD s 0 = 0xff
  · rw [if_pos h1]
    constructor
    · intro hc
      exact Option.noConfusion hc
    · intro hc
      exact absurd h1 hc.1
  · rw [if_neg h1]
    by_cases h2 : g.getD s 0 = mark ∧ key = (c.getD s []).take key_len
    · rw [if_pos h2]
      constructor
      · intro hc
        exact Option.noConfusion hc
      · intro hc
        exact absurd h2 hc.2
    · rw [if_neg h2]
      constructor
      · intro _
        exact ⟨h1, h2⟩
      · intro _
        rfl

lemma mapStep_install (key_len : ℕ) (key fill : List ℕ) (mark : ℕ)
    (g : List ℕ) (c : List (List ℕ)) (s : ℕ) (h : g.getD s 0 = 0xff) :
    mapStep key_len key fill mark g c s = some (true, g.set s mark, c.set s fill) := by
  unfold mapStep
  rw [if_pos h]

lemma mapStep_dup (key_len : ℕ) (key fill : List ℕ) (mark : ℕ)
    (g : List ℕ) (c : List (List ℕ)) (s : ℕ) (h0 : g.getD s 0 ≠ 0xff)
    (h1 : g.getD s 0 = mark) (h2 : key = (c.getD s []).take key_len) :
    mapStep key_len key fill mark g c s = some (false, g, c) := by
  unfold mapStep
  rw [if_neg h0, if_pos ⟨h1, h2⟩]


/-- A resolved `mapFirst` decomposes into continue slots followed by one
deciding step. -/
lemma mapFirst_decomp (sc key_len : ℕ) (key fill : List ℕ) (mark set0 sft : ℕ)
    (g : List ℕ) (c : List (List ℕ)) :
    ∀ fuel t0 r, mapFirst sc key_len key fill mark set0 sft g c t0 fuel = some r →
    ∃ t, t < fuel ∧
      (∀ i, i < t → SlotCont key_len key mark g c (probeSlot set0 sft sc (t0 + i))) ∧
      mapStep key_len key fill mark g c (probeSlot set0 sft sc (t0 + t)) = some r := by
  intro fuel
  induction fuel with
  | zero =>
    intro t0 r h
    exact Option.noConfusion h
  | succ f ih =>
    intro t0 r h
    rw [mapFirst] at h
    cases hstep : mapStep key_len key fill mark g c (probeSlot set0 sft sc t0) with
    | some r2 =>
      rw [hstep] at h
      refine ⟨0, by omega, by omega, ?_⟩
      rw [Nat.add_zero, hstep]
      simpa using h
    | none =>
      rw [hstep] at h
      simp only at h
      obtain ⟨t, htf, hcont, hdec⟩ := ih (t0 + 1) r h
      refine ⟨t + 1, by omega, ?_, ?_⟩
      · intro i hi
        cases i with
        | zero =>
          rw [Nat.add_zero]
          exact (mapStep_none_iff key_len key fill mark g c _).mp hstep
        | succ j =>
          have := hcont j (by omega)
          rw [show t0 + 1 + j = t0 + (j + 1) from by omega] at this
          exact this
      · rw [show t0 + (t + 1) = t0 + 1 + t from by omega]
        exact hdec

/-- A key found at chain position `t` makes `mapFirst` report a duplicate
without touching the table. -/
lemma mapFirst_of_foundAt (sc key_len : ℕ) (key fill : List ℕ)
    (mark set0 sft t : ℕ) (g : List ℕ) (c : List (List ℕ))
    (hm : mark < 0x80)
    (hT : FoundAt sc key_len key mark set0 sft g c t) :
    ∀ fuel j, j ≤ t → t - j < fuel →
    mapFirst sc key_len key fill mark set0 sft g c j fuel = some (false, g, c) := by
  intro fuel
  induction fuel with
  | zero =>
    intro j h1 h2
    omega
  | succ f ih =>
    intro j h1 h2
    rw [mapFirst]
    by_cases hj : j = t
    · subst hj
      rw [mapStep_dup key_len key fill mark g c _ (by rw [hT.2.1]; omega)
        hT.2.1 hT.2.2]
    · have hcont := hT.1 j (by omega)
      rw [(mapStep_none_iff key_len key fill mark g c _).mpr hcont]
      exact ih (j + 1) (by omega) (by omega)

/-- A key found at chain position `t` makes the byte-at-a-time probe chain
return its row's value field. -/
lemma probeFirst_of_foundAt (v : View) (key : List ℕ) (mark set0 sft t : ℕ)
    (hm : mark < 0x80) (hOK : GuideOK v.guide)
    (hT : FoundAt v.set_cnt v.key_len key mark set0 sft v.guide v.content t) :
    ∀ fuel j, j ≤ t → t - j < fuel →
    probeFirst v key mark set0 sft j fuel
      = some (some ((v.content.getD (probeSlot set0 sft v.set_cnt t) []).drop v.key_len)) := by
  intro fuel
  induction fuel with
  | zero =>
    intro j h1 h2
    omega
  | succ f ih =>
    intro j h1 h2
    rw [probeFirst]
    by_cases hj : j = t
    · subst hj
      have hh : handleSlot v key mark (probeSlot set0 sft v.set_cnt j)
          = some (some ((v.content.getD (probeSlot set0 sft v.set_cnt j) []).drop v.key_len)) := by
        unfold handleSlot
        rw [if_pos hT.2.1, if_pos hT.2.2]
      rw [hh]
    · have hcont := hT.1 j (by omega)
      have hocc : v.guide.getD (probeSlot set0 sft v.set_cnt j) 0 < 0x80 := by
        rcases hOK (probeSlot set0 sft v.set_cnt j) with h | h
        · exact absurd h hcont.1
        · exact h
      have hh : handleSlot v key mark (probeSlot set0 sft v.set_cnt j) = none := by
        unfold handleSlot
        by_cases hmk : v.guide.getD (probeSlot set0 sft v.set_cnt j) 0 = mark
        · rw [if_pos hmk]
          have hnm : ¬(key = (v.content.getD (probeSlot set0 sft v.set_cnt j) []).take v.key_len) := by
            intro hc
            exact hcont.2 ⟨hmk, hc⟩
          rw [if_neg hnm]
        · rw [if_neg hmk]
          have hno : ¬(v.guide.getD (probeSlot set0 sft v.set_cnt j) 0 &&& 0x80 ≠ 0) := by
            rw [byte_high_iff _ (by omega)]
            omega
          rw [if_neg hno]
      rw [hh]
      exact ih (j + 1) (by omega) (by omega)

/-- When no stored row holds the key, the probe chain reports a miss as soon
as it meets an empty slot — and it does meet one within one full tour. -/
lemma probeFirst_miss (v : View) (key : List ℕ) (mark set0 sft : ℕ)
    (hm : mark < 0x80) (hOK : GuideOK v.guide) (hsc : 0 < v.set_cnt)
    (hnok : ∀ s, s < 64 * v.set_cnt → v.guide.getD s 0 ≠ 0xff →
      ¬(v.guide.getD s 0 = mark ∧ key = (v.content.getD s []).take v.key_len)) :
    ∀ fuel j, (∃ i, i < fuel ∧
      v.guide.getD (probeSlot set0 sft v.set_cnt (j + i)) 0 = 0xff) →
    probeFirst v key mark set0 sft j fuel = some none := by
  intro fuel
  induction fuel with
  | zero =>
    intro j h
    obtain ⟨i, hi, _⟩ := h
    omega
  | succ f ih =>
    intro j h
    rw [probeFirst]
    by_cases hff : v.guide.getD (probeSlot set0 sft v.set_cnt j) 0 = 0xff
    · have hh : handleSlot v key mark (probeSlot set0 sft v.set_cnt j) = some none := by
        unfold handleSlot
        rw [hff, if_neg (by omega), if_pos (by decide)]
      rw [hh]
    · have hcont : handleSlot v key mark (probeSlot set0 sft v.set_cnt j) = none := by
        have hocc : v.guide.getD (probeSlot set0 sft v.set_cnt j) 0 < 0x80 := by
          rcases hOK (probeSlot set0 sft v.set_cnt j) with h1 | h1
          · exact absurd h1 hff
          · exact h1
        have hnk := hnok (probeSlot set0 sft v.set_cnt j)
          (probeSlot_lt set0 sft v.set_cnt j hsc) hff
        unfold handleSlot
        by_cases hmk : v.guide.getD (probeSlot set0 sft v.set_cnt j) 0 = mark
        · rw [if_pos hmk]
          have hnm : ¬(key = (v.content.getD (probeSlot set0 sft v.set_cnt j) []).take v.key_len) := by
            intro hc
            exact hnk ⟨hmk, hc⟩
          rw [if_neg hnm]
        · rw [if_neg hmk]
          have hno : ¬(v.guide.getD (probeSlot set0 sft v.set_cnt j) 0 &&& 0x80 ≠ 0) := by
            rw [byte_high_iff _ (by omega)]
            omega
          rw [if_neg hno]
      rw [hcont]
      obtain ⟨i, hi, hival⟩ := h
      apply ih (j + 1)
      rcases Nat.eq_zero_or_pos i with h0 | h0
      · subst h0
        rw [Nat.add_zero] at hival
        exact absurd hival hff
      · exact ⟨i - 1, by omega, by
          rw [show j + 1 + (i - 1) = j + i from by omega]
          exact hival⟩

/-- Probe-chain hits survive table extension. -/
lemma foundAt_extends (sc key_len : ℕ) (key : List ℕ) (mark set0 sft t : ℕ)
    (g g' : List ℕ) (c c' : List (List ℕ)) (hm : mark < 0x80)
    (hx : Extends g c g' c')
    (h : FoundAt sc key_len key mark set0 sft g c t) :
    FoundAt sc key_len key mark set0 sft g' c' t ∧
    c'.getD (probeSlot set0 sft sc t) [] = c.getD (probeSlot set0 sft sc t) [] := by
  have hhit := hx (probeSlot set0 sft sc t) (by rw [h.2.1]; omega)
  refine ⟨⟨?_, ?_, ?_⟩, hhit.2⟩
  · intro i hi
    have hc := h.1 i hi
    have hkeep := hx (probeSlot set0 sft sc i) hc.1
    exact ⟨by rw [hkeep.1]; exact hc.1, by rw [hkeep.1, hkeep.2]; exact hc.2⟩
  · rw [hhit.1]
    exact h.2.1
  · rw [hhit.2]
    exact h.2.2

lemma extends_refl (g : List ℕ) (c : List (List ℕ)) : Extends g c g c :=
  fun _ _ => ⟨rfl, rfl⟩

lemma extends_set (g : List ℕ) (c : List (List ℕ)) (s mark : ℕ) (fill : List ℕ)
    (hs : g.getD s 0 = 0xff) :
    Extends g c (g.set s mark) (c.set s fill) := by
  intro s2 hocc
  have hne : s ≠ s2 := by
    intro hc
    subst hc
    exact hocc hs
  exact ⟨getD_set_ne g s s2 mark 0 hne, getD_set_ne c s s2 fill [] hne⟩

lemma count_set_le (g : List ℕ) :
    ∀ s m, g.count 0xff ≤ (g.set s m).count 0xff + 1 := by
  induction g with
  | nil =>
    intro s m
    simp
  | cons b tl ih =>
    intro s m
    cases s with
    | zero =>
      simp only [List.set_cons_zero, List.count_cons]
      have := ih 0 m
      by_cases hb : b = 0xff <;> by_cases hm2 : m = 0xff <;>
        simp [hb, hm2] <;> omega
    | succ s2 =>
      simp only [List.set_cons_succ, List.count_cons]
      have := ih s2 m
      by_cases hb : b = 0xff <;> simp [hb] <;> omega

lemma exists_ff_of_count (g : List ℕ) (h : 0 < g.count 0xff) :
    ∃ s, s < g.length ∧ g.getD s 0 = 0xff := by
  have hmem : (0xff : ℕ) ∈ g := List.count_pos_iff.mp h
  obtain ⟨i, hi, hval⟩ := List.mem_iff_getElem.mp hmem
  exact ⟨i, hi, by rw [List.getD_eq_getElem _ _ hi, hval]⟩


/-- Keys of a record list. -/
def keysOf (l : List (List ℕ × List ℕ)) : List (List ℕ) := l.map Prod.fst

lemma firstRow_none_iff (l : List (List ℕ × List ℕ)) (k : List ℕ) :
    firstRow l k = none ↔ k ∉ keysOf l := by
  induction l with
  | nil => simp [firstRow, keysOf]
  | cons p rest ih =>
    unfold firstRow
    by_cases hp : p.1 = k
    · simp [hp, keysOf]
    · rw [if_neg hp, ih]
      unfold keysOf
      simp only [List.map_cons, List.mem_cons]
      constructor
      · intro h hc
        rcases hc with hc | hc
        · exact hp hc.symm
        · exact h hc
      · intro h hc
        exact h (Or.inr hc)

lemma firstRow_append_left (l l2 : List (List ℕ × List ℕ)) (k : List ℕ)
    (r : List ℕ) (h : firstRow l k = some r) :
    firstRow (l ++ l2) k = some r := by
  induction l with
  | nil => exact Option.noConfusion h
  | cons p rest ih =>
    rw [firstRow] at h
    rw [List.cons_append, firstRow]
    by_cases hp : p.1 = k
    · rw [if_pos hp] at h ⊢
      exact h
    · rw [if_neg hp] at h ⊢
      exact ih h

lemma firstRow_append_none (l : List (List ℕ × List ℕ)) (p : List ℕ × List ℕ)
    (k : List ℕ) (h : firstRow l k = none) :
    firstRow (l ++ [p]) k = if p.1 = k then some p.2 else none := by
  induction l with
  | nil => rfl
  | cons q rest ih =>
    rw [firstRow] at h
    rw [List.cons_append, firstRow]
    by_cases hq : q.1 = k
    · rw [if_pos hq] at h
      exact Option.noConfusion h
    · rw [if_neg hq] at h ⊢
      exact ih h

/-- The facts maintained over the table state while a build maps its
records (`done` lists the (key, fill-row) pairs already mapped). -/
structure TableInv (H : List ℕ → ℕ → ℕ) (seed sc key_len line_size : ℕ)
    (done : List (List ℕ × List ℕ)) (g : List ℕ) (c : List (List ℕ)) : Prop where
  len_g : g.length = 64 * sc
  len_c : c.length = 64 * sc
  rows : ∀ r ∈ c, r.length = line_size
  gOK : GuideOK g
  prefixes : ∀ s, s < 64 * sc → g.getD s 0 ≠ 0xff →
    ∃ p ∈ done, (c.getD s []).take key_len = p.1
  found : ∀ p ∈ done, ∃ t, t < 64 * sc ∧
    FoundAt sc key_len p.1 (hmark H p.1 seed) (hset H p.1 seed sc)
      (hsft H p.1 seed) g c t ∧
    firstRow done p.1
      = some (c.getD (probeSlot (hset H p.1 seed sc) (hsft H p.1 seed) sc t) [])
  count : 64 * sc ≤ g.count 0xff + done.length

lemma getD_replicate {α : Type} (n : ℕ) (a d : α) (i : ℕ) :
    (List.replicate n a).getD i d = if i < n then a else d := by
  rw [List.getD_eq_getElem?_getD, List.getElem?_replicate]
  by_cases h : i < n <;> simp [h]

/-- The empty table satisfies the invariant. -/
lemma tableInv_init (H : List ℕ → ℕ → ℕ) (seed sc key_len line_size : ℕ) :
    TableInv H seed sc key_len line_size []
      (List.replicate (64 * sc) 0xff)
      (List.replicate (64 * sc) (List.replicate line_size 0)) := by
  refine ⟨List.length_replicate _ _, List.length_replicate _ _, ?_, ?_, ?_, ?_, ?_⟩
  · intro r hr
    rw [List.eq_of_mem_replicate hr]
    exact List.length_replicate _ _
  · intro s
    rw [getD_replicate]
    by_cases h : s < 64 * sc
    · rw [if_pos h]
      exact Or.inl rfl
    · rw [if_neg h]
      exact Or.inr (by norm_num)
  · intro s hs hocc
    rw [getD_replicate, if_pos hs] at hocc
    exact absurd rfl hocc
  · intro p hp
    exact absurd hp (List.not_mem_nil p)
  · have hc : (List.replicate (64 * sc) 0xff).count 0xff = 64 * sc := by
      rw [List.count_replicate]
      simp
    rw [hc]
    omega

/-- Every `Mapping` call on a table with an empty slot resolves within
`set_cnt` set visits. -/
lemma mapping_resolves (H : List ℕ → ℕ → ℕ) (sc key_len seed : ℕ)
    (key fill : List ℕ) (guide : List ℕ) (content : List (List ℕ))
    (hsc : 1 ≤ sc) (hsc64 : sc < 2^64)
    (hempty : ∃ i, i < 64 * sc ∧ guide.getD i 0 = 0xff) :
    ∃ r, Mapping H sc key_len seed key fill guide content sc = some r := by
  rw [Mapping_eq_mapFirst H sc key_len seed key fill guide content sc hsc hsc64]
  obtain ⟨slot, hslot, hval⟩ := hempty
  obtain ⟨t, ht, hts⟩ := probeSlot_cover ((H key seed % 2^64) % sc)
    ((H key seed % 2^64) >>> 58) sc (by omega) (hsft_lt H key seed) slot hslot
  have hstep : mapStep key_len key fill ((H key seed % 2^64) >>> 51 &&& 0x7f)
      guide content (probeSlot ((H key seed % 2^64) % sc)
        ((H key seed % 2^64) >>> 58) sc t) ≠ none := by
    rw [hts, mapStep_install key_len key fill _ guide content slot hval]
    simp
  have hne := mapFirst_stop sc key_len key fill ((H key seed % 2^64) >>> 51 &&& 0x7f)
    ((H key seed % 2^64) % sc) ((H key seed % 2^64) >>> 58) guide content
    (64 * sc) 0 ⟨t, by omega, by simpa using hstep⟩
  cases hres : mapFirst sc key_len key fill ((H key seed % 2^64) >>> 51 &&& 0x7f)
      ((H key seed % 2^64) % sc) ((H key seed % 2^64) >>> 58) guide content
      0 (64 * sc) with
  | none => exact absurd hres hne
  | some r => exact ⟨r, rfl⟩


/-- Mapping one record over an invariant table, given that the call
resolved: the record installs exactly when its key is fresh, the invariant
advances by that record, and at most one empty byte is consumed. -/
lemma mapping_step_cond (H : List ℕ → ℕ → ℕ) (seed sc key_len line_size : ℕ)
    (done : List (List ℕ × List ℕ)) (g : List ℕ) (c : List (List ℕ))
    (key row : List ℕ) (inst : Bool) (g' : List ℕ) (c' : List (List ℕ))
    (hsc : 1 ≤ sc) (hsc64 : sc < 2^64)
    (hinv : TableInv H seed sc key_len line_size done g c)
    (hrow : row.length = line_size)
    (hpre : row.take key_len = key)
    (hmap : Mapping H sc key_len seed key row g c sc = some (inst, g', c')) :
    TableInv H seed sc key_len line_size (done ++ [(key, row)]) g' c' ∧
      (inst = false ↔ key ∈ keysOf done) ∧
      (inst = false → g' = g ∧ c' = c) ∧
      g.count 0xff ≤ g'.count 0xff + (if inst then 1 else 0) := by
  have hr := hmap
  rw [Mapping_eq_mapFirst H sc key_len seed key row g c sc hsc hsc64,
    show ((H key seed % 2^64) >>> 51 &&& 0x7f) = hmark H key seed from rfl,
    show ((H key seed % 2^64) % sc) = hset H key seed sc from rfl,
    show ((H key seed % 2^64) >>> 58) = hsft H key seed from rfl] at hr
  obtain ⟨t, ht, hcont, hdec⟩ := mapFirst_decomp sc key_len key row
    (hmark H key seed) (hset H key seed sc) (hsft H key seed) g c (64 * sc) 0
    (inst, g', c') hr
  simp only [Nat.zero_add] at hcont hdec
  have hslotlt : probeSlot (hset H key seed sc) (hsft H key seed) sc t < 64 * sc :=
    probeSlot_lt _ _ _ _ (by omega)
  by_cases hff : g.getD (probeSlot (hset H key seed sc) (hsft H key seed) sc t) 0 = 0xff
  · rw [mapStep_install key_len key row (hmark H key seed) g c _ hff] at hdec
    have hE := Option.some.inj hdec
    have hinst : true = inst := congrArg Prod.fst hE
    have hg2 : g.set (probeSlot (hset H key seed sc) (hsft H key seed) sc t)
        (hmark H key seed) = g' := congrArg (fun q => q.2.1) hE
    have hc2 : c.set (probeSlot (hset H key seed sc) (hsft H key seed) sc t)
        row = c' := congrArg (fun q => q.2.2) hE
    subst hinst
    subst hg2
    subst hc2
    have hfresh : key ∉ keysOf done := by
      intro hmem
      obtain ⟨p, hp, hpk⟩ := List.mem_map.mp hmem
      obtain ⟨tp, htp, hF, _⟩ := hinv.found p hp
      rw [hpk] at hF
      rcases lt_trichotomy tp t with hlt | heq | hgt
      · exact (hcont tp hlt).2 ⟨hF.2.1, hF.2.2⟩
      · subst heq
        rw [hF.2.1] at hff
        have := hmark_lt H key seed
        omega
      · exact (hF.1 t hgt).1 hff
    have hx : Extends g c
        (g.set (probeSlot (hset H key seed sc) (hsft H key seed) sc t) (hmark H key seed))
        (c.set (probeSlot (hset H key seed sc) (hsft H key seed) sc t) row) :=
      extends_set g c _ _ row hff
    refine ⟨?_, ?_, ?_, ?_⟩
    · refine ⟨?_, ?_, ?_, ?_, ?_, ?_, ?_⟩
      · rw [List.length_set]
        exact hinv.len_g
      · rw [List.length_set]
        exact hinv.len_c
      · intro r2 hr2
        rcases List.mem_or_eq_of_mem_set hr2 with h | h
        · exact hinv.rows r2 h
        · rw [h]
          exact hrow
      · intro s
        by_cases hs : s = probeSlot (hset H key seed sc) (hsft H key seed) sc t
        · subst hs
          rw [getD_set_self g _ _ 0 (by rw [hinv.len_g]; exact hslotlt)]
          exact Or.inr (hmark_lt H key seed)
        · rw [getD_set_ne g _ s _ 0 (Ne.symm hs)]
          exact hinv.gOK s
      · intro s hsr hocc
        by_cases hs : s = probeSlot (hset H key seed sc) (hsft H key seed) sc t
        · subst hs
          refine ⟨(key, row), List.mem_append_right _ (List.mem_singleton.mpr rfl), ?_⟩
          rw [getD_set_self c _ row [] (by rw [hinv.len_c]; exact hslotlt)]
          exact hpre
        · rw [getD_set_ne g _ s _ 0 (Ne.symm hs)] at hocc
          obtain ⟨p, hp, hpp⟩ := hinv.prefixes s hsr hocc
          refine ⟨p, List.mem_append_left _ hp, ?_⟩
          rw [getD_set_ne c _ s row [] (Ne.symm hs)]
          exact hpp
      · intro p hp
        rcases List.mem_append.mp hp with hpd | hpn
        · obtain ⟨tp, htp, hF, hfr⟩ := hinv.found p hpd
          have hFx := foundAt_extends sc key_len p.1 (hmark H p.1 seed)
            (hset H p.1 seed sc) (hsft H p.1 seed) tp g _ c _
            (hmark_lt H p.1 seed) hx hF
          refine ⟨tp, htp, hFx.1, ?_⟩
          rw [hFx.2]
          exact firstRow_append_left done [(key, row)] p.1 _ hfr
        · have hpk : p = (key, row) := List.mem_singleton.mp hpn
          subst hpk
          refine ⟨t, ht, ⟨?_, ?_, ?_⟩, ?_⟩
          · intro i hi
            have hc := hcont i hi
            have hne : probeSlot (hset H key seed sc) (hsft H key seed) sc i
                ≠ probeSlot (hset H key seed sc) (hsft H key seed) sc t :=
              probeSlot_inj _ _ sc i t (by omega) (by omega) ht (by omega)
            constructor
            · rw [getD_set_ne g _ _ _ 0 (Ne.symm hne)]
              exact hc.1
            · rw [getD_set_ne g _ _ _ 0 (Ne.symm hne),
                getD_set_ne c _ _ row [] (Ne.symm hne)]
              exact hc.2
          · rw [getD_set_self g _ _ 0 (by rw [hinv.len_g]; exact hslotlt)]
          · rw [getD_set_self c _ row [] (by rw [hinv.len_c]; exact hslotlt)]
            exact hpre.symm
          · rw [getD_set_self c _ row [] (by rw [hinv.len_c]; exact hslotlt)]
            rw [firstRow_append_none done (key, row) key
              ((firstRow_none_iff done key).mpr hfresh)]
            rw [if_pos rfl]
      · have hcle := count_set_le g
          (probeSlot (hset H key seed sc) (hsft H key seed) sc t) (hmark H key seed)
        have hcnt := hinv.count
        rw [List.length_append, List.length_singleton]
        omega
    · constructor
      · intro hc
        exact Bool.noConfusion hc
      · intro hc
        exact absurd hc hfresh
    · intro hc
      exact Bool.noConfusion hc
    · have := count_set_le g
        (probeSlot (hset H key seed sc) (hsft H key seed) sc t) (hmark H key seed)
      simp only [if_pos]
      omega
  · have hdec2 := hdec
    unfold mapStep at hdec2
    rw [if_neg hff] at hdec2
    by_cases hdup : g.getD (probeSlot (hset H key seed sc) (hsft H key seed) sc t) 0
        = hmark H key seed ∧
        key = (c.getD (probeSlot (hset H key seed sc) (hsft H key seed) sc t) []).take key_len
    · rw [if_pos hdup] at hdec2
      have hE := Option.some.inj hdec2
      have hinst : false = inst := congrArg Prod.fst hE
      have hg2 : g = g' := congrArg (fun q => q.2.1) hE
      have hc2 : c = c' := congrArg (fun q => q.2.2) hE
      subst hinst
      subst hg2
      subst hc2
      obtain ⟨p0, hp0, hpp0⟩ := hinv.prefixes _ hslotlt hff
      have hkeq : key = p0.1 := by
        rw [hdup.2]
        exact hpp0
      have hmem : key ∈ keysOf done := by
        rw [hkeq]
        exact List.mem_map.mpr ⟨p0, hp0, rfl⟩
      refine ⟨?_, ?_, ?_, ?_⟩
      · refine ⟨hinv.len_g, hinv.len_c, hinv.rows, hinv.gOK, ?_, ?_, ?_⟩
        · intro s hsr hocc
          obtain ⟨p, hp, hpp⟩ := hinv.prefixes s hsr hocc
          exact ⟨p, List.mem_append_left _ hp, hpp⟩
        · intro p hp
          rcases List.mem_append.mp hp with hpd | hpn
          · obtain ⟨tp, htp, hF, hfr⟩ := hinv.found p hpd
            exact ⟨tp, htp, hF, firstRow_append_left done [(key, row)] p.1 _ hfr⟩
          · have hpk : p = (key, row) := List.mem_singleton.mp hpn
            subst hpk
            obtain ⟨tp, htp, hF, hfr⟩ := hinv.found p0 hp0
            rw [← hkeq] at hF hfr
            exact ⟨tp, htp, hF, firstRow_append_left done [(key, row)] key _ hfr⟩
        · have hcnt := hinv.count
          rw [List.length_append, List.length_singleton]
          omega
      · constructor
        · intro _
          exact hmem
        · intro _
          rfl
      · intro _
        exact ⟨rfl, rfl⟩
      · omega
    · rw [if_neg hdup] at hdec2
      exact Option.noConfusion hdec2

/-- Mapping one record over an invariant-carrying table: the call resolves,
installs exactly when the key is fresh, and the invariant advances by that
record. -/
lemma mapping_step_inv (H : List ℕ → ℕ → ℕ) (seed sc key_len line_size : ℕ)
    (done : List (List ℕ × List ℕ)) (g : List ℕ) (c : List (List ℕ))
    (key row : List ℕ)
    (hsc : 1 ≤ sc) (hsc64 : sc < 2^64)
    (hinv : TableInv H seed sc key_len line_size done g c)
    (hrow : row.length = line_size)
    (hpre : row.take key_len = key)
    (hroom : done.length < 64 * sc) :
    ∃ inst g' c', Mapping H sc key_len seed key row g c sc = some (inst, g', c') ∧
      TableInv H seed sc key_len line_size (done ++ [(key, row)]) g' c' ∧
      (inst = false ↔ key ∈ keysOf done) ∧
      (inst = false → g' = g ∧ c' = c) := by
  have hcount : 0 < g.count 0xff := by
    have := hinv.count
    omega
  obtain ⟨e, he, heval⟩ := exists_ff_of_count g hcount
  have he2 : e < 64 * sc := by
    rw [← hinv.len_g]
    exact he
  obtain ⟨r, hr⟩ := mapping_resolves H sc key_len seed key row g c hsc hsc64
    ⟨e, he2, heval⟩
  obtain ⟨inst, g', c'⟩ := r
  have hc := mapping_step_cond H seed sc key_len line_size done g c key row
    inst g' c' hsc hsc64 hinv hrow hpre hr
  exact ⟨inst, g', c', hr, hc.1, hc.2.1, hc.2.2.1⟩

/-- Number of records whose key already occurred, in `prior` or earlier in
the list. -/
def dupCount (prior : List (List ℕ)) : List (List ℕ × List ℕ) → ℕ
  | [] => 0
  | r :: rest => (if r.1 ∈ prior then 1 else 0) + dupCount (r.1 :: prior) rest

lemma dupCount_congr : ∀ (l : List (List ℕ × List ℕ)) (p1 p2 : List (List ℕ)),
    (∀ x, x ∈ p1 ↔ x ∈ p2) → dupCount p1 l = dupCount p2 l := by
  intro l
  induction l with
  | nil =>
    intro p1 p2 _
    rfl
  | cons r rest ih =>
    intro p1 p2 hp
    unfold dupCount
    rw [ih (r.1 :: p1) (r.1 :: p2) (by
      intro x
      simp only [List.mem_cons]
      rw [hp x])]
    by_cases hm : r.1 ∈ p1
    · rw [if_pos hm, if_pos ((hp r.1).mp hm)]
    · rw [if_neg hm, if_neg (fun hc => hm ((hp r.1).mpr hc))]

/-- The (key, fill-row) pairs mapped by the fixed-size-value stream. -/
def fixedPairs (val_len : ℕ) (records : List (List ℕ × List ℕ)) :
    List (List ℕ × List ℕ) :=
  records.map (fun r => (r.1, r.1 ++ r.2.take val_len))

lemma keysOf_append (l1 l2 : List (List ℕ × List ℕ)) :
    keysOf (l1 ++ l2) = keysOf l1 ++ keysOf l2 := List.map_append _ _ _

lemma keysOf_fixedPairs (val_len : ℕ) (records : List (List ℕ × List ℕ)) :
    keysOf (fixedPairs val_len records) = keysOf records := by
  unfold keysOf fixedPairs
  rw [List.map_map]
  rfl

/-- Mapping a whole fixed-size-value stream over an invariant table: no
record is rejected, every `Mapping` call resolves, the invariant advances by
all the records, and the installed count falls short of the record count by
exactly the number of repeated keys. -/
lemma mappingStream_inv (H : List ℕ → ℕ → ℕ) (seed sc key_len val_len line_size : ℕ)
    (hls : line_size = key_len + val_len) (hsc : 1 ≤ sc) (hsc64 : sc < 2^64) :
    ∀ (records done : List (List ℕ × List ℕ)) (g : List ℕ) (c : List (List ℕ)),
    TableInv H seed sc key_len line_size done g c →
    (∀ r ∈ records, r.1.length = key_len ∧ (val_len ≠ 0 → r.2.length = val_len)) →
    done.length + records.length ≤ 64 * sc →
    ∃ cnt g2 c2, MappingStream H sc key_len val_len seed records g c = .ok cnt g2 c2 ∧
      TableInv H seed sc key_len line_size (done ++ fixedPairs val_len records) g2 c2 ∧
      cnt + dupCount (keysOf done) records = records.length := by
  intro records
  induction records with
  | nil =>
    intro done g c hinv _ _
    refine ⟨0, g, c, rfl, ?_, rfl⟩
    rw [show fixedPairs val_len [] = [] from rfl, List.append_nil]
    exact hinv
  | cons r rest ih =>
    intro done g c hinv hwf hlen
    obtain ⟨k, v⟩ := r
    have hwf0 := hwf (k, v) (List.mem_cons_self _ _)
    have hrow : (k ++ v.take val_len).length = line_size := by
      rw [List.length_append, List.length_take, hls, hwf0.1]
      rcases Nat.eq_zero_or_pos val_len with h0 | h0
      · simp [h0]
      · rw [hwf0.2 (by omega)]
        omega
    have hpre : (k ++ v.take val_len).take key_len = k := by
      rw [← hwf0.1]
      exact List.take_left _ _
    obtain ⟨inst, g', c', hmap, hinv', hiff, hsame⟩ :=
      mapping_step_inv H seed sc key_len line_size done g c k (k ++ v.take val_len)
        hsc hsc64 hinv hrow hpre (by
          have : rest.length + 1 = ((k, v) :: rest).length := by simp
          omega)
    obtain ⟨cnt2, g2, c2, hstream, hinv2, hcnt2⟩ :=
      ih (done ++ [(k, k ++ v.take val_len)]) g' c' hinv'
        (fun r2 hr2 => hwf r2 (List.mem_cons_of_mem _ hr2))
        (by rw [List.length_append, List.length_singleton]; simp at hlen ⊢; omega)
    refine ⟨(if inst then 1 else 0) + cnt2, g2, c2, ?_, ?_, ?_⟩
    · rw [MappingStream]
      rw [if_neg (show ¬(k.length ≠ key_len ∨ (val_len ≠ 0 ∧ v.length ≠ val_len)) from by
        push_neg
        exact ⟨hwf0.1, fun h => hwf0.2 h⟩)]
      simp only [hmap, hstream]
    · rw [show fixedPairs val_len ((k, v) :: rest)
          = (k, k ++ v.take val_len) :: fixedPairs val_len rest from rfl,
        show done ++ (k, k ++ v.take val_len) :: fixedPairs val_len rest
          = (done ++ [(k, k ++ v.take val_len)]) ++ fixedPairs val_len rest from by
          rw [List.append_assoc, List.singleton_append]]
      exact hinv2
    · unfold dupCount
      have hpermem : ∀ x, x ∈ keysOf (done ++ [(k, k ++ v.take val_len)])
          ↔ x ∈ k :: keysOf done := by
        intro x
        rw [keysOf_append]
        show x ∈ keysOf done ++ [k] ↔ _
        simp only [List.mem_append, List.mem_singleton, List.mem_cons]
        tauto
      rw [dupCount_congr rest _ _ hpermem] at hcnt2
      have hlen2 : ((k, v) :: rest).length = rest.length + 1 := by simp
      rw [hlen2]
      cases inst with
      | false =>
        have hmem := hiff.mp rfl
        rw [if_pos hmem]
        simp only [if_neg, Bool.false_eq_true, if_false]
        omega
      | true =>
        have hmem : k ∉ keysOf done := by
          intro hc
          exact Bool.noConfusion (hiff.mpr hc)
        rw [if_neg hmem]
        simp only [if_pos]
        omega


/-- Total dumped size of the varint-framed values. -/
def blobLen (records : List (List ℕ × List ℕ)) : ℕ :=
  (records.map (fun r => VarIntSize r.2.length + r.2.length)).sum

/-- The (key, fill-row) pairs mapped by the varied-value stream, given the
starting blob offset. -/
def variedPairs : List (List ℕ × List ℕ) → ℕ → List (List ℕ × List ℕ)
  | [], _ => []
  | (k, v) :: rest, off =>
    (k, k ++ WriteOffsetField off) ::
      variedPairs rest (off + (VarIntSize v.length + v.length))

lemma varIntSizeGo_pos : ∀ f n, 1 ≤ VarIntSizeGo f n := by
  intro f
  cases f with
  | zero =>
    intro n
    exact le_refl _
  | succ f2 =>
    intro n
    rw [VarIntSizeGo]
    by_cases h : n < 0x80
    · rw [if_pos h]
    · rw [if_neg h]
      omega

lemma varIntSize_pos (n : ℕ) : 1 ≤ VarIntSize n := varIntSizeGo_pos 10 n

lemma blobLen_cons (k v : List ℕ) (rest : List (List ℕ × List ℕ)) :
    blobLen ((k, v) :: rest) = (VarIntSize v.length + v.length) + blobLen rest := by
  unfold blobLen
  rw [List.map_cons, List.sum_cons]

lemma keysOf_variedPairs : ∀ (records : List (List ℕ × List ℕ)) (off : ℕ),
    keysOf (variedPairs records off) = keysOf records := by
  intro records
  induction records with
  | nil =>
    intro off
    rfl
  | cons r rest ih =>
    intro off
    obtain ⟨k, v⟩ := r
    rw [variedPairs]
    unfold keysOf at ih ⊢
    rw [List.map_cons, List.map_cons, ih]

/-- Mapping a whole varied-value stream: every offset stays in range, every
`Mapping` call resolves, the invariant advances by the offset-field rows, and
the installed count falls short by exactly the repeated keys. -/
lemma mappingVariedStream_inv (H : List ℕ → ℕ → ℕ) (seed sc key_len line_size : ℕ)
    (hls : line_size = key_len + 6) (hsc : 1 ≤ sc) (hsc64 : sc < 2^64) :
    ∀ (records done : List (List ℕ × List ℕ)) (off : ℕ) (g : List ℕ)
      (c : List (List ℕ)),
    TableInv H seed sc key_len line_size done g c →
    (∀ r ∈ records, r.1.length = key_len ∧ r.2.length ≤ MAX_VALUE_LEN) →
    off + blobLen records ≤ MAX_OFFSET + 1 →
    done.length + records.length ≤ 64 * sc →
    ∃ cnt g2 c2, MappingVariedStream H sc key_len seed records off g c = .ok cnt g2 c2 ∧
      TableInv H seed sc key_len line_size (done ++ variedPairs records off) g2 c2 ∧
      cnt + dupCount (keysOf done) records = records.length := by
  intro records
  induction records with
  | nil =>
    intro done off g c hinv _ _ _
    refine ⟨0, g, c, rfl, ?_, rfl⟩
    rw [show variedPairs [] off = [] from rfl, List.append_nil]
    exact hinv
  | cons r rest ih =>
    intro done off g c hinv hwf hoff hlen
    obtain ⟨k, v⟩ := r
    have hwf0 := hwf (k, v) (List.mem_cons_self _ _)
    have hblob := blobLen_cons k v rest
    have hvpos := varIntSize_pos v.length
    have hoffok : ¬(MAX_OFFSET < off ∨ MAX_VALUE_LEN < v.length) := by
      push_neg
      constructor
      · omega
      · exact hwf0.2
    have hrow : (k ++ WriteOffsetField off).length = line_size := by
      rw [List.length_append, hwf0.1, hls]
      unfold WriteOffsetField
      rw [toBytes_length]
    have hpre : (k ++ WriteOffsetField off).take key_len = k := by
      rw [← hwf0.1]
      exact List.take_left _ _
    obtain ⟨inst, g', c', hmap, hinv', hiff, hsame⟩ :=
      mapping_step_inv H seed sc key_len line_size done g c k (k ++ WriteOffsetField off)
        hsc hsc64 hinv hrow hpre (by
          have : rest.length + 1 = ((k, v) :: rest).length := by simp
          omega)
    obtain ⟨cnt2, g2, c2, hstream, hinv2, hcnt2⟩ :=
      ih (done ++ [(k, k ++ WriteOffsetField off)])
        (off + (VarIntSize v.length + v.length)) g' c' hinv'
        (fun r2 hr2 => hwf r2 (List.mem_cons_of_mem _ hr2))
        (by omega)
        (by rw [List.length_append, List.length_singleton]; simp at hlen ⊢; omega)
    refine ⟨(if inst then 1 else 0) + cnt2, g2, c2, ?_, ?_, ?_⟩
    · rw [MappingVariedStream]
      rw [if_neg hoffok, if_neg (show ¬(k.length ≠ key_len) from by
        push_neg
        exact hwf0.1)]
      simp only [hmap, hstream]
    · rw [show variedPairs ((k, v) :: rest) off
          = (k, k ++ WriteOffsetField off)
            :: variedPairs rest (off + (VarIntSize v.length + v.length)) from rfl,
        show done ++ (k, k ++ WriteOffsetField off)
            :: variedPairs rest (off + (VarIntSize v.length + v.length))
          = (done ++ [(k, k ++ WriteOffsetField off)])
            ++ variedPairs rest (off + (VarIntSize v.length + v.length)) from by
          rw [List.append_assoc, List.singleton_append]]
      exact hinv2
    · unfold dupCount
      have hpermem : ∀ x, x ∈ keysOf (done ++ [(k, k ++ WriteOffsetField off)])
          ↔ x ∈ k :: keysOf done := by
        intro x
        rw [keysOf_append]
        show x ∈ keysOf done ++ [k] ↔ _
        simp only [List.mem_append, List.mem_singleton, List.mem_cons]
        tauto
      rw [dupCount_congr rest _ _ hpermem] at hcnt2
      have hlen2 : ((k, v) :: rest).length = rest.length + 1 := by simp
      rw [hlen2]
      cases inst with
      | false =>
        have hmem := hiff.mp rfl
        rw [if_pos hmem]
        simp only [if_neg, Bool.false_eq_true, if_false]
        omega
      | true =>
        have hmem : k ∉ keysOf done := by
          intro hc
          exact Bool.noConfusion (hiff.mpr hc)
        rw [if_neg hmem]
        simp only [if_pos]
        omega


/-- Whatever the records, the varied-value mapping loop either throws
`BuildException` (bad input) or resolves completely; the installed count
falls short of the record count by the number of repeated keys. -/
lemma mappingVariedStream_total (H : List ℕ → ℕ → ℕ) (seed sc key_len line_size : ℕ)
    (hls : line_size = key_len + 6) (hsc : 1 ≤ sc) (hsc64 : sc < 2^64) :
    ∀ (records done : List (List ℕ × List ℕ)) (off : ℕ) (g : List ℕ)
      (c : List (List ℕ)),
    TableInv H seed sc key_len line_size done g c →
    done.length + records.length ≤ 64 * sc →
    MappingVariedStream H sc key_len seed records off g c = .badInput ∨
    ∃ cnt g2 c2, MappingVariedStream H sc key_len seed records off g c = .ok cnt g2 c2 ∧
      cnt + dupCount (keysOf done) records = records.length := by
  intro records
  induction records with
  | nil =>
    intro done off g c _ _
    exact Or.inr ⟨0, g, c, rfl, rfl⟩
  | cons r rest ih =>
    intro done off g c hinv hlen
    obtain ⟨k, v⟩ := r
    rw [MappingVariedStream]
    by_cases hc1 : MAX_OFFSET < off ∨ MAX_VALUE_LEN < v.length
    · rw [if_pos hc1]
      exact Or.inl rfl
    rw [if_neg hc1]
    by_cases hc2 : k.length ≠ key_len
    · rw [if_pos hc2]
      exact Or.inl rfl
    rw [if_neg hc2]
    push_neg at hc2
    have hrow : (k ++ WriteOffsetField off).length = line_size := by
      rw [List.length_append, hc2, hls]
      unfold WriteOffsetField
      rw [toBytes_length]
    have hpre : (k ++ WriteOffsetField off).take key_len = k := by
      rw [← hc2]
      exact List.take_left _ _
    obtain ⟨inst, g', c', hmap, hinv', hiff, _⟩ :=
      mapping_step_inv H seed sc key_len line_size done g c k (k ++ WriteOffsetField off)
        hsc hsc64 hinv hrow hpre (by
          have : rest.length + 1 = ((k, v) :: rest).length := by simp
          omega)
    rcases ih (done ++ [(k, k ++ WriteOffsetField off)])
        (off + (VarIntSize v.length + v.length)) g' c' hinv'
        (by rw [List.length_append, List.length_singleton]; simp at hlen ⊢; omega) with
      hbad | ⟨cnt2, g2, c2, hstream, hcnt2⟩
    · simp only [hmap, hbad]
      exact Or.inl trivial
    · refine Or.inr ⟨(if inst then 1 else 0) + cnt2, g2, c2, ?_, ?_⟩
      · simp only [hmap, hstream]
      · unfold dupCount
        have hpermem : ∀ x, x ∈ keysOf (done ++ [(k, k ++ WriteOffsetField off)])
            ↔ x ∈ k :: keysOf done := by
          intro x
          rw [keysOf_append]
          show x ∈ keysOf done ++ [k] ↔ _
          simp only [List.mem_append, List.mem_singleton, List.mem_cons]
          tauto
        rw [dupCount_congr rest _ _ hpermem] at hcnt2
        have hlen2 : ((k, v) :: rest).length = rest.length + 1 := by simp
        rw [hlen2]
        cases inst with
        | false =>
          have hmem := hiff.mp rfl
          rw [if_pos hmem]
          simp only [if_neg, Bool.false_eq_true, if_false]
          omega
        | true =>
          have hmem : k ∉ keysOf done := by
            intro hc
            exact Bool.noConfusion (hiff.mpr hc)
          rw [if_neg hmem]
          simp only [if_pos]
          omega

lemma dupCount_pos_of_mem : ∀ (l : List (List ℕ × List ℕ)) (prior : List (List ℕ)),
    (∃ r ∈ l, r.1 ∈ prior) → 0 < dupCount prior l := by
  intro l
  induction l with
  | nil =>
    intro prior h
    obtain ⟨r, hr, _⟩ := h
    exact absurd hr (List.not_mem_nil r)
  | cons q rest ih =>
    intro prior h
    obtain ⟨r, hr, hrp⟩ := h
    unfold dupCount
    rcases List.mem_cons.mp hr with heq | hmem
    · subst heq
      rw [if_pos hrp]
      omega
    · have := ih (q.1 :: prior) ⟨r, hmem, List.mem_cons_of_mem _ hrp⟩
      omega

lemma dupCount_pos_of_get : ∀ (l : List (List ℕ × List ℕ)) (prior : List (List ℕ))
    (i j : ℕ) (hi : i < l.length) (hj : j < l.length), i < j →
    (l.get ⟨i, hi⟩).1 = (l.get ⟨j, hj⟩).1 → 0 < dupCount prior l := by
  intro l
  induction l with
  | nil =>
    intro prior i j hi hj _ _
    exact absurd hi (by simp)
  | cons q rest ih =>
    intro prior i j hi hj hij heq
    cases i with
    | zero =>
      cases j with
      | zero => omega
      | succ j2 =>
        unfold dupCount
        have hj2 : j2 < rest.length := by simpa using hj
        have hkey : (rest.get ⟨j2, hj2⟩).1 = q.1 := by
          have h0 : ((q :: rest).get ⟨0, hi⟩).1 = q.1 := rfl
          have hsucc : ((q :: rest).get ⟨j2 + 1, hj⟩).1 = (rest.get ⟨j2, hj2⟩).1 := rfl
          rw [← hsucc, ← heq, h0]
        have hpos := dupCount_pos_of_mem rest (q.1 :: prior)
          ⟨rest.get ⟨j2, hj2⟩, List.get_mem rest j2 hj2, by
            rw [hkey]
            exact List.mem_cons_self _ _⟩
        omega
    | succ i2 =>
      cases j with
      | zero => omega
      | succ j2 =>
        unfold dupCount
        have := ih (q.1 :: prior) i2 j2 (by simpa using hi) (by simpa using hj)
          (by omega) heq
        omega


lemma calcSetCnt_le (item : ℕ) :
    CalcSetCnt item ≤ (item + (item + 15) / 16 + 63) / 64 + 1 := by
  unfold CalcSetCnt
  have h := Nat.and_le_left
    (n := (item + (item + 15) / 16 + 63) / 64) (m := 2^64 - 2)
  omega

lemma calcSetCnt_lt (item : ℕ) (h : item < 2^60) : CalcSetCnt item < 2^64 := by
  have h1 := calcSetCnt_le item
  have h2 : (item + (item + 15) / 16 + 63) / 64 < 2^60 := by omega
  omega

/-- C4 (amended): a `BuildDictWithVariedValue` call whose input holds two
records with the same key is rejected with `BUILD_STATUS_BAD_INPUT`: the
duplicate's `Mapping` returns "not installed", so the installed count trails
the record count and the `header.item != total` check fails (the original
claim asserted the build succeeds with the earlier value retained). -/
theorem varied_build_duplicate_keys_rejected (H : List ℕ → ℕ → ℕ) (seed : ℕ)
    (records : List (List ℕ × List ℕ)) (hsize : records.length < 2^60)
    (i j : ℕ) (hi : i < records.length) (hj : j < records.length) (hij : i < j)
    (heq : (records.get ⟨i, hi⟩).1 = (records.get ⟨j, hj⟩).1) :
    BuildDictWithVariedValue H seed records = .badInput := by
  cases records with
  | nil => simp at hj
  | cons r0 rest0 =>
    obtain ⟨k0, v0⟩ := r0
    simp only [BuildDictWithVariedValue]
    by_cases hk0 : k0.length = 0 ∨ 255 < k0.length
    · rw [if_pos hk0]
    · rw [if_neg hk0]
      have hsc : 1 ≤ CalcSetCnt ((k0, v0) :: rest0).length := calcSetCnt_pos _
      have hsc64 : CalcSetCnt ((k0, v0) :: rest0).length < 2^64 :=
        calcSetCnt_lt _ hsize
      have hslack := calcSetCnt_slack ((k0, v0) :: rest0).length hsize
      have hinv0 : TableInv H seed (CalcSetCnt ((k0, v0) :: rest0).length) k0.length
          (k0.length + OFFSET_FIELD_SIZE) []
          (List.replicate (CalcSetCnt ((k0, v0) :: rest0).length * 64) 0xff)
          (List.replicate (CalcSetCnt ((k0, v0) :: rest0).length * 64)
            (List.replicate (k0.length + OFFSET_FIELD_SIZE) 0)) := by
        rw [show CalcSetCnt ((k0, v0) :: rest0).length * 64
            = 64 * CalcSetCnt ((k0, v0) :: rest0).length from Nat.mul_comm _ _]
        exact tableInv_init H seed _ _ _
      have hdup : 0 < dupCount (keysOf []) ((k0, v0) :: rest0) :=
        dupCount_pos_of_get ((k0, v0) :: rest0) (keysOf []) i j hi hj hij heq
      rcases mappingVariedStream_total H seed (CalcSetCnt ((k0, v0) :: rest0).length)
          k0.length (k0.length + OFFSET_FIELD_SIZE) rfl hsc hsc64
          ((k0, v0) :: rest0) [] 0
          (List.replicate (CalcSetCnt ((k0, v0) :: rest0).length * 64) 0xff)
          (List.replicate (CalcSetCnt ((k0, v0) :: rest0).length * 64)
            (List.replicate (k0.length + OFFSET_FIELD_SIZE) 0))
          hinv0 (by
            rw [List.length_nil]
            omega) with
        hbad | ⟨cnt, g2, c2, hok, hcnt⟩
      · simp only [hbad]
      · simp only [hok]
        have hne : cnt ≠ ((k0, v0) :: rest0).length := by omega
        rw [if_pos hne]

/-- Witness for the amended C4: two one-byte records with the same key. -/
theorem varied_build_duplicate_keys_rejected_witness :
    BuildDictWithVariedValue (fun _ _ => 0) 0 [([1], []), ([1], [])] = .badInput :=
  varied_build_duplicate_keys_rejected (fun _ _ => 0) 0 [([1], []), ([1], [])]
    (by norm_num) 0 1 (by norm_num) (by norm_num) (by norm_num) rfl

set_option maxRecDepth 100000 in
/-- Counterexample to C4 as claimed: a duplicate-key input does not build
successfully — the call reports bad input instead of collapsing the keys. -/
theorem varied_build_duplicate_counterexample :
    (BuildDictWithVariedValue (fun _ _ => 0) 0 [([1], []), ([1], [])]).succeeded
      = false := by
  decide


/-! ## Loading a built artifact -/

lemma guideOK_bytes (g : List ℕ) (h : GuideOK g) : Bytes g := by
  intro b hb
  obtain ⟨i, hi, hval⟩ := List.mem_iff_getElem.mp hb
  have := h i
  rw [List.getD_eq_getElem _ _ hi, hval] at this
  omega

lemma flatten_length_uniform (L : ℕ) : ∀ (c : List (List ℕ)),
    (∀ r ∈ c, r.length = L) → c.flatten.length = c.length * L := by
  intro c
  induction c with
  | nil =>
    intro _
    simp
  | cons r rest ih =>
    intro h
    rw [List.flatten_cons, List.length_append, List.length_cons,
      ih (fun r2 hr2 => h r2 (List.mem_cons_of_mem _ hr2)),
      h r (List.mem_cons_self _ _)]
    ring

lemma contentRows_zero (L : ℕ) (bytes : List ℕ) : contentRows L 0 bytes = [] := rfl

lemma contentRows_cons (L n : ℕ) (r bytes : List ℕ) (hr : r.length = L) :
    contentRows L (n + 1) (r ++ bytes) = r :: contentRows L n bytes := by
  unfold contentRows
  rw [List.range_succ_eq_map, List.map_cons, List.map_map]
  congr 1
  · rw [Nat.zero_mul, List.drop_zero, ← hr, List.take_left]
  · apply List.map_congr_left
    intro i _
    show ((r ++ bytes).drop ((i + 1) * L)).take L = (bytes.drop (i * L)).take L
    rw [show (i + 1) * L = L + i * L from by ring, ← List.drop_drop, ← hr,
      List.drop_left]

lemma contentRows_flatten_append (L : ℕ) : ∀ (c : List (List ℕ)) (tail : List ℕ),
    (∀ r ∈ c, r.length = L) → contentRows L c.length (c.flatten ++ tail) = c := by
  intro c
  induction c with
  | nil =>
    intro tail _
    rfl
  | cons r rest ih =>
    intro tail h
    rw [List.flatten_cons, List.length_cons, List.append_assoc,
      contentRows_cons L rest.length r _ (h r (List.mem_cons_self _ _)),
      ih tail (fun r2 hr2 => h r2 (List.mem_cons_of_mem _ hr2))]

/-- `CreateView` accepts a well-formed fixed-layout artifact and recovers its
guide, rows, and extend region. -/
lemma createView_ok (type key_len val_len seed item sc : ℕ) (guide : List ℕ)
    (content : List (List ℕ)) (tail : List ℕ)
    (htype : type = KEY_SET ∨ type = KV_INLINE ∨ type = KV_SEPARATED)
    (hkey : key_len ≠ 0)
    (hval : type = KV_INLINE → val_len ≠ 0)
    (hval6 : type = KV_SEPARATED → val_len = 6)
    (htail : type = KV_SEPARATED → sc * 64 ≤ tail.length)
    (hsc : 1 ≤ sc)
    (hnw : 64 + sc * 64 + sc * 64 * (key_len + val_len) + sc * 64 < 2^64)
    (hls : key_len + val_len < 2^32)
    (hg : guide.length = sc * 64)
    (hc : content.length = sc * 64)
    (hrows : ∀ r ∈ content, r.length = key_len + val_len) :
    CreateView ⟨SSHT_MAGIC, type, key_len, val_len, seed, item, sc⟩
        (guide ++ (content.flatten ++ tail))
      = some { type := type, key_len := key_len, val_len := val_len,
               line_size := key_len + val_len, seed := seed, item := item,
               set_cnt := sc, guide := guide, content := content,
               extend := tail } := by
  have hflat : content.flatten.length = sc * 64 * (key_len + val_len) := by
    rw [flatten_length_uniform (key_len + val_len) content hrows, hc]
  have hbody : (guide ++ (content.flatten ++ tail)).length
      = sc * 64 + (sc * 64 * (key_len + val_len) + tail.length) := by
    rw [List.length_append, List.length_append, hg, hflat]
  have htc : typeCheck ⟨SSHT_MAGIC, type, key_len, val_len, seed, item, sc⟩ = true := by
    rcases htype with h | h | h <;> subst h <;>
      simp [typeCheck, KEY_SET, KV_INLINE, KV_SEPARATED, OFFSET_FIELD_SIZE, hkey, hval, hval6]
  rw [CreateView]
  rw [if_neg (show ¬(SSHT_MAGIC ≠ SSHT_MAGIC ∨ sc = 0) from by
    push_neg
    exact ⟨rfl, by omega⟩)]
  rw [if_neg (show ¬(typeCheck ⟨SSHT_MAGIC, type, key_len, val_len, seed, item, sc⟩
      = false) from by rw [htc]; simp)]
  simp only
  rw [Nat.mod_eq_of_lt (show sc * 64 < 2^64 from by omega),
    Nat.mod_eq_of_lt (show key_len + val_len < 2^32 from hls),
    Nat.mod_eq_of_lt (show 64 + sc * 64 < 2^64 from by omega),
    Nat.mod_eq_of_lt (show 64 + sc * 64 + sc * 64 * (key_len + val_len) < 2^64 from by omega)]
  rw [if_neg (show ¬(64 + (guide ++ (content.flatten ++ tail)).length
      < 64 + sc * 64 + sc * 64 * (key_len + val_len)) from by
    rw [hbody]
    omega)]
  rw [if_neg (show ¬(type = KV_SEPARATED ∧ 64 + (guide ++ (content.flatten ++ tail)).length
      < (64 + sc * 64 + sc * 64 * (key_len + val_len) + sc * 64) % 2^64) from by
    intro hcon
    obtain ⟨hsep, hlt⟩ := hcon
    rw [Nat.mod_eq_of_lt hnw] at hlt
    have := htail hsep
    rw [hbody] at hlt
    omega)]
  congr 1
  rw [View.mk.injEq]
  refine ⟨rfl, rfl, rfl, rfl, rfl, rfl, rfl, ?_, ?_, ?_⟩
  · rw [List.take_left' hg]
  · rw [List.drop_left' hg, ← hc]
    exact contentRows_flatten_append (key_len + val_len) content tail hrows
  · rw [show sc * 64 + sc * 64 * (key_len + val_len)
        = guide.length + content.flatten.length from by rw [hg, hflat],
      ← List.length_append]
    rw [← List.append_assoc]
    exact List.drop_left _ _


lemma firstRow_fixedPairs (val_len : ℕ) :
    ∀ (records : List (List ℕ × List ℕ)) (k : List ℕ),
    firstRow (fixedPairs val_len records) k
      = (firstRow records k).map (fun w => k ++ w.take val_len) := by
  intro records
  induction records with
  | nil =>
    intro k
    rfl
  | cons r rest ih =>
    intro k
    obtain ⟨k0, v0⟩ := r
    show firstRow ((k0, k0 ++ v0.take val_len) :: fixedPairs val_len rest) k = _
    rw [firstRow, firstRow]
    by_cases hk : k0 = k
    · subst hk
      rw [if_pos rfl, if_pos rfl]
      rfl
    · rw [if_neg hk, if_neg hk, ih k]

lemma firstRow_some_mem (records : List (List ℕ × List ℕ)) (k w : List ℕ)
    (h : firstRow records k = some w) : k ∈ keysOf records := by
  by_contra hc
  rw [(firstRow_none_iff records k).mpr hc] at h
  exact Option.noConfusion h

/-- C1 (amended): every fixed-size-value build (the `KEY_SET` and `KV_INLINE`
paths behind `BuildSet`/`BuildDict`, modelled single-threaded) returns OK,
its artifact loads, searching any input key returns the value of the first
record with that key (an empty non-null slice for `KEY_SET`), and searching
any key that is not an input key misses.  The original claim also covered
`BuildDictWithVariedValue`; there a successful build can produce an artifact
whose extend blob is shorter than one slot region, which `CreateView`
rejects, making every search miss — see the counterexample. -/
theorem fixed_build_load_search_roundtrip (H : List ℕ → ℕ → ℕ)
    (type key_len val_len seed : ℕ) (records : List (List ℕ × List ℕ))
    (htype : (type = KEY_SET ∧ val_len = 0) ∨ (type = KV_INLINE ∧ val_len ≠ 0))
    (hkey : key_len ≠ 0) (hkl : key_len ≤ 255) (hvl : val_len ≤ 65535)
    (hne : records ≠ [])
    (hsize : records.length < 2^40)
    (hwf : ∀ r ∈ records, r.1.length = key_len ∧ (val_len ≠ 0 → r.2.length = val_len)) :
    ∃ hdr body v,
      BuildWithFixedSizeValue H type key_len val_len seed records = .ok hdr body ∧
      CreateView hdr body = some v ∧
      (∀ k w, firstRow records k = some w →
        HashtableSearch H (some v) v.set_cnt k = some (some (w.take val_len))) ∧
      (∀ k, firstRow records k = none →
        HashtableSearch H (some v) v.set_cnt k = some none) := by
  have hsc : 1 ≤ CalcSetCnt records.length := calcSetCnt_pos _
  have hsc64 : CalcSetCnt records.length < 2^64 := calcSetCnt_lt _ (by omega)
  have hslack := calcSetCnt_slack records.length (by omega)
  have hscle := calcSetCnt_le records.length
  have hscb : CalcSetCnt records.length < 2^35 := by omega
  have hinv0 : TableInv H seed (CalcSetCnt records.length) key_len
      (key_len + val_len) []
      (List.replicate (CalcSetCnt records.length * 64) 0xff)
      (List.replicate (CalcSetCnt records.length * 64)
        (List.replicate (key_len + val_len) 0)) := by
    rw [show CalcSetCnt records.length * 64 = 64 * CalcSetCnt records.length from
      Nat.mul_comm _ _]
    exact tableInv_init H seed _ _ _
  obtain ⟨cnt, g2, c2, hstream, hinv, hcnt⟩ :=
    mappingStream_inv H seed (CalcSetCnt records.length) key_len val_len
      (key_len + val_len) rfl hsc hsc64 records []
      (List.replicate (CalcSetCnt records.length * 64) 0xff)
      (List.replicate (CalcSetCnt records.length * 64)
        (List.replicate (key_len + val_len) 0))
      hinv0 hwf (by rw [List.length_nil]; omega)
  have hpairslen : (fixedPairs val_len records).length = records.length :=
    List.length_map _ _
  have hprod : CalcSetCnt records.length * 64 * (key_len + val_len) < 2^58 := by
    have h1 : CalcSetCnt records.length * 64 < 2^41 := by omega
    have h2 : key_len + val_len < 2^17 := by omega
    calc CalcSetCnt records.length * 64 * (key_len + val_len)
        ≤ CalcSetCnt records.length * 64 * 2^17 :=
          Nat.mul_le_mul_left _ (by omega)
      _ < 2^41 * 2^17 := mul_lt_mul_of_pos_right h1 (by norm_num)
      _ = 2^58 := by norm_num
  have hts : type ≠ KV_SEPARATED := by
    rcases htype with ⟨h, _⟩ | ⟨h, _⟩ <;> subst h <;> decide
  have hbuild : BuildWithFixedSizeValue H type key_len val_len seed records
      = .ok ⟨SSHT_MAGIC, type, key_len, val_len, seed, cnt, CalcSetCnt records.length⟩
        (g2 ++ c2.flatten) := by
    rw [BuildWithFixedSizeValue,
      if_neg (show ¬(records = [] ∨ key_len = 0) from by
        push_neg
        exact ⟨hne, hkey⟩)]
    simp only [hstream]
  have hview := createView_ok type key_len val_len seed cnt
    (CalcSetCnt records.length) g2 c2 []
    (by rcases htype with ⟨h, _⟩ | ⟨h, _⟩ <;> subst h
        · exact Or.inl rfl
        · exact Or.inr (Or.inl rfl))
    hkey
    (fun hinl => by
      rcases htype with ⟨h, hv⟩ | ⟨h, hv⟩
      · rw [h] at hinl
        exact absurd hinl (by decide)
      · exact hv)
    (fun hsep => absurd hsep hts)
    (fun hsep => absurd hsep hts)
    hsc
    (by omega)
    (by omega)
    (by rw [Nat.mul_comm]; exact hinv.len_g)
    (by rw [Nat.mul_comm]; exact hinv.len_c)
    hinv.rows
  rw [List.append_nil] at hview
  rw [List.nil_append] at hinv
  refine ⟨_, _, _, hbuild, hview, ?_, ?_⟩
  · intro k w hfw
    have hmem : k ∈ keysOf records := firstRow_some_mem records k w hfw
    obtain ⟨rk, hrk, hrkk⟩ := List.mem_map.mp hmem
    have hklen : k.length = key_len := by
      rw [← hrkk]
      exact (hwf rk hrk).1
    have hmem2 : k ∈ keysOf (fixedPairs val_len records) := by
      rw [keysOf_fixedPairs]
      exact hmem
    obtain ⟨p, hp, hpk⟩ := List.mem_map.mp hmem2
    obtain ⟨t, ht, hF, hfr⟩ := hinv.found p hp
    rw [hpk] at hF hfr
    rw [firstRow_fixedPairs val_len records k, hfw, Option.map_some'] at hfr
    have hrowval : c2.getD (probeSlot (hset H k seed (CalcSetCnt records.length))
        (hsft H k seed) (CalcSetCnt records.length) t) [] = k ++ w.take val_len :=
      (Option.some.inj hfr).symm
    have hprobe := probeFirst_of_foundAt
      { type := type, key_len := key_len, val_len := val_len,
        line_size := key_len + val_len, seed := seed, item := cnt,
        set_cnt := CalcSetCnt records.length, guide := g2, content := c2,
        extend := [] }
      k (hmark H k seed) (hset H k seed (CalcSetCnt records.length))
      (hsft H k seed) t (hmark_lt H k seed) hinv.gOK hF
      (64 * CalcSetCnt records.length) 0 (by omega) (by omega)
    rw [hrowval,
      show (k ++ w.take val_len).drop key_len = w.take val_len from by
        rw [← hklen]
        exact List.drop_left _ _] at hprobe
    have hS : Search H
        { type := type, key_len := key_len, val_len := val_len,
          line_size := key_len + val_len, seed := seed, item := cnt,
          set_cnt := CalcSetCnt records.length, guide := g2, content := c2,
          extend := [] }
        k (CalcSetCnt records.length) = some (some (w.take val_len)) := by
      rw [Search_eq_probe H _ k (CalcSetCnt records.length) hsc hsc64
        (guideOK_bytes _ hinv.gOK) hinv.len_g]
      exact hprobe
    show HashtableSearch H (some _) (CalcSetCnt records.length) k
      = some (some (w.take val_len))
    rw [HashtableSearch]
    simp only [hS]
    rw [if_pos (show ¬(type = KV_SEPARATED) from hts)]
    rw [List.take_take, Nat.min_self]
  · intro k hfn
    have hnmem : k ∉ keysOf records := (firstRow_none_iff records k).mp hfn
    have hcl : 0 < g2.count 0xff := by
      have hcc := hinv.count
      rw [hpairslen] at hcc
      have hlb : 1 ≤ records.length := by
        cases records with
        | nil => exact absurd rfl hne
        | cons r rest => simp
      omega
    obtain ⟨eslot, hesl, hesv⟩ := exists_ff_of_count g2 hcl
    have hesl2 : eslot < 64 * CalcSetCnt records.length := by
      rw [← hinv.len_g]
      exact hesl
    obtain ⟨tE, htE, htEs⟩ := probeSlot_cover (hset H k seed (CalcSetCnt records.length))
      (hsft H k seed) (CalcSetCnt records.length) (by omega) (hsft_lt H k seed)
      eslot hesl2
    have hmiss := probeFirst_miss
      { type := type, key_len := key_len, val_len := val_len,
        line_size := key_len + val_len, seed := seed, item := cnt,
        set_cnt := CalcSetCnt records.length, guide := g2, content := c2,
        extend := [] }
      k (hmark H k seed) (hset H k seed (CalcSetCnt records.length))
      (hsft H k seed) (hmark_lt H k seed) hinv.gOK hsc
      (by
        intro s hsl hocc hcon
        obtain ⟨p, hp, hpp⟩ := hinv.prefixes s hsl hocc
        apply hnmem
        rw [show k = p.1 from by rw [hcon.2]; exact hpp,
          ← keysOf_fixedPairs val_len records]
        exact List.mem_map.mpr ⟨p, hp, rfl⟩)
      (64 * CalcSetCnt records.length) 0
      ⟨tE, htE, by
        rw [Nat.zero_add, htEs]
        exact hesv⟩
    have hS : Search H
        { type := type, key_len := key_len, val_len := val_len,
          line_size := key_len + val_len, seed := seed, item := cnt,
          set_cnt := CalcSetCnt records.length, guide := g2, content := c2,
          extend := [] }
        k (CalcSetCnt records.length) = some none := by
      rw [Search_eq_probe H _ k (CalcSetCnt records.length) hsc hsc64
        (guideOK_bytes _ hinv.gOK) hinv.len_g]
      exact hmiss
    show HashtableSearch H (some _) (CalcSetCnt records.length) k = some none
    rw [HashtableSearch]
    simp only [hS]


/-- Witness for the amended C1 on a one-record `KEY_SET` build. -/
theorem fixed_build_load_search_roundtrip_witness :
    ∃ hdr body v,
      BuildWithFixedSizeValue (fun _ _ => 0) KEY_SET 1 0 0 [([2], [])] = .ok hdr body ∧
      CreateView hdr body = some v ∧
      (∀ k w, firstRow [([2], [])] k = some w →
        HashtableSearch (fun _ _ => 0) (some v) v.set_cnt k = some (some (w.take 0))) ∧
      (∀ k, firstRow [([2], [])] k = none →
        HashtableSearch (fun _ _ => 0) (some v) v.set_cnt k = some none) :=
  fixed_build_load_search_roundtrip (fun _ _ => 0) KEY_SET 1 0 0 [([2], [])]
    (Or.inl ⟨rfl, rfl⟩) (by decide) (by decide) (by decide) (by decide)
    (by norm_num) (by decide)

set_option maxRecDepth 100000 in
/-- Counterexample to C1 as claimed: a 1-record `BuildDictWithVariedValue`
build succeeds, but its extend blob (1 byte) is smaller than one slot region
(64 bytes), so `CreateView` rejects the artifact and even the built key
misses. -/
theorem build_roundtrip_counterexample :
    (BuildDictWithVariedValue (fun _ _ => 0) 0 [([1], [])]).succeeded = true ∧
    loadOf (BuildDictWithVariedValue (fun _ _ => 0) 0 [([1], [])]) = none ∧
    HashtableSearch (fun _ _ => 0)
      (loadOf (BuildDictWithVariedValue (fun _ _ => 0) 0 [([1], [])])) 1 [1]
      = some none := by
  refine ⟨by decide, by decide, by decide⟩


/-! ## Batched lookups (`BatchProcess`) -/

/-- Per-query pipeline state of `BatchProcess`.  `line` holds the absolute
slot index of a candidate row (the C code stores the row pointer);
`onPatch` records which view `pack` points at. -/
structure BPState where
  idx : ℕ
  sft : ℕ
  cur : ℕ
  mark : ℕ
  set : ℕ
  line : Option ℕ
  onPatch : Bool
deriving Repr, DecidableEq

/-- `bind_pipeline(pack, state)`. -/
def bindPipeline (H : List ℕ → ℕ → ℕ) (pack : View) (onPatch : Bool)
    (key : List ℕ) (idx : ℕ) : BPState :=
  { idx := idx
    sft := (HashKey H key pack.seed pack.set_cnt).2.2
    cur := (HashKey H key pack.seed pack.set_cnt).2.2
    mark := (HashKey H key pack.seed pack.set_cnt).2.1
    set := (HashKey H key pack.seed pack.set_cnt).1
    line := none
    onPatch := onPatch }

/-- Result of the guide-scanning `while` loop of `BatchProcess`:
a candidate (`g[off] == mark`, with the advanced cursor and the offset), a
terminator byte, or a normally exhausted set. -/
inductive ScanRes where
  | cand (cur off : ℕ)
  | term
  | setEnd
deriving Repr, DecidableEq

/-- The `while (st.cur < st.sft+64)` scan (fuel 64 at the call site bounds
its iterations and never runs out). -/
def bpScanGo (g : List ℕ) (setIdx mark sft : ℕ) : ℕ → ℕ → ScanRes
  | 0, _ => .setEnd
  | fuel+1, cur =>
    if sft + 64 ≤ cur then .setEnd
    else if cur ≤ sft + 56 ∧ cur % 64 ≤ 56 then
      if CalcHint (load64 g (setIdx * 64 + cur % 64)) mark = 0 then
        bpScanGo g setIdx mark sft fuel (cur + 8)
      else
        if g.getD (setIdx * 64 + (cur % 64 +
            (((ctz (CalcHint (load64 g (setIdx * 64 + cur % 64)) mark) + 1) >>> 3) - 1))) 0
            = mark then
          .cand (cur + ((ctz (CalcHint (load64 g (setIdx * 64 + cur % 64)) mark) + 1) >>> 3))
            (cur % 64 +
              (((ctz (CalcHint (load64 g (setIdx * 64 + cur % 64)) mark) + 1) >>> 3) - 1))
        else if g.getD (setIdx * 64 + (cur % 64 +
            (((ctz (CalcHint (load64 g (setIdx * 64 + cur % 64)) mark) + 1) >>> 3) - 1))) 0
            &&& 0x80 ≠ 0 then
          .term
        else
          bpScanGo g setIdx mark sft fuel
            (cur + ((ctz (CalcHint (load64 g (setIdx * 64 + cur % 64)) mark) + 1) >>> 3))
    else
      if g.getD (setIdx * 64 + cur % 64) 0 = mark then .cand (cur + 1) (cur % 64)
      else if g.getD (setIdx * 64 + cur % 64) 0 &&& 0x80 ≠ 0 then .term
      else bpScanGo g setIdx mark sft fuel (cur + 1)

/-- One round of the pipeline for one query (the body of the inner `for`
loop): either the query keeps running with a new state (`goto next`), or it
resolves (`goto reload`) with a hit value or a miss. -/
inductive BPAct where
  | next (st : BPState)
  | reload (hitVal : Option (List ℕ))
deriving Repr, DecidableEq

def bpRound (H : List ℕ → ℕ → ℕ) (base patch : View)
    (keys : ℕ → List ℕ) (st : BPState) : BPAct :=
  let pack := if st.onPatch then patch else base
  match st.line with
  | some slot =>
    if keys st.idx = (pack.content.getD slot []).take base.key_len then
      .reload (some ((pack.content.getD slot []).drop base.key_len))
    else
      .next { st with line := none }
  | none =>
    match bpScanGo pack.guide st.set st.mark st.sft 64 st.cur with
    | .cand cur2 off => .next { st with cur := cur2, line := some (st.set * 64 + off) }
    | .term =>
      if st.onPatch then
        .next (bindPipeline H base false (keys st.idx) st.idx)
      else
        .reload none
    | .setEnd =>
      .next { st with
        cur := st.sft
        set := if pack.set_cnt ≤ st.set + 1 then 0 else st.set + 1 }

/-- The per-query denotation: iterate rounds until the query resolves
(`none` = round fuel exhausted). -/
def bpSteps (H : List ℕ → ℕ → ℕ) (base patch : View) (keys : ℕ → List ℕ) :
    BPState → ℕ → Option (Option (List ℕ))
  | _, 0 => none
  | st, fuel+1 =>
    match bpRound H base patch keys st with
    | .next st2 => bpSteps H base patch keys st2 fuel
    | .reload res => some res

/-- The value handed to the fill callback: the hit value on a hit, the
caller's default on a miss (the two `fill_val` call sites). -/
def resOrDft (dft : Option (List ℕ)) : Option (List ℕ) → Option (List ℕ)
  | some v => some v
  | none => dft

/-- The window scheduler of `BatchProcess`: `states` is the active prefix of
the 16-slot window, `i` the inner loop index, `nextIdx` the next query to
start.  `fill` abstracts the `FillVal` callback over an output accumulator,
`dft` the default value passed to it on a miss. -/
def bpRun {α : Type} (H : List ℕ → ℕ → ℕ) (base patch : View)
    (keys : ℕ → List ℕ) (fill : ℕ → Option (List ℕ) → α → α)
    (dft : Option (List ℕ)) (usePatch : Bool) (batch : ℕ) :
    List BPState → ℕ → ℕ → α → ℕ → ℕ → Option (ℕ × α)
  | _, _, _, _, _, 0 => none
  | states, nextIdx, hit, out, i, fuel+1 =>
    if states.length = 0 then some (hit, out)
    else if hlt : i < states.length then
      match bpRound H base patch keys (states.get ⟨i, hlt⟩) with
      | .next st2 =>
        bpRun H base patch keys fill dft usePatch batch
          (states.set i st2) nextIdx hit out (i + 1) fuel
      | .reload res =>
        let hit2 := hit + (if res.isSome then 1 else 0)
        let out2 := fill (states.get ⟨i, hlt⟩).idx (resOrDft dft res) out
        if nextIdx < batch then
          bpRun H base patch keys fill dft usePatch batch
            (states.set i (bindPipeline H (if usePatch then patch else base)
              usePatch (keys nextIdx) nextIdx))
            (nextIdx + 1) hit2 out2 (i + 1) fuel
        else
          bpRun H base patch keys fill dft usePatch batch
            ((states.set i (states.getLast (by
              intro hc
              rw [hc] at hlt
              simp at hlt))).dropLast)
            nextIdx hit2 out2 i fuel
    else
      bpRun H base patch keys fill dft usePatch batch states nextIdx hit out 0 fuel

/-- The patch-compatibility test of `BatchProcess`
(`patch->type != base.type || patch->key_len != base.key_len ||
patch->val_len != base.val_len`). -/
def patchIncompatible (base : View) : Option View → Bool
  | some pv => decide (pv.type ≠ base.type) || decide (pv.key_len ≠ base.key_len) ||
      decide (pv.val_len ≠ base.val_len)
  | none => false

/-- `BatchProcess(batch, base, patch, get_key, fill_val, dft_val)`.
`patchIsBase` models the `patch == &base` pointer comparison; the early
returns leave the caller's accumulator untouched.  `none` = round fuel
exhausted (a model artifact — the C loops carry no bound). -/
def BatchProcess {α : Type} (H : List ℕ → ℕ → ℕ) (batch : ℕ) (base : View)
    (patch : Option View) (patchIsBase : Bool) (keys : ℕ → List ℕ)
    (fill : ℕ → Option (List ℕ) → α → α) (dft : Option (List ℕ))
    (out0 : α) (fuel : ℕ) : Option (ℕ × α) :=
  if base.type = KV_SEPARATED ∨ patchIncompatible base patch = true then
    some (0, out0)
  else
    let patch2 := if patchIsBase then none else patch
    let pack0 := patch2.getD base
    let usePatch := patch2.isSome
    bpRun H base pack0 keys fill dft usePatch batch
      ((List.range (min batch 16)).map
        (fun idx => bindPipeline H pack0 usePatch (keys idx) idx))
      (min batch 16) 0 out0 0 fuel

/-- `Hashtable::batch_search(batch, keys, out, patch)`: a null handle or a
null `keys`/`out` pointer returns 0 with the output array untouched
(null pointers for `keys`/`out` are not representable here).  A non-null
`patch` argument passes the patch handle's view, valid or not (an invalid
one has `ILLEGAL_TYPE` and fails the compatibility check). -/
def HashtableBatchSearch (H : List ℕ → ℕ → ℕ) (ht : Option View) (batch : ℕ)
    (keys : ℕ → List ℕ) (patch : Option (Option View)) (patchIsBase : Bool)
    (out0 : List (Option (List ℕ))) (fuel : ℕ) :
    Option (ℕ × List (Option (List ℕ))) :=
  match ht with
  | none => some (0, out0)
  | some base =>
    BatchProcess H batch base (patch.map (fun p => p.getD {})) patchIsBase keys
      (fun idx v out => out.set idx v) none out0 fuel

/-- `Hashtable::batch_fetch(batch, keys, data, dft_val, patch)`: a null
handle (or a base that is not `KV_INLINE`) returns 0 with `data` untouched;
otherwise each resolved query copies `val_len` bytes of its value (or of the
caller's default, when given) into its `data` row. -/
def HashtableBatchFetch (H : List ℕ → ℕ → ℕ) (ht : Option View) (batch : ℕ)
    (keys : ℕ → List ℕ) (dft : Option (List ℕ)) (patch : Option (Option View))
    (patchIsBase : Bool) (data0 : List (List ℕ)) (fuel : ℕ) :
    Option (ℕ × List (List ℕ)) :=
  match ht with
  | none => some (0, data0)
  | some base =>
    if base.type ≠ KV_INLINE then some (0, data0)
    else
      BatchProcess H batch base (patch.map (fun p => p.getD {})) patchIsBase keys
        (fun idx v data =>
          match v with
          | some bytes => data.set idx (bytes.take base.val_len)
          | none => data)
        dft data0 fuel


/-! ## Loader validation (C5) -/

set_option maxRecDepth 100000 in
/-- Counterexample to C5 as claimed: a `KEY_SET` artifact with
`val_len = 3` — inconsistent with the claimed `val_len = 0` validation — is
accepted by `CreateView`, because the type switch falls through without ever
checking `val_len` for `KEY_SET`. -/
theorem createView_keyset_counterexample :
    CreateView ⟨SSHT_MAGIC, KEY_SET, 1, 3, 0, 0, 1⟩ (List.replicate 320 0) ≠ none := by
  decide

lemma typeCheck_iff (hdr : Header) :
    typeCheck hdr = true ↔
      ((hdr.type = KEY_SET ∧ hdr.key_len ≠ 0) ∨
       (hdr.type = KV_INLINE ∧ hdr.key_len ≠ 0 ∧ hdr.val_len ≠ 0) ∨
       (hdr.type = KV_SEPARATED ∧ hdr.key_len ≠ 0 ∧ hdr.val_len = 6)) := by
  unfold typeCheck
  by_cases h2 : hdr.type = KV_SEPARATED
  · rw [if_pos h2]
    rw [show KV_SEPARATED = 2 from rfl] at h2
    simp [h2, KEY_SET, KV_INLINE, KV_SEPARATED, OFFSET_FIELD_SIZE, and_comm]
    intro _ h6
    omega
  · rw [if_neg h2]
    by_cases h1 : hdr.type = KV_INLINE
    · rw [if_pos h1]
      rw [show KV_INLINE = 1 from rfl] at h1
      simp [h1, KEY_SET, KV_INLINE, KV_SEPARATED, and_comm]
    · rw [if_neg h1]
      by_cases h0 : hdr.type = KEY_SET
      · rw [if_pos h0]
        rw [show KEY_SET = 0 from rfl] at h0
        simp [h0, KEY_SET, KV_INLINE, KV_SEPARATED]
      · rw [if_neg h0]
        simp [h0, h1, h2]

/-- C5 (amended): `CreateView` validates, in order: the magic number
together with `set_cnt ≠ 0`; the type switch, which falls through —
`KV_SEPARATED` requires `val_len = 6`, `KV_INLINE` requires `val_len ≠ 0`,
and every allowed type requires `key_len ≠ 0`, but nothing constrains
`val_len` for `KEY_SET`; then that the size covers guide and content, and
for `KV_SEPARATED` at least `slot` further extend bytes.  When loading
fails, the handle is null: every `search` returns the null slice, and
`batch_search`/`batch_fetch` return hit count 0 with their output arrays
untouched. -/
theorem createView_validation (hdr : Header) (body : List ℕ)
    (hkl : hdr.key_len < 2^8) (hvl : hdr.val_len < 2^16) (hsc : hdr.set_cnt < 2^40)
    (H : List ℕ → ℕ → ℕ) (fuel batch : ℕ) (key : List ℕ) (keys : ℕ → List ℕ)
    (patch : Option (Option View)) (pib : Bool)
    (out0 : List (Option (List ℕ))) (data0 : List (List ℕ)) (dft : Option (List ℕ)) :
    ((∃ v, CreateView hdr body = some v) ↔
      (hdr.magic = SSHT_MAGIC ∧ hdr.set_cnt ≠ 0 ∧
       ((hdr.type = KEY_SET ∧ hdr.key_len ≠ 0) ∨
        (hdr.type = KV_INLINE ∧ hdr.key_len ≠ 0 ∧ hdr.val_len ≠ 0) ∨
        (hdr.type = KV_SEPARATED ∧ hdr.key_len ≠ 0 ∧ hdr.val_len = 6)) ∧
       hdr.set_cnt * 64 + hdr.set_cnt * 64 * (hdr.key_len + hdr.val_len) ≤ body.length ∧
       (hdr.type = KV_SEPARATED →
         hdr.set_cnt * 64 + hdr.set_cnt * 64 * (hdr.key_len + hdr.val_len)
           + hdr.set_cnt * 64 ≤ body.length))) ∧
    HashtableSearch H none fuel key = some none ∧
    HashtableBatchSearch H none batch keys patch pib out0 fuel = some (0, out0) ∧
    HashtableBatchFetch H none batch keys dft patch pib data0 fuel = some (0, data0) := by
  refine ⟨?_, rfl, rfl, rfl⟩
  have hprod : hdr.set_cnt * 64 * (hdr.key_len + hdr.val_len) < 2^63 := by
    have h1 : hdr.set_cnt * 64 < 2^46 := by omega
    have h2 : hdr.key_len + hdr.val_len < 2^17 := by omega
    calc hdr.set_cnt * 64 * (hdr.key_len + hdr.val_len)
        ≤ hdr.set_cnt * 64 * 2^17 := Nat.mul_le_mul_left _ (by omega)
      _ < 2^46 * 2^17 := mul_lt_mul_of_pos_right h1 (by norm_num)
      _ = 2^63 := by norm_num
  have hm1 : (hdr.set_cnt * 64) % 2^64 = hdr.set_cnt * 64 :=
    Nat.mod_eq_of_lt (by omega)
  have hm2 : (hdr.key_len + hdr.val_len) % 2^32 = hdr.key_len + hdr.val_len :=
    Nat.mod_eq_of_lt (by omega)
  have hm3 : (64 + hdr.set_cnt * 64) % 2^64 = 64 + hdr.set_cnt * 64 :=
    Nat.mod_eq_of_lt (by omega)
  have hm4 : (64 + hdr.set_cnt * 64 + hdr.set_cnt * 64 * (hdr.key_len + hdr.val_len))
      % 2^64
      = 64 + hdr.set_cnt * 64 + hdr.set_cnt * 64 * (hdr.key_len + hdr.val_len) :=
    Nat.mod_eq_of_lt (by omega)
  have hm5 : (64 + hdr.set_cnt * 64 + hdr.set_cnt * 64 * (hdr.key_len + hdr.val_len)
        + hdr.set_cnt * 64) % 2^64
      = 64 + hdr.set_cnt * 64 + hdr.set_cnt * 64 * (hdr.key_len + hdr.val_len)
        + hdr.set_cnt * 64 :=
    Nat.mod_eq_of_lt (by omega)
  constructor
  · rintro ⟨v, hv⟩
    rw [CreateView] at hv
    by_cases h1 : hdr.magic ≠ SSHT_MAGIC ∨ hdr.set_cnt = 0
    · rw [if_pos h1] at hv
      exact Option.noConfusion hv
    rw [if_neg h1] at hv
    push_neg at h1
    by_cases h2 : typeCheck hdr = false
    · rw [if_pos h2] at hv
      exact Option.noConfusion hv
    rw [if_neg h2] at hv
    have h2t : typeCheck hdr = true := by
      cases h : typeCheck hdr
      · exact absurd h h2
      · rfl
    simp only [hm1, hm2, hm3, hm4, hm5] at hv
    by_cases h3 : 64 + body.length
        < 64 + hdr.set_cnt * 64 + hdr.set_cnt * 64 * (hdr.key_len + hdr.val_len)
    · rw [if_pos h3] at hv
      exact Option.noConfusion hv
    rw [if_neg h3] at hv
    by_cases h4 : hdr.type = KV_SEPARATED ∧ 64 + body.length
        < 64 + hdr.set_cnt * 64 + hdr.set_cnt * 64 * (hdr.key_len + hdr.val_len)
          + hdr.set_cnt * 64
    · rw [if_pos h4] at hv
      exact Option.noConfusion hv
    refine ⟨h1.1, h1.2, (typeCheck_iff hdr).mp h2t, by omega, ?_⟩
    intro hsep
    by_cases h5 : 64 + body.length
        < 64 + hdr.set_cnt * 64 + hdr.set_cnt * 64 * (hdr.key_len + hdr.val_len)
          + hdr.set_cnt * 64
    · exact absurd ⟨hsep, h5⟩ h4
    · omega
  · rintro ⟨hmag, hscn, htc, hsz, hsep⟩
    rw [CreateView]
    rw [if_neg (show ¬(hdr.magic ≠ SSHT_MAGIC ∨ hdr.set_cnt = 0) from by
      push_neg
      exact ⟨hmag, hscn⟩)]
    rw [if_neg (show ¬(typeCheck hdr = false) from by
      rw [(typeCheck_iff hdr).mpr htc]
      simp)]
    simp only [hm1, hm2, hm3, hm4, hm5]
    rw [if_neg (show ¬(64 + body.length
        < 64 + hdr.set_cnt * 64 + hdr.set_cnt * 64 * (hdr.key_len + hdr.val_len)) from by
      omega)]
    rw [if_neg (show ¬(hdr.type = KV_SEPARATED ∧ 64 + body.length
        < 64 + hdr.set_cnt * 64 + hdr.set_cnt * 64 * (hdr.key_len + hdr.val_len)
          + hdr.set_cnt * 64) from by
      intro hc
      have := hsep hc.1
      omega)]
    exact ⟨_, rfl⟩

/-- Witness for the amended C5 on a hypothesis-satisfying concrete header. -/
theorem createView_validation_witness :
    ((∃ v, CreateView ⟨SSHT_MAGIC, KEY_SET, 1, 0, 0, 0, 1⟩ (List.replicate 128 0)
        = some v) ↔
      (SSHT_MAGIC = SSHT_MAGIC ∧ (1:ℕ) ≠ 0 ∧
       ((KEY_SET = KEY_SET ∧ (1:ℕ) ≠ 0) ∨
        (KEY_SET = KV_INLINE ∧ (1:ℕ) ≠ 0 ∧ (0:ℕ) ≠ 0) ∨
        (KEY_SET = KV_SEPARATED ∧ (1:ℕ) ≠ 0 ∧ (0:ℕ) = 6)) ∧
       1 * 64 + 1 * 64 * (1 + 0) ≤ (List.replicate (128:ℕ) (0:ℕ)).length ∧
       (KEY_SET = KV_SEPARATED →
         1 * 64 + 1 * 64 * (1 + 0) + 1 * 64 ≤ (List.replicate (128:ℕ) (0:ℕ)).length))) ∧
    HashtableSearch (fun _ _ => 0) none 1 [1] = some none ∧
    HashtableBatchSearch (fun _ _ => 0) none 1 (fun _ => [1]) none false [none] 1
      = some (0, [none]) ∧
    HashtableBatchFetch (fun _ _ => 0) none 1 (fun _ => [1]) none none false [[0]] 1
      = some (0, [[0]]) :=
  createView_validation ⟨SSHT_MAGIC, KEY_SET, 1, 0, 0, 0, 1⟩ (List.replicate 128 0)
    (by norm_num) (by norm_num) (by norm_num) (fun _ _ => 0) 1 1 [1] (fun _ => [1])
    none false [none] [[0]] none


/-! ## Deriving a new table from a loaded base (`Hashtable::derive`) -/

/-- Result of `CountHit(base, reader)`. -/
inductive CntOut where
  | ok (hit : ℕ)
  | badInput
  | fuelOut
deriving Repr, DecidableEq

/-- `CountHit(base, reader)`: number of stream keys that hit the base; a key
of the wrong length throws `BuildException`. -/
def CountHit (H : List ℕ → ℕ → ℕ) (base : View) :
    List (List ℕ × List ℕ) → CntOut
  | [] => .ok 0
  | (k, _) :: rest =>
    if k.length ≠ base.key_len then .badInput
    else
      match Search H base k base.set_cnt with
      | none => .fuelOut
      | some r =>
        match CountHit H base rest with
        | .ok h => .ok (h + if r.isSome then 1 else 0)
        | e => e

/-- The base-carrying pass of `RebuildWithFixedSizeValue`: every occupied
base slot (`(base.guide[i] & 0x80) == 0`) is re-mapped into the new table,
with the whole base row as the fill.  `i` is the slot index, the second
argument the number of slots left to visit. -/
def MapBaseSlots (H : List ℕ → ℕ → ℕ) (sc key_len seed : ℕ) (base : View) :
    ℕ → ℕ → List ℕ → List (List ℕ) → MapOut
  | _, 0, g, c => .ok 0 g c
  | i, n+1, g, c =>
    if base.guide.getD i 0 &&& 0x80 = 0 then
      match Mapping H sc key_len seed ((base.content.getD i []).take key_len)
          (base.content.getD i []) g c sc with
      | none => .fuelOut
      | some (inst, g', c') =>
        match MapBaseSlots H sc key_len seed base (i+1) n g' c' with
        | .ok cnt g2 c2 => .ok ((if inst then 1 else 0) + cnt) g2 c2
        | e => e
    else MapBaseSlots H sc key_len seed base (i+1) n g c

/-- `RebuildWithFixedSizeValue(base, in, out)` for a single input stream:
count the stream keys hitting the base, size the new table, map the stream,
then carry over every occupied base row. -/
def RebuildWithFixedSizeValue (H : List ℕ → ℕ → ℕ) (seed : ℕ) (base : View)
    (records : List (List ℕ × List ℕ)) : BuildOut :=
  match CountHit H base records with
  | .badInput => .badInput
  | .fuelOut => .fuelOut
  | .ok dirty =>
    let total := records.length + base.item - dirty
    let sc := CalcSetCnt total
    let slot := sc * 64
    match MappingStream H sc base.key_len base.val_len seed records
        (List.replicate slot 0xff)
        (List.replicate slot (List.replicate (base.key_len + base.val_len) 0)) with
    | .badInput => .badInput
    | .fuelOut => .fuelOut
    | .ok cnt1 g1 c1 =>
      match MapBaseSlots H sc base.key_len seed base 0 (base.set_cnt * 64) g1 c1 with
      | .badInput => .badInput
      | .fuelOut => .fuelOut
      | .ok cnt2 g2 c2 =>
        .ok ⟨SSHT_MAGIC, base.type, base.key_len, base.val_len, seed,
              cnt1 + cnt2, sc⟩
          (g2 ++ c2.flatten)

/-- Result of the base-carrying pass of `RebuildDictWithVariedValue`:
`vals` lists the payloads of the carried (bitmap-marked) rows, in slot
order, as dumped after the new records' values. -/
inductive VarCarryOut where
  | ok (cnt : ℕ) (g : List ℕ) (c : List (List ℕ)) (vals : List (List ℕ))
  | badInput
  | fuelOut
deriving Repr, DecidableEq

/-- The base-carrying pass of `RebuildDictWithVariedValue`: each occupied
base slot is re-mapped with its key and a fresh offset field; on install the
base value is located through the base's extend blob (the `Assert` on a
null slice is modelled as rejection) and scheduled for dumping. -/
def MapBaseSlotsVaried (H : List ℕ → ℕ → ℕ) (sc key_len seed : ℕ) (base : View) :
    ℕ → ℕ → ℕ → List ℕ → List (List ℕ) → VarCarryOut
  | _, 0, _, g, c => .ok 0 g c []
  | i, n+1, off, g, c =>
    if base.guide.getD i 0 &&& 0x80 = 0 then
      match Mapping H sc key_len seed ((base.content.getD i []).take key_len)
          ((base.content.getD i []).take key_len ++ WriteOffsetField off) g c sc with
      | none => .fuelOut
      | some (inst, g', c') =>
        if inst then
          match SeparatedValue base.extend
              (ReadOffsetField ((base.content.getD i []).drop key_len)) with
          | none => .badInput
          | some (pv, lv) =>
            match MapBaseSlotsVaried H sc key_len seed base (i+1) n
                (off + (VarIntSize lv + lv)) g' c' with
            | .ok cnt g2 c2 vals =>
              .ok (cnt + 1) g2 c2 (((base.extend.drop pv).take lv) :: vals)
            | e => e
        else
          match MapBaseSlotsVaried H sc key_len seed base (i+1) n off g' c' with
          | .ok cnt g2 c2 vals => .ok cnt g2 c2 vals
          | e => e
    else MapBaseSlotsVaried H sc key_len seed base (i+1) n off g c

/-- `RebuildDictWithVariedValue(base, in, out)` for a single input stream. -/
def RebuildDictWithVariedValue (H : List ℕ → ℕ → ℕ) (seed : ℕ) (base : View)
    (records : List (List ℕ × List ℕ)) : BuildOut :=
  match CountHit H base records with
  | .badInput => .badInput
  | .fuelOut => .fuelOut
  | .ok dirty =>
    let neo := records.length
    let total := base.item + neo - dirty
    let sc := CalcSetCnt total
    let slot := sc * 64
    match MappingVariedStream H sc base.key_len seed records 0
        (List.replicate slot 0xff)
        (List.replicate slot (List.replicate (base.key_len + OFFSET_FIELD_SIZE) 0)) with
    | .badInput => .badInput
    | .fuelOut => .fuelOut
    | .ok cnt1 g1 c1 =>
      if cnt1 ≠ neo then .badInput
      else
        match MapBaseSlotsVaried H sc base.key_len seed base 0 (base.set_cnt * 64)
            (blobLen records) g1 c1 with
        | .badInput => .badInput
        | .fuelOut => .fuelOut
        | .ok cnt2 g2 c2 vals =>
          .ok ⟨SSHT_MAGIC, KV_SEPARATED, base.key_len, base.val_len, seed,
                cnt1 + cnt2, sc⟩
            (g2 ++ c2.flatten ++ (records.flatMap (fun r => DumpVariedValue r.2)
              ++ vals.flatMap DumpVariedValue))

/-- `Hashtable::derive(in, out)`: a null handle is rejected; the rebuild is
dispatched on the base's type. -/
def derive (H : List ℕ → ℕ → ℕ) (seed : ℕ) (ht : Option View)
    (records : List (List ℕ × List ℕ)) : BuildOut :=
  match ht with
  | none => .badInput
  | some base =>
    if base.type = KEY_SET ∨ base.type = KV_INLINE then
      RebuildWithFixedSizeValue H seed base records
    else if base.type = KV_SEPARATED then
      RebuildDictWithVariedValue H seed base records
    else .badInput


/-- The (key, row) pairs carried over from the base's occupied slots, in
slot order. -/
def basePairs (base : View) (key_len : ℕ) : ℕ → ℕ → List (List ℕ × List ℕ)
  | _, 0 => []
  | i, n+1 =>
    if base.guide.getD i 0 &&& 0x80 = 0 then
      ((base.content.getD i []).take key_len, base.content.getD i [])
        :: basePairs base key_len (i+1) n
    else basePairs base key_len (i+1) n

lemma firstRow_append (l l2 : List (List ℕ × List ℕ)) (k : List ℕ)
    (h : firstRow l k = none) : firstRow (l ++ l2) k = firstRow l2 k := by
  induction l with
  | nil => rfl
  | cons q rest ih =>
    rw [firstRow] at h
    rw [List.cons_append, firstRow]
    by_cases hq : q.1 = k
    · rw [if_pos hq] at h
      exact Option.noConfusion h
    · rw [if_neg hq] at h ⊢
      exact ih h

/-- A fixed-size-value stream that ran to completion was fully valid and
advances the invariant; the installs consume at most `cnt` empty bytes. -/
lemma mappingStream_cond (H : List ℕ → ℕ → ℕ) (seed sc key_len val_len line_size : ℕ)
    (hls : line_size = key_len + val_len) (hsc : 1 ≤ sc) (hsc64 : sc < 2^64) :
    ∀ (records done : List (List ℕ × List ℕ)) (g : List ℕ) (c : List (List ℕ))
      (cnt : ℕ) (g2 : List ℕ) (c2 : List (List ℕ)),
    TableInv H seed sc key_len line_size done g c →
    MappingStream H sc key_len val_len seed records g c = .ok cnt g2 c2 →
    TableInv H seed sc key_len line_size (done ++ fixedPairs val_len records) g2 c2 ∧
      g.count 0xff ≤ g2.count 0xff + cnt ∧
      (∀ r ∈ records, r.1.length = key_len ∧ (val_len ≠ 0 → r.2.length = val_len)) := by
  intro records
  induction records with
  | nil =>
    intro done g c cnt g2 c2 hinv hok
    rw [MappingStream] at hok
    obtain ⟨h1, h2, h3⟩ := MapOut.ok.inj hok
    subst h2
    subst h3
    refine ⟨?_, ?_, ?_⟩
    · rw [show fixedPairs val_len [] = [] from rfl, List.append_nil]
      exact hinv
    · omega
    · intro r hr
      exact absurd hr (List.not_mem_nil r)
  | cons r rest ih =>
    intro done g c cnt g2 c2 hinv hok
    obtain ⟨k, v⟩ := r
    rw [MappingStream] at hok
    by_cases hguard : k.length ≠ key_len ∨ (val_len ≠ 0 ∧ v.length ≠ val_len)
    · rw [if_pos hguard] at hok
      exact absurd hok (by simp)
    rw [if_neg hguard] at hok
    push_neg at hguard
    have hrow : (k ++ v.take val_len).length = line_size := by
      rw [List.length_append, List.length_take, hls, hguard.1]
      rcases Nat.eq_zero_or_pos val_len with h0 | h0
      · simp [h0]
      · rw [hguard.2 (by omega)]
        omega
    have hpre : (k ++ v.take val_len).take key_len = k := by
      rw [← hguard.1]
      exact List.take_left _ _
    cases hmap : Mapping H sc key_len seed k (k ++ v.take val_len) g c sc with
    | none =>
      rw [hmap] at hok
      exact absurd hok (by simp)
    | some r2 =>
      obtain ⟨inst, g1, c1⟩ := r2
      rw [hmap] at hok
      simp only at hok
      cases hrest : MappingStream H sc key_len val_len seed rest g1 c1 with
      | ok cnt1 g3 c3 =>
        rw [hrest] at hok
        simp only at hok
        obtain ⟨h1, h2, h3⟩ := MapOut.ok.inj hok
        subst h2
        subst h3
        obtain ⟨hinv1, _, _, hcnt1⟩ := mapping_step_cond H seed sc key_len line_size
          done g c k (k ++ v.take val_len) inst g1 c1 hsc hsc64 hinv hrow hpre hmap
        obtain ⟨hinv2, hcnt2, hwf2⟩ := ih (done ++ [(k, k ++ v.take val_len)])
          g1 c1 _ _ _ hinv1 hrest
        refine ⟨?_, ?_, ?_⟩
        · rw [show fixedPairs val_len ((k, v) :: rest)
              = (k, k ++ v.take val_len) :: fixedPairs val_len rest from rfl,
            show done ++ (k, k ++ v.take val_len) :: fixedPairs val_len rest
              = (done ++ [(k, k ++ v.take val_len)]) ++ fixedPairs val_len rest from by
              rw [List.append_assoc, List.singleton_append]]
          exact hinv2
        · cases inst with
          | false =>
            simp only [Bool.false_eq_true, if_false] at hcnt1 h1
            omega
          | true =>
            simp only [if_pos] at hcnt1 h1
            omega
        · intro r2 hr2
          rcases List.mem_cons.mp hr2 with heq | hmem
          · subst heq
            exact ⟨hguard.1, fun h => hguard.2 h⟩
          · exact hwf2 r2 hmem
      | badInput =>
        rw [hrest] at hok
        exact absurd hok (by simp)
      | fuelOut =>
        rw [hrest] at hok
        exact absurd hok (by simp)

/-- The base-carrying pass, given that it ran to completion: the invariant
advances by the occupied base rows. -/
lemma mapBaseSlots_cond (H : List ℕ → ℕ → ℕ) (seed sc key_len line_size : ℕ)
    (base : View) (hsc : 1 ≤ sc) (hsc64 : sc < 2^64)
    (hbrows : ∀ r ∈ base.content, r.length = line_size) :
    ∀ (n i : ℕ) (done : List (List ℕ × List ℕ)) (g : List ℕ) (c : List (List ℕ))
      (cnt : ℕ) (g2 : List ℕ) (c2 : List (List ℕ)),
    i + n ≤ base.content.length →
    TableInv H seed sc key_len line_size done g c →
    MapBaseSlots H sc key_len seed base i n g c = .ok cnt g2 c2 →
    TableInv H seed sc key_len line_size (done ++ basePairs base key_len i n) g2 c2 ∧
      g.count 0xff ≤ g2.count 0xff + cnt := by
  intro n
  induction n with
  | zero =>
    intro i done g c cnt g2 c2 _ hinv hok
    rw [MapBaseSlots] at hok
    obtain ⟨h1, h2, h3⟩ := MapOut.ok.inj hok
    subst h2
    subst h3
    refine ⟨?_, by omega⟩
    rw [show basePairs base key_len i 0 = [] from rfl, List.append_nil]
    exact hinv
  | succ n ih =>
    intro i done g c cnt g2 c2 hlen hinv hok
    rw [MapBaseSlots] at hok
    rw [basePairs]
    by_cases hocc : base.guide.getD i 0 &&& 0x80 = 0
    · rw [if_pos hocc] at hok ⊢
      have hi : i < base.content.length := by omega
      have hrow : (base.content.getD i []).length = line_size := by
        apply hbrows
        rw [List.getD_eq_getElem _ _ hi]
        exact List.getElem_mem _
      cases hmap : Mapping H sc key_len seed ((base.content.getD i []).take key_len)
          (base.content.getD i []) g c sc with
      | none =>
        rw [hmap] at hok
        exact absurd hok (by simp)
      | some r2 =>
        obtain ⟨inst, g1, c1⟩ := r2
        rw [hmap] at hok
        simp only at hok
        cases hrest : MapBaseSlots H sc key_len seed base (i+1) n g1 c1 with
        | ok cnt1 g3 c3 =>
          rw [hrest] at hok
          simp only at hok
          obtain ⟨h1, h2, h3⟩ := MapOut.ok.inj hok
          subst h2
          subst h3
          obtain ⟨hinv1, _, _, hcnt1⟩ := mapping_step_cond H seed sc key_len line_size
            done g c ((base.content.getD i []).take key_len) (base.content.getD i [])
            inst g1 c1 hsc hsc64 hinv hrow rfl hmap
          obtain ⟨hinv2, hcnt2⟩ := ih (i+1)
            (done ++ [((base.content.getD i []).take key_len, base.content.getD i [])])
            g1 c1 _ _ _ (by omega) hinv1 hrest
          refine ⟨?_, ?_⟩
          · rw [show done ++ ((base.content.getD i []).take key_len, base.content.getD i [])
                  :: basePairs base key_len (i+1) n
                = (done ++ [((base.content.getD i []).take key_len, base.content.getD i [])])
                  ++ basePairs base key_len (i+1) n from by
                rw [List.append_assoc, List.singleton_append]]
            exact hinv2
          · cases inst with
            | false =>
              simp only [Bool.false_eq_true, if_false] at hcnt1 h1
              omega
            | true =>
              simp only [if_pos] at hcnt1 h1
              omega
        | badInput =>
          rw [hrest] at hok
          exact absurd hok (by simp)
        | fuelOut =>
          rw [hrest] at hok
          exact absurd hok (by simp)
    · rw [if_neg hocc] at hok ⊢
      exact ih (i+1) done g c cnt g2 c2 (by omega) hinv hok


/-- A minimal valid `KV_SEPARATED` base: one item with key `[9]` whose
6-byte offset field points at a 64-byte varint value region. -/
def sepBaseExample : View :=
  { type := KV_SEPARATED, key_len := 1, val_len := 6, line_size := 7, seed := 0,
    item := 1, set_cnt := 1,
    guide := 0 :: List.replicate 63 0xff,
    content := ([9] ++ WriteOffsetField 0) :: List.replicate 63 (List.replicate 7 0),
    extend := 64 :: List.replicate 64 7 }

set_option maxRecDepth 1000000 in
/-- Counterexample to C3 as claimed: deriving from a valid `KV_SEPARATED`
base succeeds, yet the derived artifact's extend blob is shorter than one
slot region, so loading rejects it and even the derived keys miss. -/
theorem derive_roundtrip_counterexample :
    (derive (fun _ _ => 0) 0 (some sepBaseExample) [([9], [])]).succeeded = true ∧
    loadOf (derive (fun _ _ => 0) 0 (some sepBaseExample) [([9], [])]) = none ∧
    HashtableSearch (fun _ _ => 0)
      (loadOf (derive (fun _ _ => 0) 0 (some sepBaseExample) [([9], [])])) 1 [9]
      = some none := by
  refine ⟨by decide, by decide, by decide⟩

/-- C3 (amended): on the fixed-size-value path (`KEY_SET`/`KV_INLINE` base),
a successful `derive` whose output header shows spare capacity
(`item < 64 * set_cnt`) yields a loadable artifact on which search returns
the new streams' value for every new-stream key, the base row's value for
every key found only among the base's occupied slots, and a miss for every
other key.  The original claim also covered `KV_SEPARATED` bases, where a
successful derive can produce an unloadable artifact on which every search
misses — see the counterexample. -/
theorem derive_fixed_search_roundtrip (H : List ℕ → ℕ → ℕ) (seed : ℕ)
    (base : View) (records : List (List ℕ × List ℕ)) (hdr : Header) (body : List ℕ)
    (htype : base.type = KEY_SET ∨ base.type = KV_INLINE)
    (hkey : base.key_len ≠ 0) (hkl : base.key_len ≤ 255) (hvl : base.val_len ≤ 65535)
    (hv0 : base.type = KV_INLINE → base.val_len ≠ 0)
    (hsz : records.length + base.item < 2^40)
    (hbrows : ∀ r ∈ base.content, r.length = base.key_len + base.val_len)
    (hbclen : base.set_cnt * 64 ≤ base.content.length)
    (hok : derive H seed (some base) records = .ok hdr body)
    (hitem : hdr.item < 64 * hdr.set_cnt) :
    ∃ v, CreateView hdr body = some v ∧
      (∀ k w, firstRow records k = some w →
        HashtableSearch H (some v) v.set_cnt k = some (some (w.take base.val_len))) ∧
      (∀ k rowB, firstRow records k = none →
        firstRow (basePairs base base.key_len 0 (base.set_cnt * 64)) k = some rowB →
        HashtableSearch H (some v) v.set_cnt k
          = some (some ((rowB.drop base.key_len).take base.val_len))) ∧
      (∀ k, firstRow records k = none →
        firstRow (basePairs base base.key_len 0 (base.set_cnt * 64)) k = none →
        HashtableSearch H (some v) v.set_cnt k = some none) := by
  have hts : ¬base.type = KV_SEPARATED := by
    rcases htype with h | h <;> rw [h] <;> decide
  simp only [derive] at hok
  rw [if_pos htype, RebuildWithFixedSizeValue] at hok
  cases hch : CountHit H base records with
  | badInput =>
    rw [hch] at hok
    exact absurd hok (by simp)
  | fuelOut =>
    rw [hch] at hok
    exact absurd hok (by simp)
  | ok dirty =>
    rw [hch] at hok
    simp only at hok
    set sc := CalcSetCnt (records.length + base.item - dirty) with hsceq
    have hsc : 1 ≤ sc := by
      rw [hsceq]
      exact calcSetCnt_pos _
    have hslack := calcSetCnt_slack (records.length + base.item - dirty) (by omega)
    have hscle := calcSetCnt_le (records.length + base.item - dirty)
    rw [← hsceq] at hslack hscle
    have hscb : sc < 2^35 := by omega
    have hsc64 : sc < 2^64 := by omega
    have hinv0 : TableInv H seed sc base.key_len (base.key_len + base.val_len) []
        (List.replicate (sc * 64) 0xff)
        (List.replicate (sc * 64) (List.replicate (base.key_len + base.val_len) 0)) := by
      rw [show sc * 64 = 64 * sc from Nat.mul_comm _ _]
      exact tableInv_init H seed _ _ _
    cases hstream : MappingStream H sc base.key_len base.val_len seed records
        (List.replicate (sc * 64) 0xff)
        (List.replicate (sc * 64) (List.replicate (base.key_len + base.val_len) 0)) with
    | badInput =>
      rw [hstream] at hok
      exact absurd hok (by simp)
    | fuelOut =>
      rw [hstream] at hok
      exact absurd hok (by simp)
    | ok cnt1 g1 c1 =>
      rw [hstream] at hok
      simp only at hok
      cases hbm : MapBaseSlots H sc base.key_len seed base 0 (base.set_cnt * 64) g1 c1 with
      | badInput =>
        rw [hbm] at hok
        exact absurd hok (by simp)
      | fuelOut =>
        rw [hbm] at hok
        exact absurd hok (by simp)
      | ok cnt2 g2 c2 =>
        rw [hbm] at hok
        simp only at hok
        obtain ⟨h1, h2⟩ := BuildOut.ok.inj hok
        subst h1
        subst h2
        have hitem2 : cnt1 + cnt2 < 64 * sc := hitem
        obtain ⟨hinv1, hcount1, hwf⟩ := mappingStream_cond H seed sc base.key_len
          base.val_len (base.key_len + base.val_len) rfl hsc hsc64 records []
          (List.replicate (sc * 64) 0xff)
          (List.replicate (sc * 64) (List.replicate (base.key_len + base.val_len) 0))
          cnt1 g1 c1 hinv0 hstream
        rw [List.nil_append] at hinv1
        obtain ⟨hinv2, hcount2⟩ := mapBaseSlots_cond H seed sc base.key_len
          (base.key_len + base.val_len) base hsc hsc64 hbrows (base.set_cnt * 64) 0
          (fixedPairs base.val_len records) g1 c1 cnt2 g2 c2 (by omega) hinv1 hbm
        have hg0count : (List.replicate (sc * 64) 0xff).count 0xff = sc * 64 := by
          rw [List.count_replicate]
          simp
        have hcl : 0 < g2.count 0xff := by
          rw [hg0count] at hcount1
          omega
        have hprod : sc * 64 * (base.key_len + base.val_len) < 2^58 := by
          have h1 : sc * 64 < 2^41 := by omega
          have h2 : base.key_len + base.val_len < 2^17 := by omega
          calc sc * 64 * (base.key_len + base.val_len)
              ≤ sc * 64 * 2^17 := Nat.mul_le_mul_left _ (by omega)
            _ < 2^41 * 2^17 := mul_lt_mul_of_pos_right h1 (by norm_num)
            _ = 2^58 := by norm_num
        have hview := createView_ok base.type base.key_len base.val_len seed
          (cnt1 + cnt2) sc g2 c2 []
          (by rcases htype with h | h
              · exact Or.inl h
              · exact Or.inr (Or.inl h))
          hkey hv0
          (fun hsep => absurd hsep hts)
          (fun hsep => absurd hsep hts)
          hsc
          (by omega)
          (by omega)
          (by rw [Nat.mul_comm]; exact hinv2.len_g)
          (by rw [Nat.mul_comm]; exact hinv2.len_c)
          hinv2.rows
        rw [List.append_nil] at hview
        refine ⟨_, hview, ?_, ?_, ?_⟩
        · intro k w hfw
          have hmem : k ∈ keysOf records := firstRow_some_mem records k w hfw
          obtain ⟨rk, hrk, hrkk⟩ := List.mem_map.mp hmem
          have hklen : k.length = base.key_len := by
            rw [← hrkk]
            exact (hwf rk hrk).1
          have hfall : firstRow (fixedPairs base.val_len records
              ++ basePairs base base.key_len 0 (base.set_cnt * 64)) k
              = some (k ++ w.take base.val_len) :=
            firstRow_append_left _ _ k _
              (by rw [firstRow_fixedPairs base.val_len records k, hfw, Option.map_some'])
          have hmemall := firstRow_some_mem _ k _ hfall
          obtain ⟨p, hp, hpk⟩ := List.mem_map.mp hmemall
          obtain ⟨t, ht, hF, hfr⟩ := hinv2.found p hp
          rw [hpk] at hF hfr
          rw [hfall] at hfr
          have hrowval : c2.getD (probeSlot (hset H k seed sc)
              (hsft H k seed) sc t) [] = k ++ w.take base.val_len :=
            (Option.some.inj hfr).symm
          have hprobe := probeFirst_of_foundAt
            { type := base.type, key_len := base.key_len, val_len := base.val_len,
              line_size := base.key_len + base.val_len, seed := seed,
              item := cnt1 + cnt2, set_cnt := sc, guide := g2, content := c2,
              extend := [] }
            k (hmark H k seed) (hset H k seed sc) (hsft H k seed) t
            (hmark_lt H k seed) hinv2.gOK hF (64 * sc) 0 (by omega) (by omega)
          rw [hrowval,
            show (k ++ w.take base.val_len).drop base.key_len = w.take base.val_len from by
              rw [← hklen]
              exact List.drop_left _ _] at hprobe
          have hS : Search H
              { type := base.type, key_len := base.key_len, val_len := base.val_len,
                line_size := base.key_len + base.val_len, seed := seed,
                item := cnt1 + cnt2, set_cnt := sc, guide := g2, content := c2,
                extend := [] }
              k sc = some (some (w.take base.val_len)) := by
            rw [Search_eq_probe H _ k sc hsc hsc64
              (guideOK_bytes _ hinv2.gOK) hinv2.len_g]
            exact hprobe
          show HashtableSearch H (some _) sc k = some (some (w.take base.val_len))
          rw [HashtableSearch]
          simp only [hS]
          rw [if_pos (show ¬(base.type = KV_SEPARATED) from hts)]
          rw [List.take_take, Nat.min_self]
        · intro k rowB hfn hfb
          have hffixed : firstRow (fixedPairs base.val_len records) k = none := by
            rw [firstRow_fixedPairs base.val_len records k, hfn]
            rfl
          have hfall : firstRow (fixedPairs base.val_len records
              ++ basePairs base base.key_len 0 (base.set_cnt * 64)) k = some rowB := by
            rw [firstRow_append _ _ k hffixed]
            exact hfb
          have hmemall := firstRow_some_mem _ k _ hfall
          obtain ⟨p, hp, hpk⟩ := List.mem_map.mp hmemall
          obtain ⟨t, ht, hF, hfr⟩ := hinv2.found p hp
          rw [hpk] at hF hfr
          rw [hfall] at hfr
          have hrowval : c2.getD (probeSlot (hset H k seed sc)
              (hsft H k seed) sc t) [] = rowB :=
            (Option.some.inj hfr).symm
          have hprobe := probeFirst_of_foundAt
            { type := base.type, key_len := base.key_len, val_len := base.val_len,
              line_size := base.key_len + base.val_len, seed := seed,
              item := cnt1 + cnt2, set_cnt := sc, guide := g2, content := c2,
              extend := [] }
            k (hmark H k seed) (hset H k seed sc) (hsft H k seed) t
            (hmark_lt H k seed) hinv2.gOK hF (64 * sc) 0 (by omega) (by omega)
          rw [hrowval] at hprobe
          have hS : Search H
              { type := base.type, key_len := base.key_len, val_len := base.val_len,
                line_size := base.key_len + base.val_len, seed := seed,
                item := cnt1 + cnt2, set_cnt := sc, guide := g2, content := c2,
                extend := [] }
              k sc = some (some (rowB.drop base.key_len)) := by
            rw [Search_eq_probe H _ k sc hsc hsc64
              (guideOK_bytes _ hinv2.gOK) hinv2.len_g]
            exact hprobe
          show HashtableSearch H (some _) sc k
            = some (some ((rowB.drop base.key_len).take base.val_len))
          rw [HashtableSearch]
          simp only [hS]
          rw [if_pos (show ¬(base.type = KV_SEPARATED) from hts)]
        · intro k hfn hfb
          have hffixed : firstRow (fixedPairs base.val_len records) k = none := by
            rw [firstRow_fixedPairs base.val_len records k, hfn]
            rfl
          have hfall : firstRow (fixedPairs base.val_len records
              ++ basePairs base base.key_len 0 (base.set_cnt * 64)) k = none := by
            rw [firstRow_append _ _ k hffixed]
            exact hfb
          have hnmem := (firstRow_none_iff _ k).mp hfall
          obtain ⟨eslot, hesl, hesv⟩ := exists_ff_of_count g2 hcl
          have hesl2 : eslot < 64 * sc := by
            rw [← hinv2.len_g]
            exact hesl
          obtain ⟨tE, htE, htEs⟩ := probeSlot_cover (hset H k seed sc)
            (hsft H k seed) sc (by omega) (hsft_lt H k seed) eslot hesl2
          have hmiss := probeFirst_miss
            { type := base.type, key_len := base.key_len, val_len := base.val_len,
              line_size := base.key_len + base.val_len, seed := seed,
              item := cnt1 + cnt2, set_cnt := sc, guide := g2, content := c2,
              extend := [] }
            k (hmark H k seed) (hset H k seed sc) (hsft H k seed)
            (hmark_lt H k seed) hinv2.gOK hsc
            (by
              intro s hsl hocc hcon
              obtain ⟨p, hp, hpp⟩ := hinv2.prefixes s hsl hocc
              apply hnmem
              rw [show k = p.1 from by rw [hcon.2]; exact hpp]
              exact List.mem_map.mpr ⟨p, hp, rfl⟩)
            (64 * sc) 0
            ⟨tE, htE, by
              rw [Nat.zero_add, htEs]
              exact hesv⟩
          have hS : Search H
              { type := base.type, key_len := base.key_len, val_len := base.val_len,
                line_size := base.key_len + base.val_len, seed := seed,
                item := cnt1 + cnt2, set_cnt := sc, guide := g2, content := c2,
                extend := [] }
              k sc = some none := by
            rw [Search_eq_probe H _ k sc hsc hsc64
              (guideOK_bytes _ hinv2.gOK) hinv2.len_g]
            exact hmiss
          show HashtableSearch H (some _) sc k = some none
          rw [HashtableSearch]
          simp only [hS]

set_option maxRecDepth 100000 in
/-- Witness for the amended C3: deriving from an empty one-set `KEY_SET`
base with one fresh record. -/
theorem derive_fixed_search_roundtrip_witness :
    ∃ v, CreateView ⟨SSHT_MAGIC, KEY_SET, 1, 0, 0, 1, 1⟩
        ((0 :: List.replicate 63 0xff) ++ ([9] :: List.replicate 63 [0]).flatten)
        = some v ∧
      (∀ k w, firstRow [([9], [])] k = some w →
        HashtableSearch (fun _ _ => 0) (some v) v.set_cnt k
          = some (some (w.take 0))) ∧
      (∀ k rowB, firstRow [([9], [])] k = none →
        firstRow (basePairs
            { type := KEY_SET, key_len := 1, val_len := 0, line_size := 1,
              seed := 0, item := 0, set_cnt := 1,
              guide := List.replicate 64 0xff,
              content := List.replicate 64 [0], extend := [] } 1 0 64) k
          = some rowB →
        HashtableSearch (fun _ _ => 0) (some v) v.set_cnt k
          = some (some ((rowB.drop 1).take 0))) ∧
      (∀ k, firstRow [([9], [])] k = none →
        firstRow (basePairs
            { type := KEY_SET, key_len := 1, val_len := 0, line_size := 1,
              seed := 0, item := 0, set_cnt := 1,
              guide := List.replicate 64 0xff,
              content := List.replicate 64 [0], extend := [] } 1 0 64) k = none →
        HashtableSearch (fun _ _ => 0) (some v) v.set_cnt k = some none) :=
  derive_fixed_search_roundtrip (fun _ _ => 0) 0
    { type := KEY_SET, key_len := 1, val_len := 0, line_size := 1, seed := 0,
      item := 0, set_cnt := 1, guide := List.replicate 64 0xff,
      content := List.replicate 64 [0], extend := [] }
    [([9], [])] ⟨SSHT_MAGIC, KEY_SET, 1, 0, 0, 1, 1⟩
    ((0 :: List.replicate 63 0xff) ++ ([9] :: List.replicate 63 [0]).flatten)
    (Or.inl rfl) (by decide) (by decide) (by decide) (by decide) (by norm_num)
    (by decide) (by decide) (by decide) (by decide)


/-! ## The batch guide scan, byte at a time -/

lemma leNat_eq_zero (l : List ℕ) (h : leNat l = 0) : ∀ b ∈ l, b = 0 := by
  induction l with
  | nil =>
    intro b hb
    exact absurd hb (List.not_mem_nil b)
  | cons b t ih =>
    rw [leNat] at h
    intro x hx
    rcases List.mem_cons.mp hx with hx | hx
    · omega
    · exact ih (by omega) x hx

lemma bytes_getD (g : List ℕ) (hg : Bytes g) (i : ℕ) (hi : i < g.length) :
    g.getD i 0 < 256 := by
  rw [List.getD_eq_getElem _ _ hi]
  exact hg _ (List.getElem_mem _)

/-- The trailing-zero count of a nonzero hint word locates the first
significant byte of its window. -/
lemma hint_first (mark : ℕ) (hm : mark < 128) :
    ∀ (gb : List ℕ), Bytes gb → gb.length ≤ 8 →
    leNat (gb.map (hintByte mark)) ≠ 0 →
    ∃ kk, kk < gb.length ∧
      (∀ i, i < kk → hintByte mark (gb.getD i 0) = 0) ∧
      hintByte mark (gb.getD kk 0) = 128 ∧
      ctz (leNat (gb.map (hintByte mark))) = 8 * kk + 7 := by
  intro gb
  induction gb with
  | nil =>
    intro _ _ hne
    exact absurd rfl hne
  | cons b t ih =>
    intro hbytes hlen hne
    have hb256 : b < 256 := (bytes_cons b t hbytes).1
    have ht : Bytes t := (bytes_cons b t hbytes).2
    have ht7 : t.length ≤ 7 := by
      simp only [List.length_cons] at hlen
      omega
    have hR56 : leNat (t.map (hintByte mark)) < 2^56 := by
      have hb2 : Bytes (t.map (hintByte mark)) := by
        intro x hx
        simp only [List.mem_map] at hx
        obtain ⟨a, ha, rfl⟩ := hx
        rcases hintByte_cases mark a hm (ht a ha) with h | h <;> omega
      have := leNat_lt (t.map (hintByte mark)) hb2
      rw [List.length_map] at this
      calc leNat (t.map (hintByte mark)) < 256 ^ t.length := this
        _ ≤ 256 ^ 7 := Nat.pow_le_pow_right (by norm_num) ht7
        _ = 2^56 := by norm_num
    have hform : leNat ((b :: t).map (hintByte mark))
        = hintByte mark b + 256 * leNat (t.map (hintByte mark)) := by
      simp [leNat]
    rcases hintByte_cases mark b hm hb256 with hz | ho
    · rw [hform, hz, Nat.zero_add] at hne ⊢
      have hRne : leNat (t.map (hintByte mark)) ≠ 0 := by
        intro hc
        rw [hc] at hne
        exact hne (by norm_num)
      obtain ⟨kk, hkk, hpre, hsig, hctz⟩ := ih ht (by omega) hRne
      refine ⟨kk + 1, by simp; omega, ?_, ?_, ?_⟩
      · intro i hi
        cases i with
        | zero =>
          rw [show (b :: t).getD 0 0 = b from rfl]
          exact hz
        | succ i =>
          rw [show (b :: t).getD (i + 1) 0 = t.getD i 0 from rfl]
          exact hpre i (by omega)
      · rw [show (b :: t).getD (kk + 1) 0 = t.getD kk 0 from rfl]
        exact hsig
      · rw [ctz_mul_256 _ hRne (by omega), hctz]
        ring
    · refine ⟨0, by simp, by omega, ?_, ?_⟩
      · rw [show (b :: t).getD 0 0 = b from rfl]
        exact ho
      · rw [hform, ho, show 128 + 256 * leNat (t.map (hintByte mark))
            = 2^7 * (2 * leNat (t.map (hintByte mark)) + 1) from by ring]
        rw [ctz_pow2_mul_odd 7 _ (by
          have h56 : leNat (t.map (hintByte mark)) < 72057594037927936 := by
            calc leNat (t.map (hintByte mark)) < 2^56 := hR56
              _ = 72057594037927936 := by norm_num
          rw [show (2:ℕ)^64 = 18446744073709551616 from by norm_num]
          omega)]

/-- Byte-at-a-time reference form of the batch guide scan (proof layer). -/
def scanB (g : List ℕ) (setIdx mark sft : ℕ) : ℕ → ℕ → ScanRes
  | 0, _ => .setEnd
  | fuel+1, cur =>
    if sft + 64 ≤ cur then .setEnd
    else if g.getD (setIdx * 64 + cur % 64) 0 = mark then .cand (cur + 1) (cur % 64)
    else if g.getD (setIdx * 64 + cur % 64) 0 &&& 0x80 ≠ 0 then .term
    else scanB g setIdx mark sft fuel (cur + 1)

lemma scanB_end (g : List ℕ) (setIdx mark sft f2 cur : ℕ) (h : sft + 64 ≤ cur) :
    scanB g setIdx mark sft f2 cur = .setEnd := by
  cases f2 with
  | zero => rfl
  | succ f => rw [scanB, if_pos h]

lemma scanB_fuel (g : List ℕ) (setIdx mark sft : ℕ) :
    ∀ f f2 cur, sft + 64 ≤ cur + f → sft + 64 ≤ cur + f2 →
    scanB g setIdx mark sft f cur = scanB g setIdx mark sft f2 cur := by
  intro f
  induction f with
  | zero =>
    intro f2 cur h1 h2
    rw [scanB_end _ _ _ _ _ _ (by omega), scanB_end _ _ _ _ _ _ (by omega)]
  | succ f ih =>
    intro f2 cur h1 h2
    by_cases hend : sft + 64 ≤ cur
    · rw [scanB_end _ _ _ _ _ _ hend, scanB_end _ _ _ _ _ _ hend]
    · cases f2 with
      | zero => omega
      | succ f2 =>
        rw [scanB, scanB, if_neg hend, if_neg hend]
        by_cases hb1 : g.getD (setIdx * 64 + cur % 64) 0 = mark
        · rw [if_pos hb1, if_pos hb1]
        · rw [if_neg hb1, if_neg hb1]
          by_cases hb2 : g.getD (setIdx * 64 + cur % 64) 0 &&& 0x80 ≠ 0
          · rw [if_pos hb2, if_pos hb2]
          · rw [if_neg hb2, if_neg hb2]
            exact ih f2 (cur + 1) (by omega) (by omega)

lemma scanB_skip (g : List ℕ) (setIdx mark sft f2 cur : ℕ)
    (hcur : cur < sft + 64) (hf : sft + 64 ≤ cur + f2)
    (hb1 : g.getD (setIdx * 64 + cur % 64) 0 ≠ mark)
    (hb2 : ¬(g.getD (setIdx * 64 + cur % 64) 0 &&& 0x80 ≠ 0)) :
    scanB g setIdx mark sft f2 cur = scanB g setIdx mark sft f2 (cur + 1) := by
  rw [scanB_fuel g setIdx mark sft f2 (sft + 64 - cur) cur hf (by omega),
    show sft + 64 - cur = (sft + 64 - (cur + 1)) + 1 from by omega,
    scanB, if_neg (by omega), if_neg hb1, if_neg hb2]
  exact scanB_fuel g setIdx mark sft _ f2 (cur + 1) (by omega) (by omega)

lemma scanB_skips (g : List ℕ) (setIdx mark sft f2 : ℕ) :
    ∀ m cur, sft + 64 ≤ cur + f2 →
    (∀ i, i < m → cur + i < sft + 64 ∧
      g.getD (setIdx * 64 + (cur + i) % 64) 0 ≠ mark ∧
      ¬(g.getD (setIdx * 64 + (cur + i) % 64) 0 &&& 0x80 ≠ 0)) →
    scanB g setIdx mark sft f2 cur = scanB g setIdx mark sft f2 (cur + m) := by
  intro m
  induction m with
  | zero =>
    intro cur _ _
    rw [Nat.add_zero]
  | succ m ih =>
    intro cur hf hins
    have h0 := hins 0 (by omega)
    rw [Nat.add_zero] at h0
    rw [scanB_skip g setIdx mark sft f2 cur h0.1 hf h0.2.1 h0.2.2]
    rw [ih (cur + 1) (by omega) (fun i hi => by
      have := hins (i + 1) (by omega)
      rw [show cur + (i + 1) = cur + 1 + i from by omega] at this
      exact this)]
    rw [show cur + 1 + m = cur + (m + 1) from by omega]

/-- The batch pipeline's guide scan — hint jumps included — agrees with the
plain byte walk. -/
lemma bpScanGo_eq_scanB (g : List ℕ) (setIdx mark sft : ℕ) (hm : mark < 128)
    (hg : Bytes g) (hlen : setIdx * 64 + 64 ≤ g.length) :
    ∀ fuel fuel2 cur, sft ≤ cur → sft + 64 ≤ cur + fuel → sft + 64 ≤ cur + fuel2 →
    bpScanGo g setIdx mark sft fuel cur = scanB g setIdx mark sft fuel2 cur := by
  intro fuel
  induction fuel with
  | zero =>
    intro fuel2 cur h0 h1 h2
    rw [scanB_end _ _ _ _ _ _ (by omega)]
    rfl
  | succ fuel ih =>
    intro fuel2 cur h0 h1 h2
    by_cases hend : sft + 64 ≤ cur
    · rw [scanB_end _ _ _ _ _ _ hend, bpScanGo, if_pos hend]
    · push_neg at hend
      rw [bpScanGo, if_neg (by omega)]
      by_cases hmode : cur ≤ sft + 56 ∧ cur % 64 ≤ 56
      · rw [if_pos hmode]
        have hm64 : cur % 64 ≤ 56 := hmode.2
        have hwl : ((g.drop (setIdx * 64 + cur % 64)).take 8).length = 8 := by
          rw [List.length_take, List.length_drop]
          omega
        have hwb : Bytes ((g.drop (setIdx * 64 + cur % 64)).take 8) :=
          bytes_slice g hg _ 8
        have hch : CalcHint (load64 g (setIdx * 64 + cur % 64)) mark
            = leNat (((g.drop (setIdx * 64 + cur % 64)).take 8).map (hintByte mark)) :=
          calcHint_bytes _ hwl hwb mark hm
        have hwread : ∀ i, i < 8 →
            g.getD (setIdx * 64 + (cur + i) % 64) 0
              = ((g.drop (setIdx * 64 + cur % 64)).take 8).getD i 0 := by
          intro i hi
          rw [getD_slice g (setIdx * 64 + cur % 64) i 8 hi,
            show (cur + i) % 64 = cur % 64 + i from by omega,
            show setIdx * 64 + cur % 64 + i = setIdx * 64 + (cur % 64 + i) from by omega]
        by_cases hz : CalcHint (load64 g (setIdx * 64 + cur % 64)) mark = 0
        · rw [if_pos hz]
          rw [hch] at hz
          have hins : ∀ i, i < 8 → cur + i < sft + 64 ∧
              g.getD (setIdx * 64 + (cur + i) % 64) 0 ≠ mark ∧
              ¬(g.getD (setIdx * 64 + (cur + i) % 64) 0 &&& 0x80 ≠ 0) := by
            intro i hi
            have hbz : hintByte mark (((g.drop (setIdx * 64 + cur % 64)).take 8).getD i 0)
                = 0 := by
              have hmem : hintByte mark (((g.drop (setIdx * 64 + cur % 64)).take 8).getD i 0)
                  ∈ ((g.drop (setIdx * 64 + cur % 64)).take 8).map (hintByte mark) := by
                apply List.mem_map.mpr
                refine ⟨_, ?_, rfl⟩
                rw [List.getD_eq_getElem _ _ (by omega)]
                exact List.getElem_mem _
              exact leNat_eq_zero _ hz _ hmem
            have hblt : ((g.drop (setIdx * 64 + cur % 64)).take 8).getD i 0 < 256 := by
              rw [← hwread i hi]
              exact bytes_getD g hg _ (by omega)
            have hnospec := hintByte_spec mark _ hm hblt
            rw [hbz] at hnospec
            have hnot : ¬(((g.drop (setIdx * 64 + cur % 64)).take 8).getD i 0 = mark ∨
                128 ≤ ((g.drop (setIdx * 64 + cur % 64)).take 8).getD i 0) := by
              intro hcon
              exact (by simpa using hnospec.mpr hcon : False)
            push_neg at hnot
            refine ⟨by omega, ?_, ?_⟩
            · rw [hwread i hi]
              exact hnot.1
            · rw [hwread i hi, byte_high_iff _ hblt]
              omega
          rw [scanB_skips g setIdx mark sft fuel2 8 cur h2 hins]
          exact ih fuel2 (cur + 8) (by omega) (by omega) (by omega)
        · rw [if_neg hz]
          rw [hch] at hz
          obtain ⟨kk, hkk, hpre, hsig, hctz⟩ :=
            hint_first mark hm _ hwb (by omega) hz
          rw [hwl] at hkk
          have hstep : (ctz (CalcHint (load64 g (setIdx * 64 + cur % 64)) mark) + 1) >>> 3
              = kk + 1 := by
            rw [hch, hctz, Nat.shiftRight_eq_div_pow]
            omega
          have hins : ∀ i, i < kk → cur + i < sft + 64 ∧
              g.getD (setIdx * 64 + (cur + i) % 64) 0 ≠ mark ∧
              ¬(g.getD (setIdx * 64 + (cur + i) % 64) 0 &&& 0x80 ≠ 0) := by
            intro i hi
            have hbz := hpre i hi
            have hblt : ((g.drop (setIdx * 64 + cur % 64)).take 8).getD i 0 < 256 := by
              rw [← hwread i (by omega)]
              exact bytes_getD g hg _ (by omega)
            have hnospec := hintByte_spec mark _ hm hblt
            rw [hbz] at hnospec
            have hnot : ¬(((g.drop (setIdx * 64 + cur % 64)).take 8).getD i 0 = mark ∨
                128 ≤ ((g.drop (setIdx * 64 + cur % 64)).take 8).getD i 0) := by
              intro hcon
              exact (by simpa using hnospec.mpr hcon : False)
            push_neg at hnot
            refine ⟨by omega, ?_, ?_⟩
            · rw [hwread i (by omega)]
              exact hnot.1
            · rw [hwread i (by omega), byte_high_iff _ hblt]
              omega
          have hbyteq : g.getD (setIdx * 64 + (cur % 64 + kk)) 0
              = ((g.drop (setIdx * 64 + cur % 64)).take 8).getD kk 0 := by
            rw [show setIdx * 64 + (cur % 64 + kk) = setIdx * 64 + cur % 64 + kk from by
              omega]
            exact (getD_slice g (setIdx * 64 + cur % 64) kk 8 hkk).symm
          have hblt256 : g.getD (setIdx * 64 + (cur % 64 + kk)) 0 < 256 :=
            bytes_getD g hg _ (by omega)
          have hsbb : g.getD (setIdx * 64 + (cur % 64 + kk)) 0 = mark ∨
              128 ≤ g.getD (setIdx * 64 + (cur % 64 + kk)) 0 := by
            rw [hbyteq]
            have hspec := hintByte_spec mark
              (((g.drop (setIdx * 64 + cur % 64)).take 8).getD kk 0) hm
              (by rw [← hbyteq]; exact hblt256)
            rw [hsig] at hspec
            exact hspec.mp (by norm_num)
          have hmod : (cur + kk) % 64 = cur % 64 + kk := by omega
          rw [hstep, Nat.add_sub_cancel,
            scanB_skips g setIdx mark sft fuel2 kk cur h2 hins,
            scanB_fuel g setIdx mark sft fuel2 (sft + 64 - (cur + kk)) (cur + kk)
              (by omega) (by omega),
            show sft + 64 - (cur + kk) = (sft + 64 - (cur + kk + 1)) + 1 from by omega,
            scanB, if_neg (show ¬(sft + 64 ≤ cur + kk) from by omega), hmod]
          rcases hsbb with hmk | hhi
          · rw [if_pos hmk, if_pos hmk,
              show cur + (kk + 1) = cur + kk + 1 from by omega]
          · have hbne : g.getD (setIdx * 64 + (cur % 64 + kk)) 0 ≠ mark := by omega
            have hhb : g.getD (setIdx * 64 + (cur % 64 + kk)) 0 &&& 0x80 ≠ 0 := by
              rw [byte_high_iff _ hblt256]
              exact hhi
            rw [if_neg hbne, if_neg hbne, if_pos hhb, if_pos hhb]
      · rw [if_neg hmode]
        cases fuel2 with
        | zero => omega
        | succ fuel2 =>
          rw [scanB, if_neg (show ¬(sft + 64 ≤ cur) from by omega)]
          by_cases hb1 : g.getD (setIdx * 64 + cur % 64) 0 = mark
          · rw [if_pos hb1, if_pos hb1]
          · rw [if_neg hb1, if_neg hb1]
            by_cases hb2 : g.getD (setIdx * 64 + cur % 64) 0 &&& 0x80 ≠ 0
            · rw [if_pos hb2, if_pos hb2]
            · rw [if_neg hb2, if_neg hb2]
              exact ih fuel2 (cur + 1) (by omega) (by omega) (by omega)


lemma bpScanGo_end64 (g : List ℕ) (setIdx mark sft cur : ℕ) (h : sft + 64 ≤ cur) :
    bpScanGo g setIdx mark sft 64 cur = .setEnd := by
  show bpScanGo g setIdx mark sft (63 + 1) cur = .setEnd
  rw [bpScanGo, if_pos h]

lemma bpScanGo_mark (g : List ℕ) (setIdx mark sft cur : ℕ) (hm : mark < 128)
    (hg : Bytes g) (hlen : setIdx * 64 + 64 ≤ g.length)
    (h1 : sft ≤ cur) (h2 : cur < sft + 64)
    (hb : g.getD (setIdx * 64 + cur % 64) 0 = mark) :
    bpScanGo g setIdx mark sft 64 cur = .cand (cur + 1) (cur % 64) := by
  rw [bpScanGo_eq_scanB g setIdx mark sft hm hg hlen 64 (sft + 64 - cur) cur h1
      (by omega) (by omega),
    show sft + 64 - cur = (sft + 64 - (cur + 1)) + 1 from by omega,
    scanB, if_neg (show ¬(sft + 64 ≤ cur) from by omega), if_pos hb]

lemma bpScanGo_term (g : List ℕ) (setIdx mark sft cur : ℕ) (hm : mark < 128)
    (hg : Bytes g) (hlen : setIdx * 64 + 64 ≤ g.length)
    (h1 : sft ≤ cur) (h2 : cur < sft + 64)
    (hb : 128 ≤ g.getD (setIdx * 64 + cur % 64) 0) :
    bpScanGo g setIdx mark sft 64 cur = .term := by
  rw [bpScanGo_eq_scanB g setIdx mark sft hm hg hlen 64 (sft + 64 - cur) cur h1
      (by omega) (by omega),
    show sft + 64 - cur = (sft + 64 - (cur + 1)) + 1 from by omega,
    scanB, if_neg (show ¬(sft + 64 ≤ cur) from by omega),
    if_neg (show ¬(g.getD (setIdx * 64 + cur % 64) 0 = mark) from by omega),
    if_pos (show g.getD (setIdx * 64 + cur % 64) 0 &&& 0x80 ≠ 0 from
      (byte_high_iff _ (bytes_getD g hg _ (by omega))).mpr hb)]

lemma bpScanGo_skip64 (g : List ℕ) (setIdx mark sft cur : ℕ) (hm : mark < 128)
    (hg : Bytes g) (hlen : setIdx * 64 + 64 ≤ g.length)
    (h1 : sft ≤ cur) (h2 : cur < sft + 64)
    (hb1 : g.getD (setIdx * 64 + cur % 64) 0 ≠ mark)
    (hb2 : g.getD (setIdx * 64 + cur % 64) 0 < 128) :
    bpScanGo g setIdx mark sft 64 cur = bpScanGo g setIdx mark sft 64 (cur + 1) := by
  rw [bpScanGo_eq_scanB g setIdx mark sft hm hg hlen 64 64 cur h1
      (by omega) (by omega),
    bpScanGo_eq_scanB g setIdx mark sft hm hg hlen 64 64 (cur + 1)
      (by omega) (by omega) (by omega)]
  exact scanB_skip g setIdx mark sft 64 cur h2 (by omega) hb1
    (by rw [byte_high_iff _ (bytes_getD g hg _ (by omega))]; omega)

/-! ## The batch pipeline versus the abstract probe chain -/

lemma bpSteps_congr (H : List ℕ → ℕ → ℕ) (base patch : View) (keys : ℕ → List ℕ)
    (st st2 : BPState)
    (h : bpRound H base patch keys st = bpRound H base patch keys st2) :
    ∀ m, bpSteps H base patch keys st m = bpSteps H base patch keys st2 m := by
  intro m
  cases m with
  | zero => rfl
  | succ m => rw [bpSteps, bpSteps, h]

lemma bpSteps_next (H : List ℕ → ℕ → ℕ) (base patch : View) (keys : ℕ → List ℕ)
    (st st2 : BPState) (h : bpRound H base patch keys st = .next st2) :
    ∀ m, bpSteps H base patch keys st (m + 1) = bpSteps H base patch keys st2 m := by
  intro m
  rw [bpSteps]
  simp only [h]

lemma bpSteps_reload (H : List ℕ → ℕ → ℕ) (base patch : View) (keys : ℕ → List ℕ)
    (st : BPState) (r : Option (List ℕ))
    (h : bpRound H base patch keys st = .reload r) :
    ∀ m, bpSteps H base patch keys st (m + 1) = some r := by
  intro m
  rw [bpSteps]
  simp only [h]

/-- The pipeline state of a query standing at probe-chain position `t`
(proof layer). -/
def mkSt (H : List ℕ → ℕ → ℕ) (pack : View) (key : List ℕ) (idx : ℕ) (op : Bool)
    (t : ℕ) : BPState :=
  { idx := idx
    sft := hsft H key pack.seed
    cur := hsft H key pack.seed + t % 64
    mark := hmark H key pack.seed
    set := (hset H key pack.seed pack.set_cnt + t / 64) % pack.set_cnt
    line := none
    onPatch := op }

lemma bindPipeline_eq_mkSt (H : List ℕ → ℕ → ℕ) (pack : View) (key : List ℕ)
    (idx : ℕ) (op : Bool) (hsc : 1 ≤ pack.set_cnt) (hsc64 : pack.set_cnt < 2^64) :
    bindPipeline H pack op key idx = mkSt H pack key idx op 0 := by
  unfold bindPipeline mkSt HashKey
  rw [BPState.mk.injEq]
  refine ⟨rfl, rfl, rfl, rfl, ?_, rfl, rfl⟩
  show (mkDivisor pack.set_cnt).mod (H key pack.seed % 2^64)
    = (hset H key pack.seed pack.set_cnt + 0 / 64) % pack.set_cnt
  rw [mkDivisor_mod_eq pack.set_cnt hsc hsc64 _ (Nat.mod_lt _ (pow_pos (by norm_num) _)),
    show (0:ℕ) / 64 = 0 from rfl, Nat.add_zero, hset]
  exact (Nat.mod_eq_of_lt (Nat.mod_lt _ (by omega))).symm

lemma probeFirst_stop (v : View) (key : List ℕ) (mark set0 sft : ℕ) :
    ∀ fuel j, (∃ i, i < fuel ∧
      handleSlot v key mark (probeSlot set0 sft v.set_cnt (j + i)) ≠ none) →
    probeFirst v key mark set0 sft j fuel ≠ none := by
  intro fuel
  induction fuel with
  | zero =>
    intro j h
    obtain ⟨i, hi, _⟩ := h
    omega
  | succ f ih =>
    intro j h
    obtain ⟨i, hi, hne⟩ := h
    rw [probeFirst]
    cases hh : handleSlot v key mark (probeSlot set0 sft v.set_cnt j) with
    | some r => simp
    | none =>
      simp only
      apply ih (j + 1)
      cases i with
      | zero =>
        rw [Nat.add_zero] at hne
        exact absurd hh hne
      | succ i =>
        refine ⟨i, by omega, ?_⟩
        rw [show j + 1 + i = j + (i + 1) from by omega]
        exact hne

lemma probeFirst_resolves (v : View) (key : List ℕ) (mark set0 sft : ℕ)
    (hm : mark < 128) (hsc : 0 < v.set_cnt) (hsft : sft < 64)
    (hempty : ∃ s, s < 64 * v.set_cnt ∧ v.guide.getD s 0 = 0xff) :
    ∃ r, probeFirst v key mark set0 sft 0 (64 * v.set_cnt) = some r := by
  obtain ⟨s, hs, hval⟩ := hempty
  obtain ⟨t, ht, hts⟩ := probeSlot_cover set0 sft v.set_cnt hsc hsft s hs
  have hne : handleSlot v key mark (probeSlot set0 sft v.set_cnt (0 + t)) ≠ none := by
    rw [Nat.zero_add, hts]
    unfold handleSlot
    rw [if_neg (show ¬(v.guide.getD s 0 = mark) from by omega),
      if_pos (show v.guide.getD s 0 &&& 0x80 ≠ 0 from by rw [hval]; decide)]
    simp
  have hstop := probeFirst_stop v key mark set0 sft (64 * v.set_cnt) 0 ⟨t, ht, hne⟩
  cases hres : probeFirst v key mark set0 sft 0 (64 * v.set_cnt) with
  | none => exact absurd hres hstop
  | some r => exact ⟨r, rfl⟩

/-- From probe position `t`, the pipeline resolves like the probe chain:
a stored-row hit reloads with the value; a terminator on the base reloads
with a miss; a terminator on the patch rebinds the query to the base. -/
lemma bpSteps_of_probe (H : List ℕ → ℕ → ℕ) (base patch pack : View)
    (keys : ℕ → List ℕ) (idx : ℕ) (op : Bool)
    (hpk : (if op then patch else base) = pack)
    (hkl : pack.key_len = base.key_len)
    (hg : Bytes pack.guide) (hglen : pack.guide.length = 64 * pack.set_cnt)
    (hsc : 1 ≤ pack.set_cnt) :
    ∀ fuel t r,
    probeFirst pack (keys idx) (hmark H (keys idx) pack.seed)
      (hset H (keys idx) pack.seed pack.set_cnt) (hsft H (keys idx) pack.seed) t fuel
      = some r →
    (∀ val, r = some val →
      ∃ n, bpSteps H base patch keys (mkSt H pack (keys idx) idx op t) n
        = some (some val)) ∧
    (r = none → op = false →
      ∃ n, bpSteps H base patch keys (mkSt H pack (keys idx) idx op t) n
        = some none) ∧
    (r = none → op = true →
      ∃ n, ∀ m, bpSteps H base patch keys (mkSt H pack (keys idx) idx op t) (n + m)
        = bpSteps H base patch keys (bindPipeline H base false (keys idx) idx) m) := by
  intro fuel
  induction fuel with
  | zero =>
    intro t r hpf
    rw [probeFirst] at hpf
    exact Option.noConfusion hpf
  | succ f ih =>
    intro t r hpf
    have hm : hmark H (keys idx) pack.seed < 128 := hmark_lt H (keys idx) pack.seed
    have hsf : hsft H (keys idx) pack.seed < 64 := hsft_lt H (keys idx) pack.seed
    have hsetlt : (hset H (keys idx) pack.seed pack.set_cnt + t / 64) % pack.set_cnt
        < pack.set_cnt := Nat.mod_lt _ (by omega)
    have hlen2 : ((hset H (keys idx) pack.seed pack.set_cnt + t / 64) % pack.set_cnt)
        * 64 + 64 ≤ pack.guide.length := by
      rw [hglen]
      omega
    have hslot : probeSlot (hset H (keys idx) pack.seed pack.set_cnt)
        (hsft H (keys idx) pack.seed) pack.set_cnt t
        = ((hset H (keys idx) pack.seed pack.set_cnt + t / 64) % pack.set_cnt) * 64
          + (hsft H (keys idx) pack.seed + t % 64) % 64 := rfl
    rw [probeFirst, hslot] at hpf
    have hposlt : ((hset H (keys idx) pack.seed pack.set_cnt + t / 64) % pack.set_cnt)
        * 64 + (hsft H (keys idx) pack.seed + t % 64) % 64 < pack.guide.length := by
      have hh64 : (hsft H (keys idx) pack.seed + t % 64) % 64 < 64 :=
        Nat.mod_lt _ (by norm_num)
      omega
    cases hh : handleSlot pack (keys idx) (hmark H (keys idx) pack.seed)
        (((hset H (keys idx) pack.seed pack.set_cnt + t / 64) % pack.set_cnt) * 64
          + (hsft H (keys idx) pack.seed + t % 64) % 64) with
    | some r0 =>
      rw [hh] at hpf
      simp only at hpf
      have hr := Option.some.inj hpf
      subst hr
      unfold handleSlot at hh
      by_cases hbm : pack.guide.getD
          (((hset H (keys idx) pack.seed pack.set_cnt + t / 64) % pack.set_cnt) * 64
            + (hsft H (keys idx) pack.seed + t % 64) % 64) 0
          = hmark H (keys idx) pack.seed
      · rw [if_pos hbm] at hh
        by_cases hkey : keys idx = (pack.content.getD
            (((hset H (keys idx) pack.seed pack.set_cnt + t / 64) % pack.set_cnt) * 64
              + (hsft H (keys idx) pack.seed + t % 64) % 64) []).take pack.key_len
        · rw [if_pos hkey] at hh
          have hr0 := Option.some.inj hh
          have hscan := bpScanGo_mark pack.guide
            ((hset H (keys idx) pack.seed pack.set_cnt + t / 64) % pack.set_cnt)
            (hmark H (keys idx) pack.seed) (hsft H (keys idx) pack.seed)
            (hsft H (keys idx) pack.seed + t % 64) hm hg hlen2 (by omega) (by omega) hbm
          have hround1 : bpRound H base patch keys (mkSt H pack (keys idx) idx op t)
              = .next { idx := idx
                        sft := hsft H (keys idx) pack.seed
                        cur := hsft H (keys idx) pack.seed + t % 64 + 1
                        mark := hmark H (keys idx) pack.seed
                        set := (hset H (keys idx) pack.seed pack.set_cnt + t / 64)
                          % pack.set_cnt
                        line := some (((hset H (keys idx) pack.seed pack.set_cnt + t / 64)
                          % pack.set_cnt) * 64
                          + (hsft H (keys idx) pack.seed + t % 64) % 64)
                        onPatch := op } := by
            simp only [bpRound, mkSt, hpk, hscan]
          have hround2 : bpRound H base patch keys
              { idx := idx
                sft := hsft H (keys idx) pack.seed
                cur := hsft H (keys idx) pack.seed + t % 64 + 1
                mark := hmark H (keys idx) pack.seed
                set := (hset H (keys idx) pack.seed pack.set_cnt + t / 64) % pack.set_cnt
                line := some (((hset H (keys idx) pack.seed pack.set_cnt + t / 64)
                  % pack.set_cnt) * 64
                  + (hsft H (keys idx) pack.seed + t % 64) % 64)
                onPatch := op }
              = .reload (some ((pack.content.getD
                  (((hset H (keys idx) pack.seed pack.set_cnt + t / 64) % pack.set_cnt)
                    * 64 + (hsft H (keys idx) pack.seed + t % 64) % 64) []).drop
                  pack.key_len)) := by
            simp only [bpRound, hpk]
            rw [if_pos (show keys idx = (pack.content.getD
                (((hset H (keys idx) pack.seed pack.set_cnt + t / 64) % pack.set_cnt)
                  * 64 + (hsft H (keys idx) pack.seed + t % 64) % 64) []).take
                base.key_len from by rw [← hkl]; exact hkey), hkl]
          refine ⟨?_, ?_, ?_⟩
          · intro val hval
            rw [← hr0] at hval
            have hv := Option.some.inj hval
            refine ⟨2, ?_⟩
            rw [show (2:ℕ) = 1 + 1 from rfl,
              bpSteps_next H base patch keys _ _ hround1 1,
              bpSteps_reload H base patch keys _ _ hround2 0, ← hv]
          · intro hcon _
            rw [← hr0] at hcon
            exact Option.noConfusion hcon
          · intro hcon _
            rw [← hr0] at hcon
            exact Option.noConfusion hcon
        · rw [if_neg hkey] at hh
          exact Option.noConfusion hh
      · rw [if_neg hbm] at hh
        by_cases hbh : pack.guide.getD
            (((hset H (keys idx) pack.seed pack.set_cnt + t / 64) % pack.set_cnt) * 64
              + (hsft H (keys idx) pack.seed + t % 64) % 64) 0 &&& 0x80 ≠ 0
        · rw [if_pos hbh] at hh
          have hr0 := Option.some.inj hh
          have hhigh : 128 ≤ pack.guide.getD
              (((hset H (keys idx) pack.seed pack.set_cnt + t / 64) % pack.set_cnt) * 64
                + (hsft H (keys idx) pack.seed + t % 64) % 64) 0 :=
            (byte_high_iff _ (bytes_getD pack.guide hg _ hposlt)).mp hbh
          have hscan := bpScanGo_term pack.guide
            ((hset H (keys idx) pack.seed pack.set_cnt + t / 64) % pack.set_cnt)
            (hmark H (keys idx) pack.seed) (hsft H (keys idx) pack.seed)
            (hsft H (keys idx) pack.seed + t % 64) hm hg hlen2 (by omega) (by omega)
            hhigh
          refine ⟨?_, ?_, ?_⟩
          · intro val hval
            rw [← hr0] at hval
            exact Option.noConfusion hval
          · intro _ hop
            subst hop
            have hround1 : bpRound H base patch keys (mkSt H pack (keys idx) idx false t)
                = .reload none := by
              simp only [bpRound, mkSt, hpk, hscan]
              rfl
            refine ⟨1, ?_⟩
            rw [show (1:ℕ) = 0 + 1 from rfl,
              bpSteps_reload H base patch keys _ _ hround1 0]
          · intro _ hop
            subst hop
            have hpp : patch = pack := by
              rw [← hpk]
              simp
            have hround1 : bpRound H base patch keys (mkSt H pack (keys idx) idx true t)
                = .next (bindPipeline H base false (keys idx) idx) := by
              simp only [bpRound, mkSt, eq_self_iff_true, if_true, hpp, hscan]
            refine ⟨1, fun m => ?_⟩
            rw [show 1 + m = m + 1 from by omega,
              bpSteps_next H base patch keys _ _ hround1 m]
        · rw [if_neg hbh] at hh
          exact Option.noConfusion hh
    | none =>
      rw [hh] at hpf
      simp only at hpf
      obtain ⟨ih1, ih2, ih3⟩ := ih (t + 1) r hpf
      have hreach : ∃ d, ∀ m,
          bpSteps H base patch keys (mkSt H pack (keys idx) idx op t) (d + m)
            = bpSteps H base patch keys (mkSt H pack (keys idx) idx op (t + 1)) m := by
        unfold handleSlot at hh
        by_cases hbm : pack.guide.getD
            (((hset H (keys idx) pack.seed pack.set_cnt + t / 64) % pack.set_cnt) * 64
              + (hsft H (keys idx) pack.seed + t % 64) % 64) 0
            = hmark H (keys idx) pack.seed
        · rw [if_pos hbm] at hh
          by_cases hkey : keys idx = (pack.content.getD
              (((hset H (keys idx) pack.seed pack.set_cnt + t / 64) % pack.set_cnt) * 64
                + (hsft H (keys idx) pack.seed + t % 64) % 64) []).take pack.key_len
          · rw [if_pos hkey] at hh
            exact Option.noConfusion hh
          · have hscan := bpScanGo_mark pack.guide
              ((hset H (keys idx) pack.seed pack.set_cnt + t / 64) % pack.set_cnt)
              (hmark H (keys idx) pack.seed) (hsft H (keys idx) pack.seed)
              (hsft H (keys idx) pack.seed + t % 64) hm hg hlen2 (by omega) (by omega)
              hbm
            have hround1 : bpRound H base patch keys (mkSt H pack (keys idx) idx op t)
                = .next { idx := idx
                          sft := hsft H (keys idx) pack.seed
                          cur := hsft H (keys idx) pack.seed + t % 64 + 1
                          mark := hmark H (keys idx) pack.seed
                          set := (hset H (keys idx) pack.seed pack.set_cnt + t / 64)
                            % pack.set_cnt
                          line := some (((hset H (keys idx) pack.seed pack.set_cnt
                            + t / 64) % pack.set_cnt) * 64
                            + (hsft H (keys idx) pack.seed + t % 64) % 64)
                          onPatch := op } := by
              simp only [bpRound, mkSt, hpk, hscan]
            have hround2 : bpRound H base patch keys
                { idx := idx
                  sft := hsft H (keys idx) pack.seed
                  cur := hsft H (keys idx) pack.seed + t % 64 + 1
                  mark := hmark H (keys idx) pack.seed
                  set := (hset H (keys idx) pack.seed pack.set_cnt + t / 64)
                    % pack.set_cnt
                  line := some (((hset H (keys idx) pack.seed pack.set_cnt + t / 64)
                    % pack.set_cnt) * 64
                    + (hsft H (keys idx) pack.seed + t % 64) % 64)
                  onPatch := op }
                = .next { idx := idx
                          sft := hsft H (keys idx) pack.seed
                          cur := hsft H (keys idx) pack.seed + t % 64 + 1
                          mark := hmark H (keys idx) pack.seed
                          set := (hset H (keys idx) pack.seed pack.set_cnt + t / 64)
                            % pack.set_cnt
                          line := none
                          onPatch := op } := by
              simp only [bpRound, hpk]
              rw [if_neg (show ¬(keys idx = (pack.content.getD
                  (((hset H (keys idx) pack.seed pack.set_cnt + t / 64) % pack.set_cnt)
                    * 64 + (hsft H (keys idx) pack.seed + t % 64) % 64) []).take
                  base.key_len) from by rw [← hkl]; exact hkey)]
            by_cases hwrap : t % 64 = 63
            · have hscan3 : bpScanGo pack.guide
                  ((hset H (keys idx) pack.seed pack.set_cnt + t / 64) % pack.set_cnt)
                  (hmark H (keys idx) pack.seed) (hsft H (keys idx) pack.seed) 64
                  (hsft H (keys idx) pack.seed + t % 64 + 1) = .setEnd :=
                bpScanGo_end64 _ _ _ _ _ (by omega)
              have hround3 : bpRound H base patch keys
                  { idx := idx
                    sft := hsft H (keys idx) pack.seed
                    cur := hsft H (keys idx) pack.seed + t % 64 + 1
                    mark := hmark H (keys idx) pack.seed
                    set := (hset H (keys idx) pack.seed pack.set_cnt + t / 64)
                      % pack.set_cnt
                    line := none
                    onPatch := op }
                  = .next (mkSt H pack (keys idx) idx op (t + 1)) := by
                simp only [bpRound, hpk, hscan3]
                rw [BPAct.next.injEq, mkSt, BPState.mk.injEq]
                refine ⟨rfl, rfl, by omega, rfl, ?_, rfl, rfl⟩
                rw [next_set_eq pack.set_cnt
                  (hset H (keys idx) pack.seed pack.set_cnt + t / 64) (by omega),
                  show (t + 1) / 64 = t / 64 + 1 from by omega]
                rw [show hset H (keys idx) pack.seed pack.set_cnt + t / 64 + 1
                  = hset H (keys idx) pack.seed pack.set_cnt + (t / 64 + 1) from by omega]
              refine ⟨3, fun m => ?_⟩
              rw [show 3 + m = ((m + 1) + 1) + 1 from by omega,
                bpSteps_next H base patch keys _ _ hround1 ((m + 1) + 1),
                bpSteps_next H base patch keys _ _ hround2 (m + 1),
                bpSteps_next H base patch keys _ _ hround3 m]
            · have hD : mkSt H pack (keys idx) idx op (t + 1)
                  = { idx := idx
                      sft := hsft H (keys idx) pack.seed
                      cur := hsft H (keys idx) pack.seed + t % 64 + 1
                      mark := hmark H (keys idx) pack.seed
                      set := (hset H (keys idx) pack.seed pack.set_cnt + t / 64)
                        % pack.set_cnt
                      line := none
                      onPatch := op } := by
                rw [mkSt, BPState.mk.injEq]
                refine ⟨rfl, rfl, by omega, rfl, ?_, rfl, rfl⟩
                rw [show (t + 1) / 64 = t / 64 from by omega]
              refine ⟨2, fun m => ?_⟩
              rw [show 2 + m = (m + 1) + 1 from by omega,
                bpSteps_next H base patch keys _ _ hround1 (m + 1),
                bpSteps_next H base patch keys _ _ hround2 m, hD]
        · rw [if_neg hbm] at hh
          by_cases hbh : pack.guide.getD
              (((hset H (keys idx) pack.seed pack.set_cnt + t / 64) % pack.set_cnt) * 64
                + (hsft H (keys idx) pack.seed + t % 64) % 64) 0 &&& 0x80 ≠ 0
          · rw [if_pos hbh] at hh
            exact Option.noConfusion hh
          · have hlow : pack.guide.getD
                (((hset H (keys idx) pack.seed pack.set_cnt + t / 64) % pack.set_cnt)
                  * 64 + (hsft H (keys idx) pack.seed + t % 64) % 64) 0 < 128 := by
              have := (byte_high_iff _ (bytes_getD pack.guide hg _ hposlt))
              omega
            have hsk := bpScanGo_skip64 pack.guide
              ((hset H (keys idx) pack.seed pack.set_cnt + t / 64) % pack.set_cnt)
              (hmark H (keys idx) pack.seed) (hsft H (keys idx) pack.seed)
              (hsft H (keys idx) pack.seed + t % 64) hm hg hlen2 (by omega) (by omega)
              hbm hlow
            by_cases hwrap : t % 64 = 63
            · have hscan1 : bpScanGo pack.guide
                  ((hset H (keys idx) pack.seed pack.set_cnt + t / 64) % pack.set_cnt)
                  (hmark H (keys idx) pack.seed) (hsft H (keys idx) pack.seed) 64
                  (hsft H (keys idx) pack.seed + t % 64) = .setEnd := by
                rw [hsk]
                exact bpScanGo_end64 _ _ _ _ _ (by omega)
              have hround1 : bpRound H base patch keys
                  (mkSt H pack (keys idx) idx op t)
                  = .next (mkSt H pack (keys idx) idx op (t + 1)) := by
                simp only [bpRound, mkSt, hpk, hscan1]
                rw [BPAct.next.injEq, BPState.mk.injEq]
                refine ⟨rfl, rfl, by omega, rfl, ?_, rfl, rfl⟩
                rw [next_set_eq pack.set_cnt
                  (hset H (keys idx) pack.seed pack.set_cnt + t / 64) (by omega),
                  show (t + 1) / 64 = t / 64 + 1 from by omega]
                rw [show hset H (keys idx) pack.seed pack.set_cnt + t / 64 + 1
                  = hset H (keys idx) pack.seed pack.set_cnt + (t / 64 + 1) from by omega]
              refine ⟨1, fun m => ?_⟩
              rw [show 1 + m = m + 1 from by omega,
                bpSteps_next H base patch keys _ _ hround1 m]
            · have hcurT : hsft H (keys idx) pack.seed + (t + 1) % 64
                  = hsft H (keys idx) pack.seed + t % 64 + 1 := by omega
              have hsetT : (hset H (keys idx) pack.seed pack.set_cnt + (t + 1) / 64)
                  % pack.set_cnt
                  = (hset H (keys idx) pack.seed pack.set_cnt + t / 64)
                    % pack.set_cnt := by
                rw [show (t + 1) / 64 = t / 64 from by omega]
              have hrr : bpRound H base patch keys (mkSt H pack (keys idx) idx op t)
                  = bpRound H base patch keys (mkSt H pack (keys idx) idx op (t + 1)) := by
                simp only [bpRound, mkSt, hpk]
                rw [hcurT, hsetT, hsk]
              exact ⟨0, fun m => by
                rw [Nat.zero_add]
                exact bpSteps_congr H base patch keys _ _ hrr m⟩
      obtain ⟨d, hd⟩ := hreach
      refine ⟨?_, ?_, ?_⟩
      · intro val hval
        obtain ⟨n, hn⟩ := ih1 val hval
        refine ⟨d + n, ?_⟩
        rw [hd n]
        exact hn
      · intro h0 hop
        obtain ⟨n, hn⟩ := ih2 h0 hop
        refine ⟨d + n, ?_⟩
        rw [hd n]
        exact hn
      · intro h0 hop
        obtain ⟨n, hn⟩ := ih3 h0 hop
        refine ⟨d + n, fun m => ?_⟩
        rw [show d + n + m = d + (n + m) from by omega, hd (n + m)]
        exact hn m


/-! ## List bookkeeping for the window scheduler -/

lemma getD_le_sum (l : List ℕ) : ∀ i, l.getD i 0 ≤ l.sum := by
  induction l with
  | nil => intro i; simp [List.getD]
  | cons a t ih =>
    intro i
    cases i with
    | zero => simp [List.getD]
    | succ i =>
      have := ih i
      simp only [List.getD_cons_succ, List.sum_cons]
      omega

lemma sum_set (l : List ℕ) : ∀ i a, i < l.length →
    (l.set i a).sum + l.getD i 0 = l.sum + a := by
  induction l with
  | nil => intro i a h; simp at h
  | cons b t ih =>
    intro i a h
    cases i with
    | zero => simp [List.getD]; omega
    | succ i =>
      simp only [List.set_cons_succ, List.sum_cons, List.getD_cons_succ]
      have := ih i a (by simp at h; omega)
      omega

lemma countP_set (l : List ℕ) (p : ℕ → Bool) : ∀ i a, i < l.length →
    (l.set i a).countP p + (if p (l.getD i 0) then 1 else 0)
      = l.countP p + (if p a then 1 else 0) := by
  induction l with
  | nil => intro i a h; simp at h
  | cons b t ih =>
    intro i a h
    cases i with
    | zero =>
      simp only [List.set_cons_zero, List.countP_cons, List.getD_cons_zero]
      omega
    | succ i =>
      simp only [List.set_cons_succ, List.countP_cons, List.getD_cons_succ]
      have := ih i a (by simp at h; omega)
      omega

lemma getD_map (l : List BPState) (i : ℕ) :
    (l.map BPState.idx).getD i 0 = if i < l.length then (l.getD i dfltSt).idx else 0 := by
  by_cases h : i < l.length
  · rw [if_pos h, List.getD_eq_getElem _ _ (by rw [List.length_map]; exact h),
      List.getD_eq_getElem _ _ h, List.getElem_map]
  · rw [if_neg h, List.getD_eq_default _ _ (by rw [List.length_map]; omega)]

lemma set_getD_eq {α : Type} (l : List α) (i : ℕ) (d : α) (h : i < l.length) :
    l.set i (l.getD i d) = l := by
  rw [List.getD_eq_getElem _ _ h]
  apply List.ext_getElem
  · rw [List.length_set]
  · intro j h1 h2
    by_cases hj : j = i
    · subst hj
      rw [List.getElem_set_self]
    · rw [List.getElem_set_ne (fun hc => hj hc.symm)]

lemma mem_set_subset {α : Type} (l : List α) (i : ℕ) (a q : α)
    (hq : q ∈ l.set i a) : q ∈ l ∨ q = a := by
  obtain ⟨j, hj, hjq⟩ := List.mem_iff_getElem.mp hq
  by_cases hji : j = i
  · subst hji
    rw [List.getElem_set_self] at hjq
    · exact Or.inr hjq.symm
  · rw [List.getElem_set_ne (fun hc => hji hc.symm)] at hjq
    exact Or.inl (hjq ▸ List.getElem_mem _)

lemma mem_set_self {α : Type} (l : List α) (i : ℕ) (a : α) (h : i < l.length) :
    a ∈ l.set i a := by
  apply List.mem_iff_getElem.mpr
  refine ⟨i, by rw [List.length_set]; exact h, ?_⟩
  exact List.getElem_set_self _

lemma mem_set_or {α : Type} (l : List α) (i : ℕ) (a q : α) (d : α) (h : i < l.length)
    (hq : q ∈ l) : q ∈ l.set i a ∨ q = l.getD i d := by
  obtain ⟨j, hj, hjq⟩ := List.mem_iff_getElem.mp hq
  by_cases hji : j = i
  · subst hji
    rw [List.getD_eq_getElem _ _ hj]
    exact Or.inr hjq.symm
  · refine Or.inl (List.mem_iff_getElem.mpr
      ⟨j, by rw [List.length_set]; exact hj, ?_⟩)
    rw [List.getElem_set_ne (fun hc => hji hc.symm)]
    exact hjq

lemma getD_dropLast {α : Type} (l : List α) (j : ℕ) (d : α) (h : j < l.length - 1) :
    l.dropLast.getD j d = l.getD j d := by
  rw [List.getD_eq_getElem _ _ (by rw [List.length_dropLast]; exact h),
    List.getD_eq_getElem _ _ (by omega), List.getElem_dropLast]

lemma sum_dropLast (l : List ℕ) (h : l ≠ []) :
    l.dropLast.sum + l.getD (l.length - 1) 0 = l.sum := by
  conv_rhs => rw [← List.dropLast_append_getLast h]
  rw [List.sum_append, List.sum_cons, List.sum_nil,
    List.getLast_eq_getElem, List.getD_eq_getElem _ _ (by
      cases l with
      | nil => exact absurd rfl h
      | cons a t => simp)]
  omega

lemma countP_dropLast (l : List ℕ) (p : ℕ → Bool) (h : l ≠ []) :
    l.dropLast.countP p + (if p (l.getD (l.length - 1) 0) then 1 else 0)
      = l.countP p := by
  conv_rhs => rw [← List.dropLast_append_getLast h]
  rw [List.countP_append, List.countP_cons, List.countP_nil,
    List.getLast_eq_getElem, List.getD_eq_getElem _ _ (by
      cases l with
      | nil => exact absurd rfl h
      | cons a t => simp)]
  omega

lemma mem_set_dropLast {α : Type} (l : List α) (i : ℕ) (d : α) (hi : i < l.length)
    (q : α) (hq : q ∈ l) :
    q ∈ (l.set i (l.getD (l.length - 1) d)).dropLast ∨ q = l.getD i d := by
  obtain ⟨j, hj, hjq⟩ := List.mem_iff_getElem.mp hq
  by_cases hji : j = i
  · subst hji
    rw [List.getD_eq_getElem _ _ hj]
    exact Or.inr hjq.symm
  · refine Or.inl ?_
    by_cases hlast : j = l.length - 1
    · have hil : i < l.length - 1 := by omega
      refine List.mem_iff_getElem.mpr
        ⟨i, by rw [List.length_dropLast, List.length_set]; exact hil, ?_⟩
      rw [List.getElem_dropLast, List.getElem_set_self, List.getD_eq_getElem _ _ (by omega)]
      · rw [← hjq]
        congr 1
        omega
    · have hjl : j < l.length - 1 := by omega
      refine List.mem_iff_getElem.mpr
        ⟨j, by rw [List.length_dropLast, List.length_set]; exact hjl, ?_⟩
      rw [List.getElem_dropLast, List.getElem_set_ne (fun hc => hji hc.symm)]
      exact hjq

lemma getLast_set_getD (l : List ℕ) (i : ℕ) (hi : i < l.length) :
    (l.set i (l.getD (l.length - 1) 0)).getD ((l.set i (l.getD (l.length - 1) 0)).length - 1) 0
      = l.getD (l.length - 1) 0 := by
  rw [List.length_set]
  by_cases hil : i = l.length - 1
  · subst hil
    exact getD_set_self _ _ _ _ (by omega)
  · exact getD_set_ne _ _ _ _ _ (fun hc => hil hc)

/-- Default pipeline state (placeholder for out-of-range reads). -/
def dfltSt : BPState :=
  { idx := 0, sft := 0, cur := 0, mark := 0, set := 0, line := none, onPatch := false }

lemma bpRound_next_idx (H : List ℕ → ℕ → ℕ) (base patch : View) (keys : ℕ → List ℕ)
    (st st2 : BPState) (h : bpRound H base patch keys st = .next st2) :
    st2.idx = st.idx := by
  unfold bpRound at h
  cases hl : st.line with
  | some slot =>
    rw [hl] at h
    simp only at h
    by_cases hc : keys st.idx
        = ((if st.onPatch then patch else base).content.getD slot []).take base.key_len
    · rw [if_pos hc] at h
      exact BPAct.noConfusion h
    · rw [if_neg hc] at h
      have := BPAct.next.inj h
      rw [← this]
  | none =>
    rw [hl] at h
    simp only at h
    cases hs : bpScanGo (if st.onPatch then patch else base).guide st.set st.mark
        st.sft 64 st.cur with
    | cand cur2 off =>
      rw [hs] at h
      simp only at h
      have := BPAct.next.inj h
      rw [← this]
    | term =>
      rw [hs] at h
      simp only at h
      by_cases hop : st.onPatch
      · rw [if_pos hop] at h
        have := BPAct.next.inj h
        rw [← this]
        rfl
      · rw [if_neg hop] at h
        exact BPAct.noConfusion h
    | setEnd =>
      rw [hs] at h
      simp only at h
      have := BPAct.next.inj h
      rw [← this]


/-- The window scheduler resolves every in-flight and every pending query,
fills that query's output cell with its resolution (or the default on a
miss), counts its hit, and leaves all other cells untouched. -/
lemma bpRun_sim (H : List ℕ → ℕ → ℕ) (base pack0 : View) (keys : ℕ → List ℕ)
    (usePatch : Bool) (batch : ℕ) (dft : Option (List ℕ))
    (expected : ℕ → Option (List ℕ)) (N : ℕ → ℕ)
    (hp0 : (if usePatch then pack0 else base) = pack0)
    (hN : ∀ q, bpSteps H base pack0 keys
      (bindPipeline H pack0 usePatch (keys q) q) (N q) = some (expected q)) :
    ∀ μ : ℕ, ∀ (states : List BPState) (fs : List ℕ) (nextIdx hit : ℕ)
      (out : List (Option (List ℕ))) (i : ℕ),
    fs.length = states.length →
    i ≤ states.length →
    (states.length = 0 → batch ≤ nextIdx) →
    (∀ j, j < states.length →
      bpSteps H base pack0 keys (states.getD j dfltSt) (fs.getD j 0)
        = some (expected ((states.getD j dfltSt).idx))) →
    fs.sum + ((List.range' nextIdx (batch - nextIdx)).map (fun q => N q + 1)).sum ≤ μ →
    ∃ fuel hit2 out2,
      bpRun H base pack0 keys (fun idx v o => o.set idx v) dft usePatch batch
        states nextIdx hit out i fuel = some (hit2, out2) ∧
      hit2 = hit + (states.map BPState.idx
        ++ List.range' nextIdx (batch - nextIdx)).countP
          (fun q => (expected q).isSome) ∧
      out2.length = out.length ∧
      (∀ q, q ∈ states.map BPState.idx ++ List.range' nextIdx (batch - nextIdx) →
        q < out.length →
        out2.getD q none = resOrDft dft (expected q)) ∧
      (∀ q, q ∉ states.map BPState.idx ++ List.range' nextIdx (batch - nextIdx) →
        out2.getD q none = out.getD q none) := by
  intro μ
  induction μ with
  | zero =>
    intro states fs nextIdx hit out i hlen hi hemp hinv hμ
    cases hst : states with
    | cons st rest =>
      exfalso
      have h0 := hinv 0 (by rw [hst]; simp)
      have hf0 : fs.getD 0 0 = 0 := by
        have := getD_le_sum fs 0
        omega
      rw [hf0] at h0
      exact Option.noConfusion h0
    | nil =>
      subst hst
      have hb : batch ≤ nextIdx := hemp rfl
      refine ⟨0 + 1, hit, out, ?_, ?_, rfl, ?_, ?_⟩
      · rw [bpRun, if_pos (show List.length ([] : List BPState) = 0 from rfl)]
      · rw [show batch - nextIdx = 0 from by omega]
        simp
      · intro q hq
        rw [show batch - nextIdx = 0 from by omega] at hq
        simp at hq
      · intro q _
        rfl
  | succ μ ihμ =>
    intro states fs nextIdx hit out i hlen hi hemp hinv hμ
    by_cases hne0 : states.length = 0
    · have hb : batch ≤ nextIdx := hemp hne0
      have hst : states = [] := List.length_eq_zero.mp hne0
      subst hst
      refine ⟨0 + 1, hit, out, ?_, ?_, rfl, ?_, ?_⟩
      · rw [bpRun, if_pos (show List.length ([] : List BPState) = 0 from rfl)]
      · rw [show batch - nextIdx = 0 from by omega]
        simp
      · intro q hq
        rw [show batch - nextIdx = 0 from by omega] at hq
        simp at hq
      · intro q _
        rfl
    · have hpos : 0 < states.length := Nat.pos_of_ne_zero hne0
      have hmemii : ∀ ii, ii < states.length →
          (states.getD ii dfltSt).idx ∈ states.map BPState.idx := by
        intro ii hii
        apply List.mem_map.mpr
        refine ⟨states.getD ii dfltSt, ?_, rfl⟩
        rw [List.getD_eq_getElem _ _ hii]
        exact List.getElem_mem _
      have hkey : ∀ ii, ii < states.length →
          ∃ fuel hit2 out2,
            bpRun H base pack0 keys (fun idx v o => o.set idx v) dft usePatch batch
              states nextIdx hit out ii fuel = some (hit2, out2) ∧
            hit2 = hit + (states.map BPState.idx
              ++ List.range' nextIdx (batch - nextIdx)).countP
                (fun q => (expected q).isSome) ∧
            out2.length = out.length ∧
            (∀ q, q ∈ states.map BPState.idx
                ++ List.range' nextIdx (batch - nextIdx) →
              q < out.length →
              out2.getD q none = resOrDft dft (expected q)) ∧
            (∀ q, q ∉ states.map BPState.idx
                ++ List.range' nextIdx (batch - nextIdx) →
              out2.getD q none = out.getD q none) := by
        intro ii hii
        have hgd : states.get ⟨ii, hii⟩ = states.getD ii dfltSt := by
          rw [List.getD_eq_getElem _ _ hii]
          rfl
        have hfs1 : 1 ≤ fs.getD ii 0 := by
          by_contra hc
          have h0 := hinv ii hii
          rw [show fs.getD ii 0 = 0 from by omega] at h0
          exact Option.noConfusion h0
        cases hr : bpRound H base pack0 keys (states.getD ii dfltSt) with
        | next st2 =>
          have hidx2 : st2.idx = (states.getD ii dfltSt).idx :=
            bpRound_next_idx H base pack0 keys _ _ hr
          have hsm : bpSteps H base pack0 keys st2 (fs.getD ii 0 - 1)
              = some (expected ((states.getD ii dfltSt).idx)) := by
            have hstep := hinv ii hii
            rw [show fs.getD ii 0 = (fs.getD ii 0 - 1) + 1 from by omega,
              bpSteps_next H base pack0 keys _ _ hr] at hstep
            exact hstep
          have hflight : (states.set ii st2).map BPState.idx
              = states.map BPState.idx := by
            rw [List.map_set]
            rw [show st2.idx = (states.map BPState.idx).getD ii 0 from by
              rw [getD_map, if_pos hii, hidx2]]
            exact set_getD_eq _ _ _ (by rw [List.length_map]; exact hii)
          obtain ⟨F, hit2, out2, hrun, h1, h2, h3, h4⟩ :=
            ihμ (states.set ii st2) (fs.set ii (fs.getD ii 0 - 1)) nextIdx hit out
              (ii + 1)
              (by rw [List.length_set, List.length_set]; exact hlen)
              (by rw [List.length_set]; omega)
              (by rw [List.length_set]; exact hemp)
              (by
                intro j hj
                rw [List.length_set] at hj
                by_cases hji : j = ii
                · subst hji
                  rw [getD_set_self _ _ _ _ hii,
                    getD_set_self _ _ _ _ (by omega), hidx2]
                  exact hsm
                · rw [getD_set_ne _ _ _ _ _ (fun hc => hji hc.symm),
                    getD_set_ne _ _ _ _ _ (fun hc => hji hc.symm)]
                  exact hinv j hj)
              (by
                have hss := sum_set fs ii (fs.getD ii 0 - 1) (by omega)
                omega)
          refine ⟨F + 1, hit2, out2, ?_, ?_, h2, ?_, ?_⟩
          · rw [bpRun, if_neg hne0, dif_pos hii]
            have hgr : bpRound H base pack0 keys (states.get ⟨ii, hii⟩)
                = .next st2 := by
              rw [hgd]
              exact hr
            simp only [hgr]
            exact hrun
          · rw [← hflight]
            exact h1
          · intro q hq hqo
            apply h3 q _ hqo
            rw [hflight]
            exact hq
          · intro q hq
            apply h4 q
            rw [hflight]
            exact hq
        | reload res =>
          have hres : res = expected ((states.getD ii dfltSt).idx) := by
            have hstep := hinv ii hii
            rw [show fs.getD ii 0 = (fs.getD ii 0 - 1) + 1 from by omega,
              bpSteps_reload H base pack0 keys _ _ hr] at hstep
            exact Option.some.inj hstep
          by_cases hnb : nextIdx < batch
          · have hflight : (states.set ii
                  (bindPipeline H pack0 usePatch (keys nextIdx) nextIdx)).map
                  BPState.idx
                = (states.map BPState.idx).set ii nextIdx := by
              rw [List.map_set]
              rfl
            have hpend : List.range' nextIdx (batch - nextIdx)
                = nextIdx :: List.range' (nextIdx + 1) (batch - (nextIdx + 1)) := by
              rw [show batch - nextIdx = (batch - (nextIdx + 1)) + 1 from by omega,
                List.range'_succ]
            obtain ⟨F, hit2, out2, hrun, h1, h2, h3, h4⟩ :=
              ihμ (states.set ii (bindPipeline H pack0 usePatch (keys nextIdx) nextIdx))
                (fs.set ii (N nextIdx)) (nextIdx + 1)
                (hit + if res.isSome then 1 else 0)
                (out.set (states.getD ii dfltSt).idx (resOrDft dft res))
                (ii + 1)
                (by rw [List.length_set, List.length_set]; exact hlen)
                (by rw [List.length_set]; omega)
                (by rw [List.length_set]; intro h; exact absurd h hne0)
                (by
                  intro j hj
                  rw [List.length_set] at hj
                  by_cases hji : j = ii
                  · subst hji
                    rw [getD_set_self _ _ _ _ hii, getD_set_self _ _ _ _ (by omega)]
                    exact hN nextIdx
                  · rw [getD_set_ne _ _ _ _ _ (fun hc => hji hc.symm),
                      getD_set_ne _ _ _ _ _ (fun hc => hji hc.symm)]
                    exact hinv j hj)
                (by
                  have hss := sum_set fs ii (N nextIdx) (by omega)
                  have hps : ((List.range' nextIdx (batch - nextIdx)).map
                      (fun q => N q + 1)).sum
                      = (N nextIdx + 1) + ((List.range' (nextIdx + 1)
                        (batch - (nextIdx + 1))).map (fun q => N q + 1)).sum := by
                    rw [hpend, List.map_cons, List.sum_cons]
                  omega)
            refine ⟨F + 1, hit2, out2, ?_, ?_, ?_, ?_, ?_⟩
            · rw [bpRun, if_neg hne0, dif_pos hii]
              have hgr : bpRound H base pack0 keys (states.get ⟨ii, hii⟩)
                  = .reload res := by
                rw [hgd]
                exact hr
              simp only [hgr]
              rw [if_pos hnb, hp0, hgd]
              exact hrun
            · have hcps : ((states.map BPState.idx).set ii nextIdx).countP
                    (fun q => (expected q).isSome)
                  + (if (expected ((states.getD ii dfltSt).idx)).isSome then 1 else 0)
                  = (states.map BPState.idx).countP (fun q => (expected q).isSome)
                    + (if (expected nextIdx).isSome then 1 else 0) := by
                have hx := countP_set (states.map BPState.idx)
                  (fun q => (expected q).isSome) ii nextIdx
                  (by rw [List.length_map]; exact hii)
                rw [getD_map, if_pos hii] at hx
                exact hx
              rw [h1, hflight, hpend, List.countP_append, List.countP_append,
                List.countP_cons, hres]
              omega
            · rw [h2, List.length_set]
            · intro q hq hqo
              by_cases hqn : q ∈ (states.set ii (bindPipeline H pack0 usePatch
                  (keys nextIdx) nextIdx)).map BPState.idx
                  ++ List.range' (nextIdx + 1) (batch - (nextIdx + 1))
              · exact h3 q hqn (by rw [List.length_set]; exact hqo)
              · have hqi : q = (states.getD ii dfltSt).idx := by
                  rcases List.mem_append.mp hq with hqf | hqp
                  · rcases mem_set_or (states.map BPState.idx) ii nextIdx q 0
                        (by rw [List.length_map]; exact hii) hqf with hin2 | heq
                    · exact absurd (List.mem_append.mpr (Or.inl
                        (by rw [hflight]; exact hin2))) hqn
                    · rw [getD_map, if_pos hii] at heq
                      exact heq
                  · rw [hpend] at hqp
                    rcases List.mem_cons.mp hqp with hq1 | hq2
                    · exfalso
                      apply hqn
                      apply List.mem_append.mpr
                      refine Or.inl ?_
                      rw [hflight, hq1]
                      exact mem_set_self _ _ _ (by rw [List.length_map]; exact hii)
                    · exact absurd (List.mem_append.mpr (Or.inr hq2)) hqn
                rw [h4 q hqn, hqi, getD_set_self _ _ _ _ (by
                    rw [← hqi]
                    exact hqo), hres]
            · intro q hq
              have hqn : q ∉ (states.set ii (bindPipeline H pack0 usePatch
                  (keys nextIdx) nextIdx)).map BPState.idx
                  ++ List.range' (nextIdx + 1) (batch - (nextIdx + 1)) := by
                intro hc
                rcases List.mem_append.mp hc with hqf | hqp
                · rw [hflight] at hqf
                  rcases mem_set_subset _ _ _ _ hqf with h | h
                  · exact hq (List.mem_append.mpr (Or.inl h))
                  · apply hq
                    apply List.mem_append.mpr
                    refine Or.inr ?_
                    rw [hpend, h]
                    exact List.mem_cons_self _ _
                · apply hq
                  apply List.mem_append.mpr
                  refine Or.inr ?_
                  rw [hpend]
                  exact List.mem_cons_of_mem _ hqp
              rw [h4 q hqn, getD_set_ne _ _ _ _ _ (fun hc =>
                hq (List.mem_append.mpr (Or.inl (by rw [← hc]; exact hmemii ii hii))))]
          · have hb0 : batch - nextIdx = 0 := by omega
            have hLne : states ≠ [] := by
              intro hc
              rw [hc] at hne0
              exact hne0 rfl
            have hlast : states.getLast hLne = states.getD (states.length - 1) dfltSt := by
              rw [List.getLast_eq_getElem, List.getD_eq_getElem _ _ (by omega)]
            have hLlen : (states.map BPState.idx).length = states.length :=
              List.length_map _ _
            have hlv : ((states.set ii (states.getLast hLne)).dropLast).map BPState.idx
                = ((states.map BPState.idx).set ii
                    ((states.map BPState.idx).getD (states.length - 1) 0)).dropLast := by
              rw [hlast, List.map_dropLast, List.map_set,
                show (states.getD (states.length - 1) dfltSt).idx
                  = (states.map BPState.idx).getD (states.length - 1) 0 from by
                  rw [getD_map, if_pos (by omega)]]
            obtain ⟨F, hit2, out2, hrun, h1, h2, h3, h4⟩ :=
              ihμ ((states.set ii (states.getLast hLne)).dropLast)
                ((fs.set ii (fs.getD (fs.length - 1) 0)).dropLast) nextIdx
                (hit + if res.isSome then 1 else 0)
                (out.set (states.getD ii dfltSt).idx (resOrDft dft res))
                ii
                (by rw [List.length_dropLast, List.length_dropLast,
                    List.length_set, List.length_set, hlen])
                (by rw [List.length_dropLast, List.length_set]; omega)
                (fun _ => by omega)
                (by
                  intro j hj
                  rw [List.length_dropLast, List.length_set] at hj
                  rw [getD_dropLast _ _ _ (by rw [List.length_set]; exact hj),
                    getD_dropLast _ _ _ (by rw [List.length_set]; omega)]
                  by_cases hji : j = ii
                  · subst hji
                    rw [getD_set_self _ _ _ _ hii, getD_set_self _ _ _ _ (by omega),
                      hlast]
                    have hlast2 := hinv (states.length - 1) (by omega)
                    rw [show fs.length - 1 = states.length - 1 from by omega]
                    exact hlast2
                  · rw [getD_set_ne _ _ _ _ _ (fun hc => hji hc.symm),
                      getD_set_ne _ _ _ _ _ (fun hc => hji hc.symm)]
                    exact hinv j (by omega))
                (by
                  have hsetne : fs.set ii (fs.getD (fs.length - 1) 0) ≠ [] := by
                    intro hc
                    have hcl := congrArg List.length hc
                    rw [List.length_set] at hcl
                    simp only [List.length_nil] at hcl
                    omega
                  have hsd := sum_dropLast (fs.set ii (fs.getD (fs.length - 1) 0))
                    hsetne
                  rw [getLast_set_getD fs ii (by omega)] at hsd
                  have hss := sum_set fs ii (fs.getD (fs.length - 1) 0) (by omega)
                  have hpz : ((List.range' nextIdx (batch - nextIdx)).map
                      (fun q => N q + 1)).sum = 0 := by
                    rw [hb0]
                    rfl
                  omega)
            refine ⟨F + 1, hit2, out2, ?_, ?_, ?_, ?_, ?_⟩
            · rw [bpRun, if_neg hne0, dif_pos hii]
              have hgr : bpRound H base pack0 keys (states.get ⟨ii, hii⟩)
                  = .reload res := by
                rw [hgd]
                exact hr
              simp only [hgr]
              rw [if_neg hnb, hgd]
              exact hrun
            · have hsetLne : (states.map BPState.idx).set ii
                  ((states.map BPState.idx).getD (states.length - 1) 0) ≠ [] := by
                intro hc
                have hcl := congrArg List.length hc
                rw [List.length_set, hLlen] at hcl
                simp only [List.length_nil] at hcl
                omega
              have hgl2 : ((states.map BPState.idx).set ii
                  ((states.map BPState.idx).getD (states.length - 1) 0)).getD
                  (((states.map BPState.idx).set ii
                    ((states.map BPState.idx).getD (states.length - 1) 0)).length - 1) 0
                  = (states.map BPState.idx).getD (states.length - 1) 0 := by
                have hx := getLast_set_getD (states.map BPState.idx) ii
                  (by rw [hLlen]; exact hii)
                rw [hLlen] at hx
                exact hx
              have hcpd2 : (((states.map BPState.idx).set ii
                    ((states.map BPState.idx).getD (states.length - 1) 0)).dropLast).countP
                    (fun q => (expected q).isSome)
                  + (if (expected ((states.map BPState.idx).getD
                      (states.length - 1) 0)).isSome then 1 else 0)
                  = ((states.map BPState.idx).set ii
                      ((states.map BPState.idx).getD (states.length - 1) 0)).countP
                      (fun q => (expected q).isSome) := by
                have hx := countP_dropLast ((states.map BPState.idx).set ii
                  ((states.map BPState.idx).getD (states.length - 1) 0))
                  (fun q => (expected q).isSome) hsetLne
                rw [hgl2] at hx
                exact hx
              have hcps : ((states.map BPState.idx).set ii
                    ((states.map BPState.idx).getD (states.length - 1) 0)).countP
                    (fun q => (expected q).isSome)
                  + (if (expected ((states.getD ii dfltSt).idx)).isSome then 1 else 0)
                  = (states.map BPState.idx).countP (fun q => (expected q).isSome)
                    + (if (expected ((states.map BPState.idx).getD
                        (states.length - 1) 0)).isSome then 1 else 0) := by
                have hx := countP_set (states.map BPState.idx)
                  (fun q => (expected q).isSome) ii
                  ((states.map BPState.idx).getD (states.length - 1) 0)
                  (by rw [hLlen]; exact hii)
                rw [show (states.map BPState.idx).getD ii 0
                  = (states.getD ii dfltSt).idx from by
                  rw [getD_map, if_pos hii]] at hx
                exact hx
              rw [h1, hlv, List.countP_append, List.countP_append, hres]
              omega
            · rw [h2, List.length_set]
            · intro q hq hqo
              by_cases hqn : q ∈ ((states.set ii (states.getLast hLne)).dropLast).map
                  BPState.idx ++ List.range' nextIdx (batch - nextIdx)
              · exact h3 q hqn (by rw [List.length_set]; exact hqo)
              · have hqf : q ∈ states.map BPState.idx := by
                  rcases List.mem_append.mp hq with h | h
                  · exact h
                  · rw [hb0] at h
                    exact absurd h (List.not_mem_nil q)
                have hsplit := mem_set_dropLast (states.map BPState.idx) ii 0
                  (by rw [hLlen]; exact hii) q hqf
                rw [hLlen] at hsplit
                rcases hsplit with hq1 | hq2
                · exact absurd (List.mem_append.mpr (Or.inl
                    (by rw [hlv]; exact hq1))) hqn
                · rw [getD_map, if_pos hii] at hq2
                  rw [h4 q hqn, hq2, getD_set_self _ _ _ _ (by
                      rw [← hq2]
                      exact hqo), hres]
            · intro q hq
              have hqn : q ∉ ((states.set ii (states.getLast hLne)).dropLast).map
                  BPState.idx ++ List.range' nextIdx (batch - nextIdx) := by
                intro hc
                rcases List.mem_append.mp hc with h | h
                · rw [hlv] at h
                  have h2d := List.dropLast_subset _ h
                  rcases mem_set_subset _ _ _ _ h2d with h3d | h3d
                  · exact hq (List.mem_append.mpr (Or.inl h3d))
                  · apply hq
                    apply List.mem_append.mpr
                    refine Or.inl ?_
                    rw [h3d, List.getD_eq_getElem _ _ (by rw [hLlen]; omega)]
                    exact List.getElem_mem _
                · exact hq (List.mem_append.mpr (Or.inr h))
              rw [h4 q hqn, getD_set_ne _ _ _ _ _ (fun hc =>
                hq (List.mem_append.mpr (Or.inl (by rw [← hc]; exact hmemii ii hii))))]
      by_cases hilt : i < states.length
      · exact hkey i hilt
      · obtain ⟨F, hit2, out2, hrun, h1, h2, h3, h4⟩ := hkey 0 (by omega)
        refine ⟨F + 1, hit2, out2, ?_, h1, h2, h3, h4⟩
        rw [bpRun, if_neg hne0, dif_neg hilt]
        exact hrun


lemma resOrDft_none (r : Option (List ℕ)) : resOrDft none r = r := by
  cases r <;> rfl

/-- The spec's description of a batched lookup: the patch (when one is
overlaid) is probed first, a hit wins, a miss falls back to the base
(modelled on the spec's wording, for comparison with `BatchProcess`). -/
def searchOverlay (H : List ℕ → ℕ → ℕ) (base : View) (patch : Option View)
    (key : List ℕ) : Option (Option (List ℕ)) :=
  match patch with
  | none => HashtableSearch H (some base) base.set_cnt key
  | some pv =>
    match HashtableSearch H (some pv) pv.set_cnt key with
    | none => none
    | some (some v) => some (some v)
    | some none => HashtableSearch H (some base) base.set_cnt key

/-- `BatchProcess`, past its early returns, computes the patch-then-base
overlay of the single-key search for every query and counts the hits. -/
lemma batchProcess_core (H : List ℕ → ℕ → ℕ) (base pack0 : View) (usePatch : Bool)
    (keys : ℕ → List ℕ) (batch : ℕ) (out0 : List (Option (List ℕ)))
    (ep : Option View)
    (hp0 : (if usePatch then pack0 else base) = pack0)
    (hep : ep = if usePatch then some pack0 else none)
    (hbt : base.type = KEY_SET ∨ base.type = KV_INLINE)
    (hbg : GuideOK base.guide) (hbgl : base.guide.length = 64 * base.set_cnt)
    (hbsc : 1 ≤ base.set_cnt) (hbsc64 : base.set_cnt < 2^64)
    (hbe : ∃ s, s < 64 * base.set_cnt ∧ base.guide.getD s 0 = 0xff)
    (hpt : ¬pack0.type = KV_SEPARATED)
    (hpkl : pack0.key_len = base.key_len) (hpvl : pack0.val_len = base.val_len)
    (hpg : GuideOK pack0.guide) (hpgl : pack0.guide.length = 64 * pack0.set_cnt)
    (hpsc : 1 ≤ pack0.set_cnt) (hpsc64 : pack0.set_cnt < 2^64)
    (hpe : ∃ s, s < 64 * pack0.set_cnt ∧ pack0.guide.getD s 0 = 0xff) :
    ∃ fuel hit out2,
      bpRun H base pack0 keys (fun idx v o => o.set idx v) none usePatch batch
        ((List.range (min batch 16)).map
          (fun idx => bindPipeline H pack0 usePatch (keys idx) idx))
        (min batch 16) 0 out0 0 fuel = some (hit, out2) ∧
      out2.length = out0.length ∧
      (∀ i, i < batch → i < out0.length →
        ∃ r, searchOverlay H base ep (keys i) = some r ∧
          (out2.getD i none).map (fun w => w.take base.val_len) = r) ∧
      (∀ i, batch ≤ i → out2.getD i none = out0.getD i none) ∧
      hit = (List.range batch).countP
        (fun i => ((searchOverlay H base ep (keys i)).getD none).isSome) := by
  have hbts : ¬base.type = KV_SEPARATED := by
    rcases hbt with h | h <;> rw [h] <;> decide
  have hquery : ∀ q, ∃ n r, bpSteps H base pack0 keys
      (bindPipeline H pack0 usePatch (keys q) q) n = some r ∧
      searchOverlay H base ep (keys q)
        = some (r.map (fun w => w.take base.val_len)) := by
    intro q
    obtain ⟨rb, hrb⟩ := probeFirst_resolves base (keys q)
      (hmark H (keys q) base.seed) (hset H (keys q) base.seed base.set_cnt)
      (hsft H (keys q) base.seed) (hmark_lt H (keys q) base.seed) (by omega)
      (hsft_lt H (keys q) base.seed) hbe
    have hsearchb : Search H base (keys q) base.set_cnt = some rb := by
      rw [Search_eq_probe H base (keys q) base.set_cnt hbsc hbsc64
        (guideOK_bytes _ hbg) hbgl]
      exact hrb
    have hHSb : HashtableSearch H (some base) base.set_cnt (keys q)
        = some (rb.map (fun w => w.take base.val_len)) := by
      rw [HashtableSearch]
      simp only [hsearchb]
      cases rb with
      | none => rfl
      | some f =>
        simp only [Option.map_some]
        rw [if_pos hbts]
        rfl
    have hbind : bindPipeline H base false (keys q) q
        = mkSt H base (keys q) q false 0 :=
      bindPipeline_eq_mkSt H base (keys q) q false hbsc hbsc64
    obtain ⟨hP1, hP2, hP3⟩ := bpSteps_of_probe H base pack0 base keys q false
      rfl rfl (guideOK_bytes _ hbg) hbgl hbsc (64 * base.set_cnt) 0 rb hrb
    have hbstep : ∃ nb, bpSteps H base pack0 keys
        (mkSt H base (keys q) q false 0) nb = some rb := by
      cases rb with
      | some val => exact hP1 val rfl
      | none => exact hP2 rfl rfl
    cases husep : usePatch with
    | false =>
      rw [husep] at hp0 hep
      simp only [Bool.false_eq_true, if_false] at hp0 hep
      obtain ⟨nb, hnb⟩ := hbstep
      refine ⟨nb, rb, ?_, ?_⟩
      · rw [show bindPipeline H pack0 false (keys q) q
            = mkSt H base (keys q) q false 0 from by rw [← hp0]; exact hbind]
        exact hnb
      · rw [hep]
        exact hHSb
    | true =>
      rw [husep] at hp0 hep
      simp only [if_true] at hp0 hep
      obtain ⟨rp, hrp⟩ := probeFirst_resolves pack0 (keys q)
        (hmark H (keys q) pack0.seed) (hset H (keys q) pack0.seed pack0.set_cnt)
        (hsft H (keys q) pack0.seed) (hmark_lt H (keys q) pack0.seed) (by omega)
        (hsft_lt H (keys q) pack0.seed) hpe
      have hsearchp : Search H pack0 (keys q) pack0.set_cnt = some rp := by
        rw [Search_eq_probe H pack0 (keys q) pack0.set_cnt hpsc hpsc64
          (guideOK_bytes _ hpg) hpgl]
        exact hrp
      have hbindp : bindPipeline H pack0 true (keys q) q
          = mkSt H pack0 (keys q) q true 0 :=
        bindPipeline_eq_mkSt H pack0 (keys q) q true hpsc hpsc64
      obtain ⟨hQ1, hQ2, hQ3⟩ := bpSteps_of_probe H base pack0 pack0 keys q true
        rfl hpkl (guideOK_bytes _ hpg) hpgl hpsc (64 * pack0.set_cnt) 0 rp hrp
      cases rp with
      | some val =>
        obtain ⟨n, hn⟩ := hQ1 val rfl
        refine ⟨n, some val, ?_, ?_⟩
        · rw [hbindp]
          exact hn
        · rw [hep]
          rw [show searchOverlay H base (some pack0) (keys q)
              = match HashtableSearch H (some pack0) pack0.set_cnt (keys q) with
                | none => none
                | some (some v) => some (some v)
                | some none => HashtableSearch H (some base) base.set_cnt (keys q)
              from rfl]
          rw [show HashtableSearch H (some pack0) pack0.set_cnt (keys q)
              = some (some (val.take pack0.val_len)) from by
            rw [HashtableSearch]
            simp only [hsearchp]
            rw [if_pos hpt]]
          rw [hpvl]
          rfl
      | none =>
        obtain ⟨n, hstep⟩ := hQ3 rfl rfl
        obtain ⟨nb, hnb⟩ := hbstep
        refine ⟨n + nb, rb, ?_, ?_⟩
        · rw [hbindp, hstep nb, hbind]
          exact hnb
        · rw [hep]
          rw [show searchOverlay H base (some pack0) (keys q)
              = match HashtableSearch H (some pack0) pack0.set_cnt (keys q) with
                | none => none
                | some (some v) => some (some v)
                | some none => HashtableSearch H (some base) base.set_cnt (keys q)
              from rfl]
          rw [show HashtableSearch H (some pack0) pack0.set_cnt (keys q)
              = some none from by
            rw [HashtableSearch]
            simp only [hsearchp]]
          exact hHSb
  choose N R hN1 hN2 using hquery
  obtain ⟨fuel, hit2, out2, hrun, hhit, hlen2, hin, hout⟩ :=
    bpRun_sim H base pack0 keys usePatch batch none R N hp0 hN1
      (((List.range (min batch 16)).map N).sum
        + ((List.range' (min batch 16) (batch - min batch 16)).map
            (fun q => N q + 1)).sum)
      ((List.range (min batch 16)).map
        (fun idx => bindPipeline H pack0 usePatch (keys idx) idx))
      ((List.range (min batch 16)).map N)
      (min batch 16) 0 out0 0
      (by rw [List.length_map, List.length_map])
      (by omega)
      (by
        rw [List.length_map, List.length_range]
        intro h
        omega)
      (by
        intro j hj
        rw [List.length_map, List.length_range] at hj
        rw [List.getD_eq_getElem _ _ (by
            rw [List.length_map, List.length_range]
            exact hj),
          List.getD_eq_getElem _ _ (by
            rw [List.length_map, List.length_range]
            exact hj),
          List.getElem_map, List.getElem_map, List.getElem_range]
        exact hN1 j)
      (le_refl _)
  have hfl0 : ((List.range (min batch 16)).map
      (fun idx => bindPipeline H pack0 usePatch (keys idx) idx)).map BPState.idx
      = List.range (min batch 16) := by
    rw [List.map_map]
    show (List.range (min batch 16)).map (fun x => x) = List.range (min batch 16)
    exact List.map_id _
  have hrange : List.range (min batch 16) ++ List.range' (min batch 16)
      (batch - min batch 16) = List.range batch := by
    rw [List.range_eq_range', List.range_eq_range']
    have h2 := List.range'_append 0 (min batch 16) (batch - min batch 16) 1
    simp only [Nat.zero_add, Nat.one_mul] at h2
    rw [h2, show batch - min batch 16 + min batch 16 = batch from by omega]
  refine ⟨fuel, hit2, out2, hrun, hlen2, ?_, ?_, ?_⟩
  · intro i hib hio
    have hmem : i ∈ ((List.range (min batch 16)).map
        (fun idx => bindPipeline H pack0 usePatch (keys idx) idx)).map BPState.idx
        ++ List.range' (min batch 16) (batch - min batch 16) := by
      rw [hfl0, hrange]
      exact List.mem_range.mpr hib
    have hcell := hin i hmem hio
    rw [resOrDft_none] at hcell
    refine ⟨(R i).map (fun w => w.take base.val_len), hN2 i, ?_⟩
    rw [hcell]
  · intro i hib
    apply hout
    rw [hfl0, hrange]
    intro hc
    have := List.mem_range.mp hc
    omega
  · rw [hhit, hfl0, hrange, Nat.zero_add]
    apply List.countP_congr
    intro a _
    rw [hN2 a]
    cases R a <;> rfl


lemma guideOK_of_forall (g : List ℕ)
    (h : ∀ s, s < g.length → g.getD s 0 = 0xff ∨ g.getD s 0 < 0x80) :
    GuideOK g := by
  intro s
  rcases Nat.lt_or_ge s g.length with hs | hs
  · exact h s hs
  · right
    rw [List.getD_eq_getElem?_getD, List.getElem?_eq_none hs]
    decide

/-- C2 (amended): for a loaded `KEY_SET` or `KV_INLINE` base (well-formed
guide covering all slots, with an empty slot) and a patch argument that is
absent, self-referential (both ignored) or a compatible overlay (same type,
`key_len` and `val_len`, itself well-formed), `batch_search` over any batch
size (including 0) fills `out[i]` with the patch-then-base overlay of the
single-key `search` for `keys[i]` — the patch's value when the patch hits,
else the base's value, else null — leaves the cells at or beyond the batch
size untouched, and returns the number of queries that hit in either side.
(A null patch handle is not in this list: its `ILLEGAL_TYPE` view fails the
compatibility check, which returns 0 with the outputs untouched — see
`batch_null_patch_counterexample`.) -/
theorem batch_search_matches_search (H : List ℕ → ℕ → ℕ) (base : View)
    (keys : ℕ → List ℕ) (batch : ℕ) (out0 : List (Option (List ℕ)))
    (papi : Option (Option View)) (pib : Bool)
    (hbt : base.type = KEY_SET ∨ base.type = KV_INLINE)
    (hbg : GuideOK base.guide) (hbgl : base.guide.length = 64 * base.set_cnt)
    (hbsc : 1 ≤ base.set_cnt) (hbsc64 : base.set_cnt < 2^64)
    (hbe : ∃ s, s < 64 * base.set_cnt ∧ base.guide.getD s 0 = 0xff)
    (hmode : papi = none ∨ (papi = some (some base) ∧ pib = true) ∨
      (∃ pv, papi = some (some pv) ∧ pib = false ∧
        pv.type = base.type ∧ pv.key_len = base.key_len ∧
        pv.val_len = base.val_len ∧ GuideOK pv.guide ∧
        pv.guide.length = 64 * pv.set_cnt ∧ 1 ≤ pv.set_cnt ∧
        pv.set_cnt < 2^64 ∧
        ∃ s, s < 64 * pv.set_cnt ∧ pv.guide.getD s 0 = 0xff)) :
    ∃ fuel hit out2,
      HashtableBatchSearch H (some base) batch keys papi pib out0 fuel
        = some (hit, out2) ∧
      out2.length = out0.length ∧
      (∀ i, i < batch → i < out0.length →
        ∃ r, searchOverlay H base (if pib then none else papi.getD none)
            (keys i) = some r ∧
          (out2.getD i none).map (fun w => w.take base.val_len) = r) ∧
      (∀ i, batch ≤ i → out2.getD i none = out0.getD i none) ∧
      hit = (List.range batch).countP (fun i =>
        ((searchOverlay H base (if pib then none else papi.getD none)
          (keys i)).getD none).isSome) := by
  have hbts : ¬base.type = KV_SEPARATED := by
    rcases hbt with h | h <;> rw [h] <;> decide
  rcases hmode with hA | ⟨hB, hpib⟩ |
    ⟨pv, hC, hpib, hpvt, hpvkl, hpvvl, hpvg, hpvgl, hpvsc, hpvsc64, hpve⟩
  · subst hA
    have hcond : ¬(base.type = KV_SEPARATED ∨
        patchIncompatible base none = true) := by
      rintro (h | h)
      · exact hbts h
      · exact Bool.noConfusion (show false = true from h)
    obtain ⟨fuel, hit, out2, hrun, hlen, hin, hout, hhit⟩ :=
      batchProcess_core H base base false keys batch out0 none rfl rfl hbt hbg
        hbgl hbsc hbsc64 hbe hbts rfl rfl hbg hbgl hbsc hbsc64 hbe
    cases pib with
    | false =>
      refine ⟨fuel, hit, out2, ?_, hlen, hin, hout, hhit⟩
      show (if base.type = KV_SEPARATED ∨ patchIncompatible base none = true
          then some (0, out0) else _) = some (hit, out2)
      rw [if_neg hcond]
      exact hrun
    | true =>
      refine ⟨fuel, hit, out2, ?_, hlen, hin, hout, hhit⟩
      show (if base.type = KV_SEPARATED ∨ patchIncompatible base none = true
          then some (0, out0) else _) = some (hit, out2)
      rw [if_neg hcond]
      exact hrun
  · subst hB
    subst hpib
    have hcond : ¬(base.type = KV_SEPARATED ∨
        patchIncompatible base (some base) = true) := by
      rintro (h | h)
      · exact hbts h
      · simp [patchIncompatible] at h
    obtain ⟨fuel, hit, out2, hrun, hlen, hin, hout, hhit⟩ :=
      batchProcess_core H base base false keys batch out0 none rfl rfl hbt hbg
        hbgl hbsc hbsc64 hbe hbts rfl rfl hbg hbgl hbsc hbsc64 hbe
    refine ⟨fuel, hit, out2, ?_, hlen, hin, hout, hhit⟩
    show (if base.type = KV_SEPARATED ∨ patchIncompatible base (some base) = true
        then some (0, out0) else _) = some (hit, out2)
    rw [if_neg hcond]
    exact hrun
  · subst hC
    subst hpib
    have hpts : ¬pv.type = KV_SEPARATED := by
      rw [hpvt]
      exact hbts
    have hcond : ¬(base.type = KV_SEPARATED ∨
        patchIncompatible base (some pv) = true) := by
      rintro (h | h)
      · exact hbts h
      · simp [patchIncompatible, hpvt, hpvkl, hpvvl] at h
    obtain ⟨fuel, hit, out2, hrun, hlen, hin, hout, hhit⟩ :=
      batchProcess_core H base pv true keys batch out0 (some pv) rfl rfl hbt hbg
        hbgl hbsc hbsc64 hbe hpts hpvkl hpvvl hpvg hpvgl hpvsc hpvsc64 hpve
    refine ⟨fuel, hit, out2, ?_, hlen, hin, hout, hhit⟩
    show (if base.type = KV_SEPARATED ∨ patchIncompatible base (some pv) = true
        then some (0, out0) else _) = some (hit, out2)
    rw [if_neg hcond]
    exact hrun

/-- A concrete one-set `KEY_SET` table holding the single key `[9]` (under
the constant-zero hash every key probes set 0, offset 0, mark 0). -/
def cBase : View :=
  { type := KEY_SET, key_len := 1, val_len := 0, line_size := 1, seed := 0,
    item := 1, set_cnt := 1, guide := 0 :: List.replicate 63 0xff,
    content := [9] :: List.replicate 63 [0], extend := [] }

set_option maxRecDepth 100000 in
/-- Witness for the amended C2: a one-query batch with an absent patch on a
concrete one-slot `KEY_SET` table. -/
theorem batch_search_matches_search_witness :
    ∃ fuel hit out2,
      HashtableBatchSearch (fun _ _ => 0) (some cBase) 1 (fun _ => [9]) none
        false [none] fuel = some (hit, out2) ∧
      out2.length = 1 ∧
      (∀ i, i < 1 → i < 1 →
        ∃ r, searchOverlay (fun _ _ => 0) cBase none [9] = some r ∧
          (out2.getD i none).map (fun w => w.take cBase.val_len) = r) ∧
      (∀ i, 1 ≤ i → out2.getD i none
          = ([none] : List (Option (List ℕ))).getD i none) ∧
      hit = (List.range 1).countP (fun i =>
        ((searchOverlay (fun _ _ => 0) cBase none [9]).getD none).isSome) :=
  batch_search_matches_search (fun _ _ => 0) cBase (fun _ => [9]) 1 [none] none
    false (Or.inl rfl) (guideOK_of_forall _ (by decide)) (by decide)
    (by decide) (by decide) ⟨1, by decide, by decide⟩ (Or.inl rfl)

set_option maxRecDepth 1000000 in
/-- Counterexample to C2 as claimed: a null patch handle is not ignored.
With `patch` a non-null argument holding a null handle (an `ILLEGAL_TYPE`
view), `batch_search` fails the compatibility check and returns hit count 0
with the output array untouched, although the plain `search` for the same
key hits the base table. -/
theorem batch_null_patch_counterexample :
    HashtableBatchSearch (fun _ _ => 0) (some cBase) 1 (fun _ => [9])
      (some none) false [none] 1 = some (0, [none]) ∧
    HashtableSearch (fun _ _ => 0) (some cBase) cBase.set_cnt [9]
      = some (some []) := by
  decide

end SSHT
